import Mathlib

set_option autoImplicit false

/-!
# memstore: key locking protocol of the command handlers

Shallow embedding of the command handlers of `src/modules/etc/commands.go` and
`src/modules/hash/commands.go`.  A handler is a function from the token list and the
server state to a reply and the next server state.  Every call a handler makes on
`utils.Server` is appended to the log of the state, so that statements about the order and
the number of lock operations are statements about that log.

Three things are not fixed by the handler text and are explicit inputs:
* the result of each lock acquisition (`Server.pending`),
* the order in which a Go `range` over a map yields its keys,
* the numbers drawn from `math/rand`.
-/

namespace Memstore

/-! ## Values -/

/-- Payload of a Go `float64`.  The handlers never compare floats; arithmetic, parsing and
printing are library primitives carried by `Env`. -/
structure Float64 where
  bits : Nat
deriving DecidableEq, Repr

/-- Dynamic value held in an `interface{}`: the nil interface, `int`, `float64`, `string`
or `map[string]interface{}`. -/
inductive Value where
  | nil
  | int (i : Int)
  | float (f : Float64)
  | str (s : String)
  | hash (h : List (String × Value))

mutual
/-- Decision procedure for equality of values. -/
def Value.decEq : (a b : Value) → Decidable (a = b)
  | .nil, .nil => isTrue rfl
  | .int i, .int j =>
    if h : i = j then isTrue (by rw [h]) else isFalse (by intro e; cases e; exact h rfl)
  | .float i, .float j =>
    if h : i = j then isTrue (by rw [h]) else isFalse (by intro e; cases e; exact h rfl)
  | .str i, .str j =>
    if h : i = j then isTrue (by rw [h]) else isFalse (by intro e; cases e; exact h rfl)
  | .hash i, .hash j =>
    match Value.decEqList i j with
    | isTrue h => isTrue (by rw [h])
    | isFalse h => isFalse (by intro e; cases e; exact h rfl)
  | .nil, .int _ => isFalse (by intro e; cases e)
  | .nil, .float _ => isFalse (by intro e; cases e)
  | .nil, .str _ => isFalse (by intro e; cases e)
  | .nil, .hash _ => isFalse (by intro e; cases e)
  | .int _, .nil => isFalse (by intro e; cases e)
  | .int _, .float _ => isFalse (by intro e; cases e)
  | .int _, .str _ => isFalse (by intro e; cases e)
  | .int _, .hash _ => isFalse (by intro e; cases e)
  | .float _, .nil => isFalse (by intro e; cases e)
  | .float _, .int _ => isFalse (by intro e; cases e)
  | .float _, .str _ => isFalse (by intro e; cases e)
  | .float _, .hash _ => isFalse (by intro e; cases e)
  | .str _, .nil => isFalse (by intro e; cases e)
  | .str _, .int _ => isFalse (by intro e; cases e)
  | .str _, .float _ => isFalse (by intro e; cases e)
  | .str _, .hash _ => isFalse (by intro e; cases e)
  | .hash _, .nil => isFalse (by intro e; cases e)
  | .hash _, .int _ => isFalse (by intro e; cases e)
  | .hash _, .float _ => isFalse (by intro e; cases e)
  | .hash _, .str _ => isFalse (by intro e; cases e)
/-- Decision procedure for equality of field lists. -/
def Value.decEqList : (a b : List (String × Value)) → Decidable (a = b)
  | [], [] => isTrue rfl
  | [], _ :: _ => isFalse (by intro e; cases e)
  | _ :: _, [] => isFalse (by intro e; cases e)
  | (k1, v1) :: t1, (k2, v2) :: t2 =>
    if hk : k1 = k2 then
      match Value.decEq v1 v2 with
      | isTrue hv =>
        match Value.decEqList t1 t2 with
        | isTrue ht => isTrue (by rw [hk, hv, ht])
        | isFalse ht => isFalse (by intro e; cases e; exact ht rfl)
      | isFalse hv => isFalse (by intro e; cases e; exact hv rfl)
    else isFalse (by intro e; cases e; exact hk rfl)
end

instance : DecidableEq Value := Value.decEq

/-- The type assertion `v.(map[string]interface{})`: the map and `ok`. -/
def Value.asHash : Value → Option (List (String × Value))
  | .hash h => some h
  | _ => none

/-! ## Go maps -/

/-- A Go `map[string]α`: an association list in which a key occurs once.  The position of
an entry carries no meaning; a `range` visits the keys in an order supplied from outside. -/
abbrev GoMap (α : Type) := List (String × α)

namespace GoMap

variable {α : Type}

/-- The keys of the map. -/
def keys (m : GoMap α) : List String := m.map Prod.fst

/-- The lookup `v, ok := m[k]`. -/
def find (m : GoMap α) (k : String) : Option α := List.lookup k m

/-- The assignment `m[k] = v`. -/
def put : GoMap α → String → α → GoMap α
  | [], k, v => [(k, v)]
  | (k', v') :: rest, k, v => if k' = k then (k, v) :: rest else (k', v') :: put rest k v

/-- The builtin `delete(m, k)`. -/
def del (m : GoMap α) (k : String) : GoMap α := m.filter (fun p => decide (p.1 ≠ k))

end GoMap

/-- The index expression `hash[field]` on a `map[string]interface{}`: the stored value, or
the nil interface when the field is missing. -/
def hashIndex (hash : GoMap Value) (field : String) : Value :=
  (GoMap.find hash field).getD Value.nil

/-! ## Library primitives and constants used by the handlers -/

/-- What the handlers take from `utils` and from the Go standard library.  `AdaptType`,
`WRONG_ARGS_RESPONSE` and `OK_RESPONSE` are declared in `utils`; `Atoi`, `ParseFloat` and
`FormatFloat` are those of `strconv` (in the shortest `f` format that round-trips), `EqualFold` is that of
`strings`, `addFloat` is `+` on `float64` and `intToFloat` the conversion `float64(i)`. -/
structure Env where
  AdaptType : String → Value
  WRONG_ARGS_RESPONSE : String
  OK_RESPONSE : String
  Atoi : String → Option Int
  ParseFloat : String → Option Float64
  FormatFloat : Float64 → String
  EqualFold : String → String → Bool
  addFloat : Float64 → Float64 → Float64
  intToFloat : Int → Float64

/-! ## The server -/

/-- One call on `utils.Server`, with its outcome where it has one; for an acquisition the
outcome is the error returned, `none` when the lock was granted. -/
inductive Event where
  | keyExists (k : String) (r : Bool)
  | keyLock (k : String) (err : Option String)
  | createKeyAndLock (k : String) (err : Option String)
  | keyRLock (k : String) (err : Option String)
  | keyUnlock (k : String)
  | keyRUnlock (k : String)
  | getValue (k : String)
  | setValue (k : String) (v : Value)
deriving DecidableEq

/-- The answer of the environment to the next lock acquisition: the head of the pending
answers, and a grant when none is left. -/
def nextAnswer : List (Option String) → Option String
  | some e :: _ => some e
  | _ => none

/-- State of the store as one task sees it.  `present` tells which key entries exist,
`value` is the value under each key (the nil interface where nothing was set), `held` and
`rheld` are the exclusive and shared locks this task holds, `pending` lists what the
environment answers to the next lock acquisitions (`none`: granted, `some e`: refused with
error `e`; an exhausted list grants), and `log` is the sequence of calls made so far. -/
structure Server where
  present : String → Bool
  value : String → Value
  held : List String
  rheld : List String
  pending : List (Option String)
  log : List Event

namespace Server


/-- Modelled from the spec: `utils.Server.KeyExists`, whose implementation is not among the
sources; the check `Exists(key)` against the current keyspace. -/
def KeyExists (s : Server) (key : String) : Bool × Server :=
  (s.present key, { s with log := s.log ++ [Event.keyExists key (s.present key)] })

/-- Modelled from the spec: `utils.Server.KeyLock`, whose implementation is not among the
sources; `Lock(ctx, key)` acquires the exclusive lock of an existing key, and fails when the
environment refuses (timeout, cancellation) or with `NotFound` when the key does not exist. -/
def KeyLock (s : Server) (key : String) : Option String × Server :=
  match nextAnswer s.pending with
  | some e =>
    (some e, { s with pending := s.pending.tail,
                      log := s.log ++ [Event.keyLock key (some e)] })
  | none =>
    if s.present key then
      (none, { s with pending := s.pending.tail, held := key :: s.held,
                      log := s.log ++ [Event.keyLock key none] })
    else
      (some "NotFound", { s with pending := s.pending.tail,
                                 log := s.log ++ [Event.keyLock key (some "NotFound")] })

/-- Modelled from the spec: `utils.Server.KeyRLock`, whose implementation is not among the
sources; `RLock(ctx, key)` is the shared-lock equivalent of `Lock`. -/
def KeyRLock (s : Server) (key : String) : Option String × Server :=
  match nextAnswer s.pending with
  | some e =>
    (some e, { s with pending := s.pending.tail,
                      log := s.log ++ [Event.keyRLock key (some e)] })
  | none =>
    if s.present key then
      (none, { s with pending := s.pending.tail, rheld := key :: s.rheld,
                      log := s.log ++ [Event.keyRLock key none] })
    else
      (some "NotFound", { s with pending := s.pending.tail,
                                 log := s.log ++ [Event.keyRLock key (some "NotFound")] })

/-- Modelled from the spec: `utils.Server.CreateKeyAndLock`, whose implementation is not
among the sources; `CreateAndLock(ctx, key)` inserts a new entry if and only if none exists
and returns it held exclusively, and fails with `AlreadyExists` otherwise or with the error
of the environment. -/
def CreateKeyAndLock (s : Server) (key : String) : Option String × Server :=
  match nextAnswer s.pending with
  | some e =>
    (some e, { s with pending := s.pending.tail,
                      log := s.log ++ [Event.createKeyAndLock key (some e)] })
  | none =>
    if s.present key then
      (some "AlreadyExists",
        { s with pending := s.pending.tail,
                 log := s.log ++ [Event.createKeyAndLock key (some "AlreadyExists")] })
    else
      (none, { s with present := fun k => if k = key then true else s.present k,
                      pending := s.pending.tail, held := key :: s.held,
                      log := s.log ++ [Event.createKeyAndLock key none] })

/-- Modelled from the spec: `utils.Server.KeyUnlock`, whose implementation is not among the
sources; `Unlock(key)` releases one exclusive hold of the key. -/
def KeyUnlock (s : Server) (key : String) : Server :=
  { s with held := s.held.erase key, log := s.log ++ [Event.keyUnlock key] }

/-- Modelled from the spec: `utils.Server.KeyRUnlock`, whose implementation is not among the
sources; `RUnlock(key)` releases one shared hold of the key. -/
def KeyRUnlock (s : Server) (key : String) : Server :=
  { s with rheld := s.rheld.erase key, log := s.log ++ [Event.keyRUnlock key] }

/-- Modelled from the spec: `utils.Server.GetValue`, whose implementation is not among the
sources; the value of the key entry. -/
def GetValue (s : Server) (key : String) : Value × Server :=
  (s.value key, { s with log := s.log ++ [Event.getValue key] })

/-- Modelled from the spec: `utils.Server.SetValue`, whose implementation is not among the
sources; installs the value of the key entry. -/
def SetValue (s : Server) (key : String) (v : Value) : Server :=
  { s with value := fun k => if k = key then v else s.value k,
           log := s.log ++ [Event.setValue key v] }

end Server

/-- What a handler hands back: the response bytes, an error, or a run-time panic. -/
inductive Reply where
  | ok (bytes : String)
  | error (msg : String)
  | panic
deriving DecidableEq

/-! ## `etc`: SET, SETNX, MSET -/

/-- Embedding of `handleSet` (etc/commands.go, lines 35-63). -/
def handleSet (env : Env) (cmd : List String) (server : Server) : Reply × Server :=
  match cmd with
  | [_, key, val] =>
    match server.KeyExists key with
    | (false, s1) =>
      match s1.CreateKeyAndLock key with
      | (some err, s2) => (Reply.error err, s2)
      | (none, s2) =>
        (Reply.ok env.OK_RESPONSE, (s2.SetValue key (env.AdaptType val)).KeyUnlock key)
    | (true, s1) =>
      match s1.KeyLock key with
      | (some err, s2) => (Reply.error err, s2)
      | (none, s2) =>
        (Reply.ok env.OK_RESPONSE, (s2.SetValue key (env.AdaptType val)).KeyUnlock key)
  | _ => (Reply.error env.WRONG_ARGS_RESPONSE, server)

/-- Embedding of `handleSetNX` (etc/commands.go, lines 65-83). -/
def handleSetNX (env : Env) (cmd : List String) (server : Server) : Reply × Server :=
  match cmd with
  | [_, key, val] =>
    match server.KeyExists key with
    | (true, s1) => (Reply.error ("key " ++ key ++ " already exists"), s1)
    | (false, s1) =>
      match s1.CreateKeyAndLock key with
      | (some err, s2) => (Reply.error err, s2)
      | (none, s2) =>
        (Reply.ok env.OK_RESPONSE, (s2.SetValue key (env.AdaptType val)).KeyUnlock key)
  | _ => (Reply.error env.WRONG_ARGS_RESPONSE, server)

/-- The struct `KeyObject` of etc/commands.go. -/
structure KeyObject where
  value : Value
  locked : Bool
deriving DecidableEq

/-- The value `v` that `for k, v := range entries` yields with key `k`. -/
def entryAt (entries : GoMap KeyObject) (k : String) : KeyObject :=
  (GoMap.find entries k).getD { value := Value.nil, locked := false }

/-- The loop of `handleMSet` that fills `entries` (lines 110-117): the token at an even
index of `cmd[1:]` is a key and the next token its value. -/
def extractEntries (env : Env) : List String → GoMap KeyObject → GoMap KeyObject
  | key :: val :: rest, entries =>
    extractEntries env rest
      (GoMap.put entries key { value := env.AdaptType val, locked := false })
  | _, entries => entries

/-- The loop of `handleMSet` that acquires the locks (lines 121-133), over the keys in the
order the `range` yields them.  Gives the error of the early return, if any. -/
def lockLoop : List String → GoMap KeyObject → Server → Option String × GoMap KeyObject × Server
  | [], entries, s => (none, entries, s)
  | k :: ks, entries, s =>
    let v := entryAt entries k
    match s.KeyExists k with
    | (true, s1) =>
      match s1.KeyLock k with
      | (some err, s2) => (some err, entries, s2)
      | (none, s2) => lockLoop ks (GoMap.put entries k { value := v.value, locked := true }) s2
    | (false, s1) =>
      match s1.CreateKeyAndLock k with
      | (some err, s2) => (some err, entries, s2)
      | (none, s2) => lockLoop ks (GoMap.put entries k { value := v.value, locked := true }) s2

/-- The loop of `handleMSet` that writes the values (lines 136-138). -/
def setLoop : List String → GoMap KeyObject → Server → Server
  | [], _, s => s
  | k :: ks, entries, s => setLoop ks entries (s.SetValue k (entryAt entries k).value)

/-- The deferred function of `handleMSet` (lines 97-107). -/
def unlockLoop : List String → GoMap KeyObject → Server → GoMap KeyObject × Server
  | [], entries, s => (entries, s)
  | k :: ks, entries, s =>
    let v := entryAt entries k
    if v.locked then
      unlockLoop ks (GoMap.put entries k { value := v.value, locked := false }) (s.KeyUnlock k)
    else
      unlockLoop ks entries s

/-- The orders in which the three `range entries` loops of `handleMSet` visit the keys of
the map; Go leaves the iteration order of a map unspecified. -/
structure MSetOrder where
  lockOrder : List String → List String
  setOrder : List String → List String
  unlockOrder : List String → List String

/-- Each loop visits every key of the map once. -/
def MSetOrder.Valid (o : MSetOrder) : Prop :=
  ∀ l : List String,
    (o.lockOrder l).Perm l ∧ (o.setOrder l).Perm l ∧ (o.unlockOrder l).Perm l

/-- Embedding of `handleMSet` (etc/commands.go, lines 85-141).  `cmd[1:]` on an empty
token list is a slice-bounds panic, raised before the deferred function is registered. -/
def handleMSet (env : Env) (o : MSetOrder) (cmd : List String) (server : Server) :
    Reply × Server :=
  match cmd with
  | [] => (Reply.panic, server)
  | _ :: args =>
    if args.length % 2 ≠ 0 then
      (Reply.error "each key must have a matching value", server)
    else
      let entries := extractEntries env args []
      match lockLoop (o.lockOrder (GoMap.keys entries)) entries server with
      | (some err, entries1, s1) =>
        (Reply.error err, (unlockLoop (o.unlockOrder (GoMap.keys entries1)) entries1 s1).2)
      | (none, entries1, s1) =>
        let s2 := setLoop (o.setOrder (GoMap.keys entries1)) entries1 s1
        (Reply.ok env.OK_RESPONSE,
          (unlockLoop (o.unlockOrder (GoMap.keys entries1)) entries1 s2).2)

/-! ## `hash`: the hash commands -/

/-- The bytes of `fmt.Sprintf("$%d\r\n%s\r\n", len(s), s)`. -/
def bulk (s : String) : String :=
  "$" ++ toString s.utf8ByteSize ++ "\r\n" ++ s ++ "\r\n"

/-- The bytes of `fmt.Sprintf(":%d\r\n", d)`. -/
def integer (d : Int) : String :=
  ":" ++ toString d ++ "\r\n"

/-- The bytes of `fmt.Sprintf("*%d\r\n", n)`. -/
def arrayHeader (n : Nat) : String :=
  "*" ++ toString n ++ "\r\n"

/-- Go `int` is 64 bits wide: the result of an addition, reduced to the signed range. -/
def wrap64 (x : Int) : Int :=
  (x + 2 ^ 63) % 2 ^ 64 - 2 ^ 63

/-- Modelled from the spec: `utils.AbsInt`, which is not among the sources; the absolute
value `|count|` of a Go `int`. -/
def AbsInt (n : Int) : Int :=
  if n < 0 then wrap64 (-n) else n

/-- The message of `fmt.Errorf("value at %s is not a hash", key)`. -/
def notAHash (key : String) : String :=
  "value at " ++ key ++ " is not a hash"

/-- The loop of `handleHSET` that fills `entries` (lines 45-47) from `cmd[2:]`. -/
def extractFields (env : Env) : List String → GoMap Value → GoMap Value
  | field :: val :: rest, entries =>
    extractFields env rest (GoMap.put entries field (env.AdaptType val))
  | _, entries => entries

/-- The loop of `handleHSET` over `entries` (lines 70-81), over the fields in the order the
`range` yields them; `nx` is `strings.EqualFold(cmd[0], "hsetnx")`. -/
def hsetLoop (nx : Bool) : List String → GoMap Value → GoMap Value → Nat → GoMap Value × Nat
  | [], _, hash, count => (hash, count)
  | field :: rest, entries, hash, count =>
    let value := hashIndex entries field
    if nx then
      if hashIndex hash field = Value.nil then
        hsetLoop nx rest entries (GoMap.put hash field value) (count + 1)
      else
        hsetLoop nx rest entries hash count
    else
      hsetLoop nx rest entries (GoMap.put hash field value) (count + 1)

/-- Embedding of `handleHSET` (hash/commands.go, lines 33-85), the handler of HSET and
HSETNX.  `ord` is the order of the `range entries` loop.  The map obtained from `GetValue`
is updated in place and then handed to `SetValue`; no return lies between the first update
and that `SetValue`. -/
def handleHSET (env : Env) (ord : List String → List String) (cmd : List String)
    (server : Server) : Reply × Server :=
  match cmd with
  | c0 :: key :: f :: v :: more =>
    if (f :: v :: more).length % 2 ≠ 0 then
      (Reply.error "each field must have a corresponding value", server)
    else
      let entries := extractFields env (f :: v :: more) []
      match server.KeyExists key with
      | (false, s1) =>
        match s1.CreateKeyAndLock key with
        | (some err, s2) => (Reply.error err, s2)
        | (none, s2) =>
          (Reply.ok (":" ++ toString entries.length ++ "\r\n\r\n"),
            (s2.SetValue key (Value.hash entries)).KeyUnlock key)
      | (true, s1) =>
        match s1.KeyLock key with
        | (some err, s2) => (Reply.error err, s2)
        | (none, s2) =>
          match s2.GetValue key with
          | (val, s3) =>
            match val.asHash with
            | none => (Reply.error (notAHash key), s3.KeyUnlock key)
            | some hash =>
              match hsetLoop (env.EqualFold c0 "hsetnx") (ord (GoMap.keys entries))
                  entries hash 0 with
              | (hash1, count) =>
                (Reply.ok (":" ++ toString count ++ "\r\n\r\n"),
                  (s3.SetValue key (Value.hash hash1)).KeyUnlock key)
  | _ => (Reply.error env.WRONG_ARGS_RESPONSE, server)

/-- One element of the reply of HGET (lines 114-132). -/
def hgetElem (env : Env) : Value → String
  | Value.nil => "$-1\r\n"
  | Value.str s => bulk s
  | Value.int d => integer d
  | Value.float f => bulk (env.FormatFloat f)
  | Value.hash _ => "$-1\r\n"

/-- Embedding of `handleHGET` (hash/commands.go, lines 87-137). -/
def handleHGET (env : Env) (cmd : List String) (server : Server) : Reply × Server :=
  match cmd with
  | _ :: key :: field :: more =>
    match server.KeyExists key with
    | (false, s1) => (Reply.ok "$-1\r\n\r\n", s1)
    | (true, s1) =>
      match s1.KeyRLock key with
      | (some err, s2) => (Reply.error err, s2)
      | (none, s2) =>
        match s2.GetValue key with
        | (val, s3) =>
          match val.asHash with
          | none => (Reply.error (notAHash key), s3.KeyRUnlock key)
          | some hash =>
            (Reply.ok (arrayHeader (field :: more).length
                ++ String.join ((field :: more).map (fun fld => hgetElem env (hashIndex hash fld)))
                ++ "\r\n"),
              s3.KeyRUnlock key)
  | _ => (Reply.error env.WRONG_ARGS_RESPONSE, server)

/-- One element of the reply of HSTRLEN (lines 166-184). -/
def hstrlenElem (env : Env) : Value → String
  | Value.nil => ":0\r\n"
  | Value.str s => integer s.utf8ByteSize
  | Value.float f => integer (env.FormatFloat f).utf8ByteSize
  | Value.int d => integer d
  | Value.hash _ => ":0\r\n"

/-- Embedding of `handleHSTRLEN` (hash/commands.go, lines 139-189). -/
def handleHSTRLEN (env : Env) (cmd : List String) (server : Server) : Reply × Server :=
  match cmd with
  | _ :: key :: field :: more =>
    match server.KeyExists key with
    | (false, s1) => (Reply.ok "$-1\r\n\r\n", s1)
    | (true, s1) =>
      match s1.KeyRLock key with
      | (some err, s2) => (Reply.error err, s2)
      | (none, s2) =>
        match s2.GetValue key with
        | (val, s3) =>
          match val.asHash with
          | none => (Reply.error (notAHash key), s3.KeyRUnlock key)
          | some hash =>
            (Reply.ok (arrayHeader (field :: more).length
                ++ String.join
                    ((field :: more).map (fun fld => hstrlenElem env (hashIndex hash fld)))
                ++ "\r\n"),
              s3.KeyRUnlock key)
  | _ => (Reply.error env.WRONG_ARGS_RESPONSE, server)

/-- The bytes appended for a value by HVALS, HGETALL and HRANDFIELD: a bulk string for a
`string` or a `float64`, an integer for an `int`, nothing otherwise. -/
def valueElem (env : Env) : Value → String
  | Value.str s => bulk s
  | Value.float f => bulk (env.FormatFloat f)
  | Value.int d => integer d
  | _ => ""

/-- Embedding of `handleHVALS` (hash/commands.go, lines 191-230).  `ord` is the order of the
`range hash` loop. -/
def handleHVALS (env : Env) (ord : List String → List String) (cmd : List String)
    (server : Server) : Reply × Server :=
  match cmd with
  | [_, key] =>
    match server.KeyExists key with
    | (false, s1) => (Reply.ok "*0\r\n\r\n", s1)
    | (true, s1) =>
      match s1.KeyRLock key with
      | (some err, s2) => (Reply.error err, s2)
      | (none, s2) =>
        match s2.GetValue key with
        | (val, s3) =>
          match val.asHash with
          | none => (Reply.error (notAHash key), s3.KeyRUnlock key)
          | some hash =>
            (Reply.ok (arrayHeader hash.length
                ++ String.join
                    ((ord (GoMap.keys hash)).map (fun fld => valueElem env (hashIndex hash fld)))
                ++ "\r\n"),
              s3.KeyRUnlock key)
  | _ => (Reply.error env.WRONG_ARGS_RESPONSE, server)

/-- The second phase of `slices.DeleteFunc`: `j` reads, `i` writes, and the predicate of
line 317 compares with `fields[n]`, read from the slice that is being compacted. -/
def compactFrom (n : Nat) : Nat → Nat → Nat → List String → List String
  | 0, _, i, arr => arr.take i
  | fuel + 1, j, i, arr =>
    let v := arr.getD j ""
    if v = arr.getD n "" then compactFrom n fuel (j + 1) i arr
    else compactFrom n fuel (j + 1) (i + 1) (arr.set i v)

/-- The call `slices.DeleteFunc(fields, func(s string) bool { return s == fields[n] })` of
lines 316-318: find the first element to delete, then compact the rest in place. -/
def deleteChosen (fields : List String) (n : Nat) : List String :=
  match fields.findIdx? (fun s => decide (s = fields.getD n "")) with
  | none => fields
  | some i => compactFrom n (fields.length - (i + 1)) (i + 1) i fields

/-- The pluck loop of `handleHRANDFIELD` (lines 311-320) with `m` rounds left, `i` the round
number; `rand.Intn(len(fields))` is `rnd i % len(fields)`, and panics (`none`) when
`len(fields)` is 0. -/
def pluckLoop (rnd : Nat → Nat) (positive : Bool) :
    Nat → Nat → List String → List String → Option (List String)
  | 0, _, _, plucked => some plucked
  | m + 1, i, fields, plucked =>
    if fields.length = 0 then none
    else
      let n := rnd i % fields.length
      pluckLoop rnd positive m (i + 1)
        (if positive then deleteChosen fields n else fields)
        (plucked ++ [fields.getD n ""])

/-- The bytes appended per field by the two reply loops of `handleHRANDFIELD`. -/
def fieldElem (env : Env) (withvalues : Bool) (hash : GoMap Value) (field : String) : String :=
  bulk field ++ (if withvalues then valueElem env (hashIndex hash field) else "")

/-- Lines 260-346 of `handleHRANDFIELD`, once `count` and `withvalues` are known. -/
def hrandfieldBody (env : Env) (ord : List String → List String) (rnd : Nat → Nat)
    (key : String) (count : Int) (withvalues : Bool) (server : Server) : Reply × Server :=
  match server.KeyExists key with
  | (false, s1) => (Reply.ok "*0\r\n\r\n", s1)
  | (true, s1) =>
    match s1.KeyRLock key with
    | (some err, s2) => (Reply.error err, s2)
    | (none, s2) =>
      match s2.GetValue key with
      | (val, s3) =>
        match val.asHash with
        | none => (Reply.error (notAHash key), s3.KeyRUnlock key)
        | some hash =>
          if count ≥ (hash.length : Int) then
            (Reply.ok (arrayHeader (if withvalues then hash.length * 2 else hash.length)
                ++ String.join ((ord (GoMap.keys hash)).map (fieldElem env withvalues hash))
                ++ "\r\n"),
              s3.KeyRUnlock key)
          else
            match pluckLoop rnd (decide (count > 0)) (AbsInt count).toNat 0
                (ord (GoMap.keys hash)) [] with
            | none => (Reply.panic, s3.KeyRUnlock key)
            | some plucked =>
              (Reply.ok (arrayHeader (if withvalues then plucked.length * 2 else plucked.length)
                  ++ String.join (plucked.map (fieldElem env withvalues hash))
                  ++ "\r\n"),
                s3.KeyRUnlock key)

/-- Embedding of `handleHRANDFIELD` (hash/commands.go, lines 232-347).  `ord` is the order
of the `range hash` loop that runs, `rnd` the stream of random numbers.  A panic unwinds
through the deferred `KeyRUnlock`. -/
def handleHRANDFIELD (env : Env) (ord : List String → List String) (rnd : Nat → Nat)
    (cmd : List String) (server : Server) : Reply × Server :=
  match cmd with
  | [_, key] => hrandfieldBody env ord rnd key 1 false server
  | [_, key, c] =>
    match env.Atoi c with
    | none => (Reply.error "count must be an integer", server)
    | some count =>
      if count = 0 then (Reply.ok "*0\r\n\r\n", server)
      else hrandfieldBody env ord rnd key count false server
  | [_, key, c, w] =>
    match env.Atoi c with
    | none => (Reply.error "count must be an integer", server)
    | some count =>
      if count = 0 then (Reply.ok "*0\r\n\r\n", server)
      else if env.EqualFold w "withvalues" then
        hrandfieldBody env ord rnd key count true server
      else (Reply.error "result modifier must be withvalues", server)
  | _ => (Reply.error env.WRONG_ARGS_RESPONSE, server)

/-- Embedding of `handleHLEN` (hash/commands.go, lines 349-371). -/
def handleHLEN (env : Env) (cmd : List String) (server : Server) : Reply × Server :=
  match cmd with
  | [_, key] =>
    match server.KeyExists key with
    | (false, s1) => (Reply.ok ":0\r\n\r\n", s1)
    | (true, s1) =>
      match s1.KeyRLock key with
      | (some err, s2) => (Reply.error err, s2)
      | (none, s2) =>
        match s2.GetValue key with
        | (val, s3) =>
          match val.asHash with
          | none => (Reply.error (notAHash key), s3.KeyRUnlock key)
          | some hash =>
            (Reply.ok (":" ++ toString hash.length ++ "\r\n\r\n"), s3.KeyRUnlock key)
  | _ => (Reply.error env.WRONG_ARGS_RESPONSE, server)

/-- Embedding of `handleHKEYS` (hash/commands.go, lines 373-401).  `ord` is the order of the
`range hash` loop. -/
def handleHKEYS (env : Env) (ord : List String → List String) (cmd : List String)
    (server : Server) : Reply × Server :=
  match cmd with
  | [_, key] =>
    match server.KeyExists key with
    | (false, s1) => (Reply.ok "*0\r\n\r\n", s1)
    | (true, s1) =>
      match s1.KeyRLock key with
      | (some err, s2) => (Reply.error err, s2)
      | (none, s2) =>
        match s2.GetValue key with
        | (val, s3) =>
          match val.asHash with
          | none => (Reply.error (notAHash key), s3.KeyRUnlock key)
          | some hash =>
            (Reply.ok (arrayHeader hash.length
                ++ String.join ((ord (GoMap.keys hash)).map bulk)
                ++ "\r\n"),
              s3.KeyRUnlock key)
  | _ => (Reply.error env.WRONG_ARGS_RESPONSE, server)

/-- The increment parsed at lines 411-425 of `handleINCRBY`. -/
inductive Increment where
  | ofInt (i : Int)
  | ofFloat (f : Float64)

/-- Lines 427-484 of `handleINCRBY`, once the increment is parsed.  The map obtained from
`GetValue` is updated in place; the only update that precedes the `switch` stores the
`int` 0, which the `switch` accepts, so the error return leaves that map as it was. -/
def incrbyBody (env : Env) (key field : String) (inc : Increment) (server : Server) :
    Reply × Server :=
  match server.KeyExists key with
  | (false, s1) =>
    match s1.CreateKeyAndLock key with
    | (some err, s2) => (Reply.error err, s2)
    | (none, s2) =>
      match inc with
      | Increment.ofFloat floatIncrement =>
        (Reply.ok ("+" ++ env.FormatFloat floatIncrement ++ "\r\n\r\n"),
          (s2.SetValue key (Value.hash [(field, Value.float floatIncrement)])).KeyUnlock key)
      | Increment.ofInt intIncrement =>
        (Reply.ok (":" ++ toString intIncrement ++ "\r\n\r\n"),
          (s2.SetValue key (Value.hash [(field, Value.int intIncrement)])).KeyUnlock key)
  | (true, s1) =>
    match s1.KeyLock key with
    | (some err, s2) => (Reply.error err, s2)
    | (none, s2) =>
      match s2.GetValue key with
      | (val, s3) =>
        match val.asHash with
        | none => (Reply.error (notAHash key), s3.KeyUnlock key)
        | some hash0 =>
          let hash :=
            if hashIndex hash0 field = Value.nil then GoMap.put hash0 field (Value.int 0)
            else hash0
          let updated : Option Value :=
            match hashIndex hash field, inc with
            | Value.int i, Increment.ofFloat floatIncrement =>
              some (Value.float (env.addFloat (env.intToFloat i) floatIncrement))
            | Value.int i, Increment.ofInt intIncrement =>
              some (Value.int (wrap64 (i + intIncrement)))
            | Value.float f, Increment.ofFloat floatIncrement =>
              some (Value.float (env.addFloat f floatIncrement))
            | Value.float f, Increment.ofInt intIncrement =>
              some (Value.float (env.addFloat f (env.intToFloat intIncrement)))
            | _, _ => none
          match updated with
          | none => (Reply.error "hash value is not an integer", s3.KeyUnlock key)
          | some new =>
            let hash1 := GoMap.put hash field new
            let s4 := s3.SetValue key (Value.hash hash1)
            match hashIndex hash1 field with
            | Value.float f =>
              (Reply.ok ("+" ++ env.FormatFloat f ++ "\r\n\r\n"), s4.KeyUnlock key)
            | Value.int i => (Reply.ok (":" ++ toString i ++ "\r\n\r\n"), s4.KeyUnlock key)
            | _ => (Reply.ok (":" ++ toString (0 : Int) ++ "\r\n\r\n"), s4.KeyUnlock key)

/-- Embedding of `handleINCRBY` (hash/commands.go, lines 403-485), the handler of HINCRBY
and HINCRBYFLOAT. -/
def handleINCRBY (env : Env) (cmd : List String) (server : Server) : Reply × Server :=
  match cmd with
  | [c0, key, field, incr] =>
    if env.EqualFold c0 "hincrbyfloat" then
      match env.ParseFloat incr with
      | none => (Reply.error "increment must be a float", server)
      | some f => incrbyBody env key field (Increment.ofFloat f) server
    else
      match env.Atoi incr with
      | none => (Reply.error "increment must be an integer", server)
      | some i => incrbyBody env key field (Increment.ofInt i) server
  | _ => (Reply.error env.WRONG_ARGS_RESPONSE, server)

/-- Embedding of `handleHGETALL` (hash/commands.go, lines 487-525).  `ord` is the order of
the `range hash` loop. -/
def handleHGETALL (env : Env) (ord : List String → List String) (cmd : List String)
    (server : Server) : Reply × Server :=
  match cmd with
  | [_, key] =>
    match server.KeyExists key with
    | (false, s1) => (Reply.ok "*0\r\n\r\n", s1)
    | (true, s1) =>
      match s1.KeyRLock key with
      | (some err, s2) => (Reply.error err, s2)
      | (none, s2) =>
        match s2.GetValue key with
        | (val, s3) =>
          match val.asHash with
          | none => (Reply.error (notAHash key), s3.KeyRUnlock key)
          | some hash =>
            (Reply.ok (arrayHeader (hash.length * 2)
                ++ String.join ((ord (GoMap.keys hash)).map (fieldElem env true hash))
                ++ "\r\n"),
              s3.KeyRUnlock key)
  | _ => (Reply.error env.WRONG_ARGS_RESPONSE, server)

/-- Embedding of `handleHEXISTS` (hash/commands.go, lines 527-554). -/
def handleHEXISTS (env : Env) (cmd : List String) (server : Server) : Reply × Server :=
  match cmd with
  | [_, key, field] =>
    match server.KeyExists key with
    | (false, s1) => (Reply.ok ":0\r\n\r\n", s1)
    | (true, s1) =>
      match s1.KeyRLock key with
      | (some err, s2) => (Reply.error err, s2)
      | (none, s2) =>
        match s2.GetValue key with
        | (val, s3) =>
          match val.asHash with
          | none => (Reply.error (notAHash key), s3.KeyRUnlock key)
          | some hash =>
            if hashIndex hash field ≠ Value.nil then (Reply.ok ":1\r\n\r\n", s3.KeyRUnlock key)
            else (Reply.ok ":0\r\n\r\n", s3.KeyRUnlock key)
  | _ => (Reply.error env.WRONG_ARGS_RESPONSE, server)

/-- The loop of `handleHDEL` over the listed fields (lines 580-585). -/
def hdelLoop : List String → GoMap Value → Nat → GoMap Value × Nat
  | [], hash, count => (hash, count)
  | field :: rest, hash, count =>
    if hashIndex hash field ≠ Value.nil then hdelLoop rest (GoMap.del hash field) (count + 1)
    else hdelLoop rest hash count

/-- Embedding of `handleHDEL` (hash/commands.go, lines 556-590). -/
def handleHDEL (env : Env) (cmd : List String) (server : Server) : Reply × Server :=
  match cmd with
  | _ :: key :: field :: more =>
    match server.KeyExists key with
    | (false, s1) => (Reply.ok ":0\r\n\r\n", s1)
    | (true, s1) =>
      match s1.KeyLock key with
      | (some err, s2) => (Reply.error err, s2)
      | (none, s2) =>
        match s2.GetValue key with
        | (val, s3) =>
          match val.asHash with
          | none => (Reply.error (notAHash key), s3.KeyUnlock key)
          | some hash =>
            match hdelLoop (field :: more) hash 0 with
            | (hash1, count) =>
              (Reply.ok (":" ++ toString count ++ "\r\n\r\n"),
                (s3.SetValue key (Value.hash hash1)).KeyUnlock key)
  | _ => (Reply.error env.WRONG_ARGS_RESPONSE, server)


/-! ## Reading the log -/

/-- The key of a granted exclusive acquisition (`KeyLock` or `CreateKeyAndLock`). -/
def Event.acquiredKey : Event → Option String
  | Event.keyLock k none => some k
  | Event.createKeyAndLock k none => some k
  | _ => none

/-- The key passed to `KeyLock` or `CreateKeyAndLock`, granted or not. -/
def Event.requestedKey : Event → Option String
  | Event.keyLock k _ => some k
  | Event.createKeyAndLock k _ => some k
  | _ => none

/-- The error of a refused exclusive acquisition. -/
def Event.refusal : Event → Option String
  | Event.keyLock _ (some e) => some e
  | Event.createKeyAndLock _ (some e) => some e
  | _ => none

/-- The key passed to `KeyUnlock`. -/
def Event.releasedKey : Event → Option String
  | Event.keyUnlock k => some k
  | _ => none

/-- The key and value passed to `SetValue`. -/
def Event.written : Event → Option (String × Value)
  | Event.setValue k v => some (k, v)
  | _ => none

/-- Keys whose exclusive lock was granted, in the order of the calls. -/
def acquired (evs : List Event) : List String := evs.filterMap Event.acquiredKey

/-- Keys passed to `KeyLock` / `CreateKeyAndLock`, in the order of the calls. -/
def requested (evs : List Event) : List String := evs.filterMap Event.requestedKey

/-- Errors of the refused exclusive acquisitions, in the order of the calls. -/
def refusals (evs : List Event) : List String := evs.filterMap Event.refusal

/-- Keys passed to `KeyUnlock`, in the order of the calls. -/
def released (evs : List Event) : List String := evs.filterMap Event.releasedKey

/-- The `SetValue` calls, in order. -/
def writes (evs : List Event) : List (String × Value) := evs.filterMap Event.written

/-- The environment grants every acquisition still to come. -/
def Granting (s : Server) : Prop := ∀ a ∈ s.pending, a = none

/-- The commands `SET k1 v1; ...; SET kn vn` run one after the other on the token list
`k1 v1 ... kn vn`: the replies and the final state. -/
def runSets (env : Env) : List String → Server → List Reply × Server
  | key :: val :: rest, s =>
    let r := handleSet env ["set", key, val] s
    let rs := runSets env rest r.2
    (r.1 :: rs.1, rs.2)
  | _, s => ([], s)

/-- The keys of the token list `k1 v1 ... kn vn`. -/
def argKeys : List String → List String
  | key :: _ :: rest => key :: argKeys rest
  | _ => []

/-- The values after `SET k1 v1; ...; SET kn vn`, as a function of the values before. -/
def assign (env : Env) : List String → (String → Value) → (String → Value)
  | key :: val :: rest, f => assign env rest (fun x => if x = key then env.AdaptType val else f x)
  | _, f => f

/-- Walks a list of calls with the exclusive (`w`) and shared (`r`) locks currently held:
a release must be of a lock that is held, and at the end nothing is held. -/
def scopedFrom : List String → List String → List Event → Bool
  | w, r, [] => w.isEmpty && r.isEmpty
  | w, r, Event.keyLock k none :: es => scopedFrom (k :: w) r es
  | w, r, Event.createKeyAndLock k none :: es => scopedFrom (k :: w) r es
  | w, r, Event.keyRLock k none :: es => scopedFrom w (k :: r) es
  | w, r, Event.keyUnlock k :: es => decide (k ∈ w) && scopedFrom (w.erase k) r es
  | w, r, Event.keyRUnlock k :: es => decide (k ∈ r) && scopedFrom w (r.erase k) es
  | w, r, _ :: es => scopedFrom w r es

/-- The calls that a handler run `r` from state `s` added to the log are well scoped: every
granted acquisition is followed by exactly one release of the same key and of the same
kind, and nothing else is released. -/
def CallScoped (s : Server) (r : Reply × Server) : Prop :=
  ∃ evs : List Event, r.2.log = s.log ++ evs ∧ scopedFrom [] [] evs = true

/-- What a hash handler run `r` does on a key that exists and does not hold a hash: the
reply is the not-a-hash error when the lock was granted and the error of the acquisition
when it was refused, and values, keys and held locks are as before. -/
def RejectsNonHash (s : Server) (key : String) (r : Reply × Server) : Prop :=
  (match nextAnswer s.pending with
    | none => r.1 = Reply.error (notAHash key)
    | some e => r.1 = Reply.error e) ∧
  r.2.value = s.value ∧ r.2.present = s.present ∧ r.2.held = s.held ∧ r.2.rheld = s.rheld

/-! ## Sample inputs -/

/-- The number written by a list of decimal digits, after the digits read so far. -/
def digitsValue : List Char → Nat → Option Nat
  | [], acc => some acc
  | c :: cs, acc =>
    if c.isDigit then digitsValue cs (acc * 10 + (c.toNat - 48)) else none

/-- Decimal integer of a token: an optional minus sign and at least one digit. -/
def sampleAtoi (tok : String) : Option Int :=
  match tok.data with
  | [] => none
  | [c] => (digitsValue [c] 0).map Int.ofNat
  | c :: d :: ds =>
    if c = Char.ofNat 45 then (digitsValue (d :: ds) 0).map (fun n => - Int.ofNat n)
    else (digitsValue (c :: d :: ds) 0).map Int.ofNat

/-- Coercion used in the worked examples: a decimal token is an `int`, any other a
`string`. -/
def sampleAdapt (tok : String) : Value :=
  match sampleAtoi tok with
  | some i => Value.int i
  | none => Value.str tok

/-- The primitives used in the worked examples. -/
def sampleEnv : Env where
  AdaptType := sampleAdapt
  WRONG_ARGS_RESPONSE := "wrong number of arguments"
  OK_RESPONSE := "+OK\r\n\r\n"
  Atoi := sampleAtoi
  ParseFloat := fun _ => none
  FormatFloat := fun f => toString f.bits
  EqualFold := fun a b => decide (a.data.map Char.toLower = b.data.map Char.toLower)
  addFloat := fun a b => ⟨a.bits + b.bits⟩
  intToFloat := fun i => ⟨i.toNat⟩

/-- A store without keys, holding no lock, in which every acquisition is granted. -/
def emptyServer : Server where
  present := fun _ => false
  value := fun _ => Value.nil
  held := []
  rheld := []
  pending := []
  log := []


/-- An iteration order for the three loops of `handleMSet`: the lock loop visits the keys in
the order they were inserted in the map, the other two in the opposite order. -/
def sampleOrder : MSetOrder where
  lockOrder := fun l => l
  setOrder := List.reverse
  unlockOrder := List.reverse

/-- A store without keys in which the second lock acquisition is refused. -/
def refusingServer : Server :=
  { emptyServer with pending := [none, some "timeout"] }

/-- A store without keys in which the next lock acquisition fails with `AlreadyExists`. -/
def racingServer : Server :=
  { emptyServer with pending := [some "AlreadyExists"] }

/-- A store in which key `k` holds the string `v`. -/
def scalarServer : Server :=
  { emptyServer with
    present := fun x => decide (x = "k")
    value := fun x => if x = "k" then Value.str "v" else Value.nil }

/-! ## Predicates and sample stores for the hash commands -/

/-- The key passed to `KeyRLock`, granted or not. -/
def Event.sharedKey : Event → Option String
  | Event.keyRLock k _ => some k
  | _ => none

/-- Keys passed to `KeyRLock`, in the order of the calls. -/
def sharedRequested (evs : List Event) : List String := evs.filterMap Event.sharedKey

/-- A handler run `r` from state `s` that leaves the store alone: values, keys and held
locks are as before, and among the calls it added to the log there is no `SetValue` and no
`KeyLock` or `CreateKeyAndLock`. -/
def ReadOnly (s : Server) (r : Reply × Server) : Prop :=
  r.2.value = s.value ∧ r.2.present = s.present ∧ r.2.held = s.held ∧ r.2.rheld = s.rheld ∧
  ∃ evs : List Event, r.2.log = s.log ++ evs ∧ requested evs = [] ∧ writes evs = []

/-- A handler run on an absent key that replies `bytes` after the existence check alone. -/
def AbsentReply (s : Server) (key : String) (bytes : String) (r : Reply × Server) : Prop :=
  r = (Reply.ok bytes, { s with log := s.log ++ [Event.keyExists key false] })

/-- Every field of the hash holds a value: none is the nil interface. -/
def NoNilField (hash : GoMap Value) : Prop :=
  ∀ f ∈ GoMap.keys hash, hashIndex hash f ≠ Value.nil

/-- The value is an `int`, a `float64` or a `string`. -/
def Value.isScalar : Value → Bool
  | Value.int _ => true
  | Value.float _ => true
  | Value.str _ => true
  | _ => false

/-- A store in which key `h` holds the hash with field `a` = 1 and field `b` = `x`. -/
def hashServer : Server :=
  { emptyServer with
    present := fun x => decide (x = "h")
    value := fun x =>
      if x = "h" then Value.hash [("a", Value.int 1), ("b", Value.str "x")] else Value.nil }

/-- The hash `hash1` is `hash` after the fields of the token list `f1 v1 ... fn vn` were
set: a listed field holds the coerced value of its last listed occurrence, a field that is
not listed holds what it held, and the fields are those of `hash` and the listed ones. -/
def FieldsSet (env : Env) (fv : List String) (hash hash1 : GoMap Value) : Prop :=
  (∀ pre fld val post, fv = pre ++ fld :: val :: post → pre.length % 2 = 0 →
    fld ∉ argKeys post → hashIndex hash1 fld = env.AdaptType val) ∧
  (∀ x, x ∉ argKeys fv → hashIndex hash1 x = hashIndex hash x) ∧
  (∀ x, x ∈ GoMap.keys hash1 ↔ x ∈ GoMap.keys hash ∨ x ∈ argKeys fv)

/-- The handler run `r` from state `s` replied `bytes` and left under `key` the hash `hash`
with field `field` set to `new`: every other field is as it was, no field but `field` was
added, and no other key changed. -/
def FieldUpdated (s : Server) (key field : String) (hash : GoMap Value) (new : Value)
    (bytes : String) (r : Reply × Server) : Prop :=
  r.1 = Reply.ok bytes ∧
  (∀ x, x ≠ key → r.2.value x = s.value x) ∧ r.2.present = s.present ∧
  ∃ hash1, r.2.value key = Value.hash hash1 ∧ hashIndex hash1 field = new ∧
    (∀ x, x ≠ field → hashIndex hash1 x = hashIndex hash x) ∧
    (∀ x, x ∈ GoMap.keys hash1 ↔ x ∈ GoMap.keys hash ∨ x = field)

/-- The reply of HRANDFIELD that lists the fields `fields`, each followed by its value when
`withvalues` is set: the array header, the elements and the closing line. -/
def fieldsReply (env : Env) (withvalues : Bool) (hash : GoMap Value) (fields : List String) :
    Reply :=
  Reply.ok (arrayHeader (if withvalues then fields.length * 2 else fields.length)
    ++ String.join (fields.map (fieldElem env withvalues hash)) ++ "\r\n")

/-- The sample primitives with a `ParseFloat` that reads a decimal integer token. -/
def floatEnv : Env :=
  { sampleEnv with
    ParseFloat := fun tok => (sampleAtoi tok).map (fun i => { bits := i.toNat }) }

/-! ## `pubsub`: PUBLISH, SUBSCRIBE, UNSUBSCRIBE -/

/-- One call on the `*PubSub` broker, whose implementation is not among the sources: the
handlers are embedded up to the calls they make on it.  An absent argument is the `nil` that
the handler passes. -/
inductive PubSubCall where
  | subscribe (channel consumerGroup : Option String)
  | unsubscribe (channel : Option String)
  | publish (message : String) (channel : Option String)
deriving DecidableEq

/-- Embedding of `handleSubscribe` (pubsub/commands.go, lines 29-48).  `loaded` is the
outcome of the type assertion `server.GetPubSub().(*PubSub)`; the second component lists the
calls made on the broker. -/
def handleSubscribe (env : Env) (loaded : Bool) (cmd : List String) :
    Reply × List PubSubCall :=
  if !loaded then (Reply.error "could not load pubsub", [])
  else
    match cmd with
    | [_] => (Reply.ok "+SUBSCRIBE_OK\r\n\n", [PubSubCall.subscribe none none])
    | [_, channel] =>
      (Reply.ok "+SUBSCRIBE_OK\r\n\n", [PubSubCall.subscribe (some channel) none])
    | [_, channel, consumerGroup] =>
      (Reply.ok "+SUBSCRIBE_OK\r\n\n",
        [PubSubCall.subscribe (some channel) (some consumerGroup)])
    | _ => (Reply.error env.WRONG_ARGS_RESPONSE, [])

/-- Embedding of `handleUnsubscribe` (pubsub/commands.go, lines 50-64). -/
def handleUnsubscribe (env : Env) (loaded : Bool) (cmd : List String) :
    Reply × List PubSubCall :=
  if !loaded then (Reply.error "could not load pubsub", [])
  else
    match cmd with
    | [_] => (Reply.ok env.OK_RESPONSE, [PubSubCall.unsubscribe none])
    | [_, channel] => (Reply.ok env.OK_RESPONSE, [PubSubCall.unsubscribe (some channel)])
    | _ => (Reply.error env.WRONG_ARGS_RESPONSE, [])

/-- Embedding of `handlePublish` (pubsub/commands.go, lines 66-79). -/
def handlePublish (env : Env) (loaded : Bool) (cmd : List String) :
    Reply × List PubSubCall :=
  if !loaded then (Reply.error "could not load pubsub", [])
  else
    match cmd with
    | [_, channel, message] =>
      (Reply.ok env.OK_RESPONSE, [PubSubCall.publish message (some channel)])
    | [_, message] => (Reply.ok env.OK_RESPONSE, [PubSubCall.publish message none])
    | _ => (Reply.error env.WRONG_ARGS_RESPONSE, [])

/-- The `KeyExtractionFunc` of the command `publish` (pubsub/commands.go, lines 90-96). -/
def publishKeyExtraction (env : Env) (cmd : List String) : Except String (List String) :=
  if cmd.length ≠ 3 then Except.error env.WRONG_ARGS_RESPONSE
  else Except.ok [cmd.getD 1 ""]

/-- The `KeyExtractionFunc` of the command `subscribe` (pubsub/commands.go,
lines 104-110). -/
def subscribeKeyExtraction (env : Env) (cmd : List String) : Except String (List String) :=
  if cmd.length < 2 then Except.error env.WRONG_ARGS_RESPONSE
  else Except.ok [cmd.getD 1 ""]

/-- The `KeyExtractionFunc` of the command `unsubscribe` (pubsub/commands.go,
lines 118-124). -/
def unsubscribeKeyExtraction (env : Env) (cmd : List String) : Except String (List String) :=
  if cmd.length ≠ 2 then Except.error env.WRONG_ARGS_RESPONSE
  else Except.ok [cmd.getD 1 ""]

/-- The handler took the command: it did not answer with the arity error. -/
def Accepted (env : Env) (r : Reply × List PubSubCall) : Prop :=
  r.1 ≠ Reply.error env.WRONG_ARGS_RESPONSE

/-- Key extraction succeeded. -/
def Extracted (r : Except String (List String)) : Prop :=
  ∃ ks, r = Except.ok ks

/-! ## `utils`: the configuration -/

/-- The struct `Config` of utils/config.go; the three ports are `uint16`. -/
structure Config where
  TLS : Bool
  Key : String
  Cert : String
  Port : Nat
  HTTP : Bool
  PluginDir : String
  ServerID : String
  JoinAddr : String
  BindAddr : String
  RaftBindPort : Nat
  MemberListBindPort : Nat
  InMemory : Bool
  DataDir : String
  BootstrapCluster : Bool
  AclConfig : String
  RequirePass : Bool
  Password : String
deriving DecidableEq

/-- The zero value `Config{}`. -/
def Config.zero : Config where
  TLS := false
  Key := ""
  Cert := ""
  Port := 0
  HTTP := false
  PluginDir := ""
  ServerID := ""
  JoinAddr := ""
  BindAddr := ""
  RaftBindPort := 0
  MemberListBindPort := 0
  InMemory := false
  DataDir := ""
  BootstrapCluster := false
  AclConfig := ""
  RequirePass := false
  Password := ""

/-- What `GetConfig` meets outside the program: the value of the flag `-config`, the
configuration `conf` built from the other flags, the outcome of `os.Open` (the name of the
opened file, `none` when it cannot be opened), `path.Ext`, and the outcome of decoding the
file into `conf` with `encoding/json` and with `yaml.v3`: the error, or `conf` with the
values of the file written over it. -/
structure ConfigInput where
  config : String
  conf : Config
  opened : Option String
  Ext : String → String
  jsonDecode : Config → Except String Config
  yamlDecode : Config → Except String Config

/-- What `GetConfig` hands back: the pair `(Config, error)`, with `none` for the nil error,
or the panic on a file that cannot be opened. -/
inductive ConfigResult where
  | returned (conf : Config) (err : Option String)
  | panic
deriving DecidableEq

/-- Lines 115-122 of `GetConfig`: the final check of the password. -/
def passwordCheck (conf : Config) : ConfigResult :=
  ConfigResult.returned conf
    (if conf.RequirePass && conf.Password == "" then
      some "password cannot be empty if requirePass is etc to true"
    else none)

/-- Embedding of `GetConfig` (utils/config.go, lines 30-123), from the parsed flags on. -/
def GetConfig (i : ConfigInput) : ConfigResult :=
  if i.config.utf8ByteSize > 0 then
    match i.opened with
    | none => ConfigResult.panic
    | some name =>
      let ext := i.Ext name
      match (if ext = ".json" then i.jsonDecode i.conf else Except.ok i.conf) with
      | Except.error _ => ConfigResult.returned Config.zero none
      | Except.ok conf1 =>
        match (if ext = ".yaml" ∨ ext = ".yml" then i.yamlDecode conf1
               else Except.ok conf1) with
        | Except.error err => ConfigResult.returned Config.zero (some err)
        | Except.ok conf2 => passwordCheck conf2
  else passwordCheck i.conf

/-! ## Predicates and sample inputs for the reply format, the field invariant and the
configuration -/

/-- The bytes end with the line terminator followed by a blank line: the last four are
`\r\n\r\n`. -/
def EndsBlankLine (bytes : String) : Prop :=
  "\r\n\r\n".data <:+ bytes.data

/-- The bytes end with a line terminator. -/
def EndsLine (bytes : String) : Prop :=
  "\r\n".data <:+ bytes.data

/-- A reply that, when it is a success, ends with the blank line. -/
def BlankTerminated (r : Reply) : Prop :=
  ∀ bytes, r = Reply.ok bytes → EndsBlankLine bytes

/-- Every field of the hash holds an `int`, a `float64` or a `string`. -/
def ScalarFields (hash : GoMap Value) : Prop :=
  ∀ p ∈ hash, p.2.isScalar = true

/-- Every hash of the store has only fields that hold an `int`, a `float64` or a
`string`. -/
def HashesScalar (s : Server) : Prop :=
  ∀ k hash, s.value k = Value.hash hash → ScalarFields hash

/-- Every value that the calls `evs` handed to `SetValue` is a hash whose fields hold an
`int`, a `float64` or a `string`. -/
def StoresScalarHashes (evs : List Event) : Prop :=
  ∀ kv ∈ writes evs, ∃ hash, kv.2 = Value.hash hash ∧ ScalarFields hash

/-- A handler run `r` from state `s` that keeps the fields of the hashes scalar: in the
state it leaves, every field of every hash holds an `int`, a `float64` or a `string`, and so
does every field of every value it handed to `SetValue`. -/
def KeepsScalar (s : Server) (r : Reply × Server) : Prop :=
  HashesScalar r.2 ∧ ∃ evs : List Event, r.2.log = s.log ++ evs ∧ StoresScalarHashes evs

/-- A store in which key `h` holds the hash with field `n` = 42 and field `s` = `abc`. -/
def numberServer : Server :=
  { emptyServer with
    present := fun x => decide (x = "h")
    value := fun x =>
      if x = "h" then Value.hash [("n", Value.int 42), ("s", Value.str "abc")]
      else Value.nil }

/-- The final extension of a file name, as the examples need it: `.json` for
`conf.json`, `.yaml` for `conf.yaml`, nothing otherwise. -/
def sampleExt (name : String) : String :=
  if name = "conf.json" then ".json" else if name = "conf.yaml" then ".yaml" else ""

/-- The configuration that the default values of the flags give. -/
def defaultConfig : Config :=
  { Config.zero with
    Port := 7480, ServerID := "1", RaftBindPort := 7481, MemberListBindPort := 7946,
    DataDir := "/var/lib/memstore" }

/-- A run with `-config conf.json` on a file that opens and does not hold JSON. -/
def brokenJson : ConfigInput where
  config := "conf.json"
  conf := defaultConfig
  opened := some "conf.json"
  Ext := sampleExt
  jsonDecode := fun _ => Except.error "invalid character"
  yamlDecode := fun c => Except.ok c

/-- A run with `-config conf.yaml` on a file that opens and does not hold YAML. -/
def brokenYaml : ConfigInput where
  config := "conf.yaml"
  conf := defaultConfig
  opened := some "conf.yaml"
  Ext := sampleExt
  jsonDecode := fun c => Except.ok c
  yamlDecode := fun _ => Except.error "yaml: did not find expected node content"

/-- A store in which key `h` holds the hash whose field `a` is the greatest 64-bit `int`. -/
def limitServer : Server :=
  { emptyServer with
    present := fun x => decide (x = "h")
    value := fun x =>
      if x = "h" then Value.hash [("a", Value.int 9223372036854775807)] else Value.nil }

/-- The reply `r` lists the fields `fields` of the hash: its bytes are the array header
with the number of elements that follow, these elements, and the closing line.  The elements
are the names of the fields, in order, as bulk strings, each followed by the encoding of its
value when `withvalues` is set; every one of them is a bulk string or an integer line. -/
def ListsFields (env : Env) (withvalues : Bool) (hash : GoMap Value) (fields : List String)
    (r : Reply) : Prop :=
  ∃ elems : List String,
    r = Reply.ok ("*" ++ toString elems.length ++ "\r\n" ++ String.join elems ++ "\r\n") ∧
    elems = (if withvalues then
        (fields.map (fun f => [bulk f, valueElem env (hashIndex hash f)])).flatten
      else fields.map bulk) ∧
    ∀ e ∈ elems,
      (∃ str : String, e = "$" ++ toString str.utf8ByteSize ++ "\r\n" ++ str ++ "\r\n") ∨
      (∃ d : Int, e = ":" ++ toString d ++ "\r\n")


/-! ## Facts about Go maps -/

theorem GoMap.find_cons {α : Type} (k : String) (v : α) (rest : GoMap α) (x : String) :
    GoMap.find ((k, v) :: rest) x = if x = k then some v else GoMap.find rest x := by
  by_cases h : x = k
  · subst h
    simp [GoMap.find, List.lookup]
  · have hx : (x == k) = false := by simpa using h
    simp [GoMap.find, List.lookup, hx, h]

theorem GoMap.find_put {α : Type} (m : GoMap α) (k : String) (v : α) (x : String) :
    GoMap.find (GoMap.put m k v) x = if x = k then some v else GoMap.find m x := by
  induction m with
  | nil =>
    simp only [GoMap.put, GoMap.find_cons]
  | cons p rest ih =>
    obtain ⟨k', v'⟩ := p
    by_cases hk : k' = k
    · subst hk
      simp only [GoMap.put, if_true, GoMap.find_cons]
      by_cases h : x = k' <;> simp [h]
    · simp only [GoMap.put, hk, if_false, GoMap.find_cons, ih]
      by_cases h : x = k'
      · subst h
        simp [hk]
      · simp [h]

theorem GoMap.keys_put_of_mem {α : Type} (m : GoMap α) (k : String) (v : α)
    (h : k ∈ GoMap.keys m) : GoMap.keys (GoMap.put m k v) = GoMap.keys m := by
  induction m with
  | nil => simp [GoMap.keys] at h
  | cons p rest ih =>
    obtain ⟨k', v'⟩ := p
    by_cases hk : k' = k
    · simp [GoMap.put, GoMap.keys, hk]
    · have hm : k ∈ GoMap.keys rest := by
        simp only [GoMap.keys, List.map_cons, List.mem_cons] at h
        rcases h with h | h
        · exact absurd h.symm hk
        · exact h
      have := ih hm
      simp only [GoMap.keys] at this
      simp [GoMap.put, GoMap.keys, hk, this]

theorem GoMap.keys_put_of_not_mem {α : Type} (m : GoMap α) (k : String) (v : α)
    (h : k ∉ GoMap.keys m) : GoMap.keys (GoMap.put m k v) = GoMap.keys m ++ [k] := by
  induction m with
  | nil => simp [GoMap.put, GoMap.keys]
  | cons p rest ih =>
    obtain ⟨k', v'⟩ := p
    simp only [GoMap.keys, List.map_cons, List.mem_cons, not_or] at h
    have hk : ¬ k' = k := fun e => h.1 e.symm
    have := ih h.2
    simp only [GoMap.keys] at this
    simp [GoMap.put, GoMap.keys, hk, this]

theorem GoMap.mem_keys_put {α : Type} (m : GoMap α) (k : String) (v : α) (x : String) :
    x ∈ GoMap.keys (GoMap.put m k v) ↔ x = k ∨ x ∈ GoMap.keys m := by
  by_cases h : k ∈ GoMap.keys m
  · rw [GoMap.keys_put_of_mem m k v h]
    constructor
    · exact fun hx => Or.inr hx
    · rintro (rfl | hx)
      · exact h
      · exact hx
  · rw [GoMap.keys_put_of_not_mem m k v h]
    simp [or_comm]

theorem GoMap.nodup_keys_put {α : Type} (m : GoMap α) (k : String) (v : α)
    (h : (GoMap.keys m).Nodup) : (GoMap.keys (GoMap.put m k v)).Nodup := by
  by_cases hk : k ∈ GoMap.keys m
  · rw [GoMap.keys_put_of_mem m k v hk]; exact h
  · rw [GoMap.keys_put_of_not_mem m k v hk]
    exact List.Nodup.append h (List.nodup_singleton k) (by simpa using hk)

theorem entryAt_put (m : GoMap KeyObject) (k : String) (v : KeyObject) (x : String) :
    entryAt (GoMap.put m k v) x = if x = k then v else entryAt m x := by
  unfold entryAt
  rw [GoMap.find_put]
  by_cases h : x = k <;> simp [h]

theorem hashIndex_put (m : GoMap Value) (k : String) (v : Value) (x : String) :
    hashIndex (GoMap.put m k v) x = if x = k then v else hashIndex m x := by
  unfold hashIndex
  rw [GoMap.find_put]
  by_cases h : x = k <;> simp [h]

/-! ## The loops of `handleMSet` -/

theorem lockLoop_lock_refused (k : String) (ks : List String) (entries : GoMap KeyObject)
    (s : Server) (e : String) (hp : s.present k = true) (ha : nextAnswer s.pending = some e) :
    lockLoop (k :: ks) entries s =
      (some e, entries,
        { s with pending := s.pending.tail,
                 log := s.log ++ [Event.keyExists k true, Event.keyLock k (some e)] }) := by
  simp [lockLoop, Server.KeyExists, Server.KeyLock, hp, ha]

theorem lockLoop_lock_granted (k : String) (ks : List String) (entries : GoMap KeyObject)
    (s : Server) (hp : s.present k = true) (ha : nextAnswer s.pending = none) :
    lockLoop (k :: ks) entries s =
      lockLoop ks (GoMap.put entries k { value := (entryAt entries k).value, locked := true })
        { s with pending := s.pending.tail, held := k :: s.held,
                 log := s.log ++ [Event.keyExists k true, Event.keyLock k none] } := by
  simp [lockLoop, Server.KeyExists, Server.KeyLock, hp, ha]

theorem lockLoop_create_refused (k : String) (ks : List String) (entries : GoMap KeyObject)
    (s : Server) (e : String) (hp : s.present k = false) (ha : nextAnswer s.pending = some e) :
    lockLoop (k :: ks) entries s =
      (some e, entries,
        { s with pending := s.pending.tail,
                 log := s.log ++ [Event.keyExists k false, Event.createKeyAndLock k (some e)] }) := by
  simp [lockLoop, Server.KeyExists, Server.CreateKeyAndLock, hp, ha]

theorem lockLoop_create_granted (k : String) (ks : List String) (entries : GoMap KeyObject)
    (s : Server) (hp : s.present k = false) (ha : nextAnswer s.pending = none) :
    lockLoop (k :: ks) entries s =
      lockLoop ks (GoMap.put entries k { value := (entryAt entries k).value, locked := true })
        { s with present := fun x => if x = k then true else s.present x,
                 pending := s.pending.tail, held := k :: s.held,
                 log := s.log ++ [Event.keyExists k false, Event.createKeyAndLock k none] } := by
  simp [lockLoop, Server.KeyExists, Server.CreateKeyAndLock, hp, ha]

/-- What the lock loop does, in terms of the calls it adds to the log. -/
theorem lockLoop_spec (ks : List String) :
    ∀ (entries : GoMap KeyObject) (s : Server),
    ∃ evs : List Event,
      (lockLoop ks entries s).2.2.log = s.log ++ evs ∧
      released evs = [] ∧ writes evs = [] ∧
      refusals evs = (lockLoop ks entries s).1.toList ∧
      requested evs <+: ks ∧
      acquired evs <+: ks ∧
      ((lockLoop ks entries s).1 = none → requested evs = ks ∧ acquired evs = ks) ∧
      (lockLoop ks entries s).2.2.held = (acquired evs).reverse ++ s.held ∧
      (lockLoop ks entries s).2.2.rheld = s.rheld ∧
      (lockLoop ks entries s).2.2.value = s.value ∧
      (∀ x, (lockLoop ks entries s).2.2.present x =
          (s.present x || decide (x ∈ acquired evs))) ∧
      (∀ x, entryAt (lockLoop ks entries s).2.1 x =
          if x ∈ acquired evs then { value := (entryAt entries x).value, locked := true }
          else entryAt entries x) ∧
      ((∀ k ∈ ks, k ∈ GoMap.keys entries) →
          GoMap.keys (lockLoop ks entries s).2.1 = GoMap.keys entries) := by
  induction ks with
  | nil =>
    intro entries s
    refine ⟨[], ?_⟩
    simp [lockLoop, released, writes, refusals, requested, acquired]
  | cons k ks ih =>
    intro entries s
    cases hp : s.present k <;> cases ha : nextAnswer s.pending
    · rw [lockLoop_create_granted k ks entries s hp ha]
      obtain ⟨evs, h1, h2, h3, h4, h5, h6, h7, h8, h9, h10, h11, h12, h13⟩ := ih
        (GoMap.put entries k { value := (entryAt entries k).value, locked := true })
        { s with present := fun x => if x = k then true else s.present x,
                 pending := s.pending.tail, held := k :: s.held,
                 log := s.log ++ [Event.keyExists k false, Event.createKeyAndLock k none] }
      refine ⟨[Event.keyExists k false, Event.createKeyAndLock k none] ++ evs,
        ?_, ?_, ?_, ?_, ?_, ?_, ?_, ?_, ?_, ?_, ?_, ?_, ?_⟩
      · rw [h1]; simp
      · simpa [released, Event.releasedKey] using h2
      · simpa [writes, Event.written] using h3
      · rw [← h4]; simp [refusals, Event.refusal]
      · simpa [requested, Event.requestedKey] using h5
      · simpa [acquired, Event.acquiredKey] using h6
      · intro hn
        obtain ⟨ha1, ha2⟩ := h7 hn
        simp only [requested, acquired] at ha1 ha2
        simp [requested, acquired, Event.requestedKey, Event.acquiredKey, ha1, ha2]
      · rw [h8]; simp [acquired, Event.acquiredKey]
      · rw [h9]
      · rw [h10]
      · intro x
        rw [h11]
        by_cases hx : x = k <;> simp [acquired, Event.acquiredKey, hx]
      · intro x
        rw [h12, entryAt_put]
        by_cases hx : x = k <;> simp [acquired, Event.acquiredKey, hx]
      · intro hk
        have hkk : k ∈ GoMap.keys entries := hk k (List.mem_cons_self _ _)
        rw [h13, GoMap.keys_put_of_mem _ _ _ hkk]
        intro k' hk'
        rw [GoMap.keys_put_of_mem _ _ _ hkk]
        exact hk k' (List.mem_cons_of_mem _ hk')
    · rename_i e
      rw [lockLoop_create_refused k ks entries s e hp ha]
      refine ⟨[Event.keyExists k false, Event.createKeyAndLock k (some e)], ?_⟩
      simp [released, writes, refusals, requested, acquired, Event.releasedKey, Event.written,
        Event.refusal, Event.requestedKey, Event.acquiredKey]
    · rw [lockLoop_lock_granted k ks entries s hp ha]
      obtain ⟨evs, h1, h2, h3, h4, h5, h6, h7, h8, h9, h10, h11, h12, h13⟩ := ih
        (GoMap.put entries k { value := (entryAt entries k).value, locked := true })
        { s with pending := s.pending.tail, held := k :: s.held,
                 log := s.log ++ [Event.keyExists k true, Event.keyLock k none] }
      refine ⟨[Event.keyExists k true, Event.keyLock k none] ++ evs,
        ?_, ?_, ?_, ?_, ?_, ?_, ?_, ?_, ?_, ?_, ?_, ?_, ?_⟩
      · rw [h1]; simp
      · simpa [released, Event.releasedKey] using h2
      · simpa [writes, Event.written] using h3
      · rw [← h4]; simp [refusals, Event.refusal]
      · simpa [requested, Event.requestedKey] using h5
      · simpa [acquired, Event.acquiredKey] using h6
      · intro hn
        obtain ⟨ha1, ha2⟩ := h7 hn
        simp only [requested, acquired] at ha1 ha2
        simp [requested, acquired, Event.requestedKey, Event.acquiredKey, ha1, ha2]
      · rw [h8]; simp [acquired, Event.acquiredKey]
      · rw [h9]
      · rw [h10]
      · intro x
        rw [h11]
        by_cases hx : x = k <;> simp [acquired, Event.acquiredKey, hx, hp]
      · intro x
        rw [h12, entryAt_put]
        by_cases hx : x = k <;> simp [acquired, Event.acquiredKey, hx]
      · intro hk
        have hkk : k ∈ GoMap.keys entries := hk k (List.mem_cons_self _ _)
        rw [h13, GoMap.keys_put_of_mem _ _ _ hkk]
        intro k' hk'
        rw [GoMap.keys_put_of_mem _ _ _ hkk]
        exact hk k' (List.mem_cons_of_mem _ hk')
    · rename_i e
      rw [lockLoop_lock_refused k ks entries s e hp ha]
      refine ⟨[Event.keyExists k true, Event.keyLock k (some e)], ?_⟩
      simp [released, writes, refusals, requested, acquired, Event.releasedKey, Event.written,
        Event.refusal, Event.requestedKey, Event.acquiredKey]

/-- The deferred function unlocks the keys marked locked, in the order it visits them. -/
theorem unlockLoop_spec (ks : List String) :
    ∀ (entries : GoMap KeyObject) (s : Server), ks.Nodup →
      (unlockLoop ks entries s).2 =
        { s with
          held := (ks.filter (fun k => (entryAt entries k).locked)).foldl List.erase s.held,
          log := s.log ++ (ks.filter (fun k => (entryAt entries k).locked)).map Event.keyUnlock } := by
  induction ks with
  | nil => intro entries s _; simp [unlockLoop]
  | cons k ks ih =>
    intro entries s hnd
    have hk : k ∉ ks := (List.nodup_cons.mp hnd).1
    have hks : ks.Nodup := (List.nodup_cons.mp hnd).2
    cases hl : (entryAt entries k).locked
    · simp [unlockLoop, hl, ih entries s hks]
    · have hf : ks.filter (fun x => (entryAt (GoMap.put entries k
            { value := (entryAt entries k).value, locked := false }) x).locked) =
          ks.filter (fun x => (entryAt entries x).locked) := by
        apply List.filter_congr
        intro x hx
        have hxk : x ≠ k := fun e => hk (e ▸ hx)
        simp [entryAt_put, hxk]
      simp [unlockLoop, hl, ih _ _ hks, hf, Server.KeyUnlock]

/-- The write loop installs, under each key it visits, the value held for it in `entries`. -/
theorem setLoop_spec (ks : List String) (entries : GoMap KeyObject) :
    ∀ s : Server,
      setLoop ks entries s =
        { s with
          value := fun x => if x ∈ ks then (entryAt entries x).value else s.value x,
          log := s.log ++ ks.map (fun k => Event.setValue k (entryAt entries k).value) } := by
  induction ks with
  | nil => intro s; simp [setLoop]
  | cons k ks ih =>
    intro s
    simp only [setLoop, ih, Server.SetValue]
    congr 1
    · funext x
      by_cases hx : x ∈ ks
      · simp [hx]
      · by_cases hxk : x = k <;> simp [hx, hxk]
    · simp

theorem nextAnswer_of_granting (p : List (Option String)) (h : ∀ a ∈ p, a = none) :
    nextAnswer p = none := by
  cases p with
  | nil => rfl
  | cons a rest =>
    have := h a (List.mem_cons_self _ _)
    subst this
    rfl

theorem granting_tail (p : List (Option String)) (h : ∀ a ∈ p, a = none) :
    ∀ a ∈ p.tail, a = none :=
  fun a ha => h a (List.mem_of_mem_tail ha)

/-- When the environment grants every acquisition, the lock loop runs to its end. -/
theorem lockLoop_granting (ks : List String) :
    ∀ (entries : GoMap KeyObject) (s : Server), Granting s →
      (lockLoop ks entries s).1 = none ∧ Granting (lockLoop ks entries s).2.2 := by
  induction ks with
  | nil => intro entries s h; exact ⟨rfl, h⟩
  | cons k ks ih =>
    intro entries s h
    have ha := nextAnswer_of_granting s.pending h
    cases hp : s.present k
    · rw [lockLoop_create_granted k ks entries s hp ha]
      exact ih _ _ (granting_tail s.pending h)
    · rw [lockLoop_lock_granted k ks entries s hp ha]
      exact ih _ _ (granting_tail s.pending h)

/-- Releasing, one by one and in any order, the keys pushed on top of the held locks gives
back the locks held before. -/
theorem foldl_erase_append (us : List String) :
    ∀ (top rest : List String), us.Perm top → us.foldl List.erase (top ++ rest) = rest := by
  induction us with
  | nil =>
    intro top rest h
    have : top = [] := List.Perm.eq_nil (List.Perm.symm h)
    simp [this]
  | cons u us ih =>
    intro top rest h
    have hu : u ∈ top := (List.Perm.mem_iff h).mp (List.mem_cons_self _ _)
    have h' : us.Perm (top.erase u) := by
      have := List.Perm.erase u h
      simpa using this
    simp only [List.foldl_cons]
    rw [List.erase_append_left _ hu]
    exact ih _ _ h'

/-- Induction over a token list two tokens at a time. -/
theorem pairs_induction {P : List String → Prop} (h0 : P []) (h1 : ∀ a, P [a])
    (h2 : ∀ a b rest, P rest → P (a :: b :: rest)) : ∀ l, P l
  | [] => h0
  | [a] => h1 a
  | a :: b :: rest => h2 a b rest (pairs_induction h0 h1 h2 rest)

/-- The entries extracted from the arguments are all unlocked and their keys are distinct. -/
theorem extractEntries_inv (env : Env) (args : List String) :
    ∀ m : GoMap KeyObject,
      (GoMap.keys m).Nodup → (∀ x, (entryAt m x).locked = false) →
      (GoMap.keys (extractEntries env args m)).Nodup ∧
        (∀ x, (entryAt (extractEntries env args m) x).locked = false) := by
  induction args using pairs_induction with
  | h0 => intro m h1 h2; simpa [extractEntries] using ⟨h1, h2⟩
  | h1 a => intro m h1 h2; simpa [extractEntries] using ⟨h1, h2⟩
  | h2 a b rest ih =>
    intro m h1 h2
    simp only [extractEntries]
    apply ih
    · exact GoMap.nodup_keys_put m a _ h1
    · intro x
      rw [entryAt_put]
      by_cases hx : x = a <;> simp [hx, h2 x]

/-- The keys of the extracted entries are the keys listed in the arguments. -/
theorem mem_keys_extractEntries (env : Env) (args : List String) :
    ∀ (m : GoMap KeyObject) (x : String),
      x ∈ GoMap.keys (extractEntries env args m) ↔ x ∈ GoMap.keys m ∨ x ∈ argKeys args := by
  induction args using pairs_induction with
  | h0 => intro m x; simp [extractEntries, argKeys]
  | h1 a => intro m x; simp [extractEntries, argKeys]
  | h2 a b rest ih =>
    intro m x
    simp only [extractEntries, argKeys, ih, GoMap.mem_keys_put, List.mem_cons]
    tauto

/-- The value held in the extracted entries for a listed key is the one that the
assignments in listing order leave there. -/
theorem extractEntries_value (env : Env) (args : List String) :
    ∀ (m : GoMap KeyObject) (f : String → Value),
      (fun x => if x ∈ GoMap.keys (extractEntries env args m)
          then (entryAt (extractEntries env args m) x).value else f x) =
        assign env args (fun x => if x ∈ GoMap.keys m then (entryAt m x).value else f x) := by
  induction args using pairs_induction with
  | h0 => intro m f; simp [extractEntries, assign]
  | h1 a => intro m f; simp [extractEntries, assign]
  | h2 a b rest ih =>
    intro m f
    simp only [extractEntries, assign]
    rw [ih]
    have hfun : (fun x => if x ∈ GoMap.keys (GoMap.put m a
            { value := env.AdaptType b, locked := false })
          then (entryAt (GoMap.put m a { value := env.AdaptType b, locked := false }) x).value
          else f x) =
        (fun x => if x = a then env.AdaptType b
          else if x ∈ GoMap.keys m then (entryAt m x).value else f x) := by
      funext x
      rw [entryAt_put]
      by_cases hx : x = a
      · simp [hx, GoMap.mem_keys_put]
      · simp [hx, GoMap.mem_keys_put]
    rw [hfun]

theorem released_map_keyUnlock (l : List String) : released (l.map Event.keyUnlock) = l := by
  induction l with
  | nil => rfl
  | cons a l ih =>
    simp only [released] at ih
    simp [released, Event.releasedKey, ih]

theorem acquired_map_keyUnlock (l : List String) : acquired (l.map Event.keyUnlock) = [] := by
  induction l with
  | nil => rfl
  | cons a l ih =>
    simp only [acquired] at ih
    simp [acquired, Event.acquiredKey, ih]

theorem requested_map_keyUnlock (l : List String) : requested (l.map Event.keyUnlock) = [] := by
  induction l with
  | nil => rfl
  | cons a l ih =>
    simp only [requested] at ih
    simp [requested, Event.requestedKey, ih]

theorem refusals_map_keyUnlock (l : List String) : refusals (l.map Event.keyUnlock) = [] := by
  induction l with
  | nil => rfl
  | cons a l ih =>
    simp only [refusals] at ih
    simp [refusals, Event.refusal, ih]

theorem writes_map_keyUnlock (l : List String) : writes (l.map Event.keyUnlock) = [] := by
  induction l with
  | nil => rfl
  | cons a l ih =>
    simp only [writes] at ih
    simp [writes, Event.written, ih]

theorem released_map_setValue (l : List String) (f : String → Value) :
    released (l.map (fun k => Event.setValue k (f k))) = [] := by
  induction l with
  | nil => rfl
  | cons a l ih =>
    simp only [released] at ih
    simp [released, Event.releasedKey, ih]

theorem acquired_map_setValue (l : List String) (f : String → Value) :
    acquired (l.map (fun k => Event.setValue k (f k))) = [] := by
  induction l with
  | nil => rfl
  | cons a l ih =>
    simp only [acquired] at ih
    simp [acquired, Event.acquiredKey, ih]

theorem requested_map_setValue (l : List String) (f : String → Value) :
    requested (l.map (fun k => Event.setValue k (f k))) = [] := by
  induction l with
  | nil => rfl
  | cons a l ih =>
    simp only [requested] at ih
    simp [requested, Event.requestedKey, ih]

theorem refusals_map_setValue (l : List String) (f : String → Value) :
    refusals (l.map (fun k => Event.setValue k (f k))) = [] := by
  induction l with
  | nil => rfl
  | cons a l ih =>
    simp only [refusals] at ih
    simp [refusals, Event.refusal, ih]

theorem writes_map_setValue (l : List String) (f : String → Value) :
    writes (l.map (fun k => Event.setValue k (f k))) = l.map (fun k => (k, f k)) := by
  induction l with
  | nil => rfl
  | cons a l ih =>
    simp only [writes] at ih
    simp [writes, Event.written, ih]

theorem acquired_append (a b : List Event) : acquired (a ++ b) = acquired a ++ acquired b := by
  simp [acquired]

theorem requested_append (a b : List Event) :
    requested (a ++ b) = requested a ++ requested b := by
  simp [requested]

theorem released_append (a b : List Event) : released (a ++ b) = released a ++ released b := by
  simp [released]

theorem refusals_append (a b : List Event) : refusals (a ++ b) = refusals a ++ refusals b := by
  simp [refusals]

theorem writes_append (a b : List Event) : writes (a ++ b) = writes a ++ writes b := by
  simp [writes]

/-- The run of `handleMSet` on a token list with paired arguments: the calls of the lock
loop (`levs`), then either the unlock calls and the error, or the writes, the unlock calls
and OK. -/
theorem handleMSet_run (env : Env) (o : MSetOrder) (ho : o.Valid) (c0 : String)
    (args : List String) (heven : args.length % 2 = 0) (s : Server) :
    ∃ (levs : List Event) (err : Option String) (p : String → Bool)
      (pend : List (Option String)),
      released levs = [] ∧ writes levs = [] ∧ refusals levs = err.toList ∧
      requested levs <+: o.lockOrder (GoMap.keys (extractEntries env args [])) ∧
      acquired levs <+: o.lockOrder (GoMap.keys (extractEntries env args [])) ∧
      (err = none →
        requested levs = o.lockOrder (GoMap.keys (extractEntries env args [])) ∧
        acquired levs = o.lockOrder (GoMap.keys (extractEntries env args []))) ∧
      (∀ x, p x = (s.present x || decide (x ∈ acquired levs))) ∧
      (Granting s → err = none) ∧
      handleMSet env o (c0 :: args) s =
        match err with
        | some e =>
          (Reply.error e,
            { present := p, value := s.value, held := s.held, rheld := s.rheld, pending := pend,
              log := s.log ++ levs ++
                ((o.unlockOrder (GoMap.keys (extractEntries env args []))).filter
                  (fun x => decide (x ∈ acquired levs))).map Event.keyUnlock })
        | none =>
          (Reply.ok env.OK_RESPONSE,
            { present := p,
              value := fun x =>
                if x ∈ GoMap.keys (extractEntries env args []) then
                  (entryAt (extractEntries env args []) x).value
                else s.value x,
              held := s.held, rheld := s.rheld, pending := pend,
              log := s.log ++ levs ++
                (o.setOrder (GoMap.keys (extractEntries env args []))).map
                  (fun k => Event.setValue k (entryAt (extractEntries env args []) k).value) ++
                ((o.unlockOrder (GoMap.keys (extractEntries env args []))).filter
                  (fun x => decide (x ∈ acquired levs))).map Event.keyUnlock }) := by
  obtain ⟨hnd, hunl⟩ := extractEntries_inv env args [] (by simp [GoMap.keys])
    (by intro x; simp [entryAt, GoMap.find])
  obtain ⟨levs, h1, h2, h3, h4, h5, h6, h7, h8, h9, h10, h11, h12, h13⟩ :=
    lockLoop_spec (o.lockOrder (GoMap.keys (extractEntries env args [])))
      (extractEntries env args []) s
  have hgr := lockLoop_granting (o.lockOrder (GoMap.keys (extractEntries env args [])))
      (extractEntries env args []) s
  have hsub : ∀ k ∈ o.lockOrder (GoMap.keys (extractEntries env args [])),
      k ∈ GoMap.keys (extractEntries env args []) :=
    fun k hk => (List.Perm.mem_iff (ho _).1).mp hk
  have hkeys := h13 hsub
  rcases hL : lockLoop (o.lockOrder (GoMap.keys (extractEntries env args [])))
      (extractEntries env args []) s with ⟨err, entries1, s1⟩
  rw [hL] at h1 h4 h7 h8 h9 h10 h11 h12 hkeys hgr
  simp only at h1 h4 h7 h8 h9 h10 h11 h12 hkeys hgr
  have hundup : (o.unlockOrder (GoMap.keys (extractEntries env args []))).Nodup :=
    (List.Perm.nodup_iff (ho _).2.2).mpr hnd
  have hfilter : (o.unlockOrder (GoMap.keys (extractEntries env args []))).filter
        (fun k => (entryAt entries1 k).locked) =
      (o.unlockOrder (GoMap.keys (extractEntries env args []))).filter
        (fun x => decide (x ∈ acquired levs)) := by
    apply List.filter_congr
    intro x _
    rw [h12 x]
    by_cases hx : x ∈ acquired levs <;> simp [hx, hunl x]
  have hperm : ((o.unlockOrder (GoMap.keys (extractEntries env args []))).filter
        (fun x => decide (x ∈ acquired levs))).Perm (acquired levs).reverse := by
    have hA : (acquired levs).Nodup :=
      List.Nodup.sublist (List.IsPrefix.sublist h6) ((List.Perm.nodup_iff (ho _).1).mpr hnd)
    rw [List.perm_ext_iff_of_nodup (List.Nodup.filter _ hundup) (List.nodup_reverse.mpr hA)]
    intro x
    simp only [List.mem_filter, decide_eq_true_eq, List.mem_reverse]
    constructor
    · exact fun h => h.2
    · intro hx
      refine ⟨?_, hx⟩
      exact (List.Perm.mem_iff (ho _).2.2).mpr (hsub x (List.IsPrefix.subset h6 hx))
  refine ⟨levs, err, s1.present, s1.pending, h2, h3, h4, h5, h6, h7, h11,
    fun hg => (hgr hg).1, ?_⟩
  simp only [handleMSet, heven, ne_eq, not_true_eq_false, if_false, hL]
  cases err with
  | some e =>
    simp only [hkeys]
    rw [unlockLoop_spec _ entries1 s1 hundup, hfilter, h8, foldl_erase_append _ _ _ hperm]
    simp [h1, h9, h10]
  | none =>
    simp only [hkeys]
    rw [unlockLoop_spec _ entries1 _ hundup, hfilter, setLoop_spec]
    simp only [h8, foldl_erase_append _ _ _ hperm, h1, h9, h10]
    congr 2
    · funext x
      have hmem : x ∈ o.setOrder (GoMap.keys (extractEntries env args [])) ↔
          x ∈ GoMap.keys (extractEntries env args []) := List.Perm.mem_iff (ho _).2.1
      have hval : (entryAt entries1 x).value = (entryAt (extractEntries env args []) x).value := by
        rw [h12 x]
        by_cases hx : x ∈ acquired levs <;> simp [hx]
      by_cases hx : x ∈ GoMap.keys (extractEntries env args [])
      · simp [hx, hmem, hval]
      · simp [hx, hmem]
    · have hmap : (o.setOrder (GoMap.keys (extractEntries env args []))).map
            (fun k => Event.setValue k (entryAt entries1 k).value) =
          (o.setOrder (GoMap.keys (extractEntries env args []))).map
            (fun k => Event.setValue k (entryAt (extractEntries env args []) k).value) := by
        apply List.map_congr_left
        intro x _
        rw [h12 x]
        by_cases hx : x ∈ acquired levs <;> simp [hx]
      rw [hmap]

/-! ## Theorems about SET, SETNX and MSET -/

theorem sampleOrder_valid : sampleOrder.Valid := by
  intro l
  exact ⟨List.Perm.refl l, List.reverse_perm l, List.reverse_perm l⟩

/-- C1: for every MSET token list with paired arguments, every iteration order of the map
and every pattern of acquisition outcomes, the calls that `handleMSet` adds to the log
release (`KeyUnlock`) exactly the keys whose lock was granted, each once, no key is acquired
twice, and the locks held after the call are those held before it; the call ends with an
error or with OK. -/
theorem handleMSet_releases_what_it_acquired (env : Env) (o : MSetOrder) (ho : o.Valid)
    (c0 : String) (args : List String) (heven : args.length % 2 = 0) (s : Server) :
    ∃ evs : List Event,
      (handleMSet env o (c0 :: args) s).2.log = s.log ++ evs ∧
      (released evs).Perm (acquired evs) ∧
      (acquired evs).Nodup ∧
      (handleMSet env o (c0 :: args) s).2.held = s.held ∧
      (handleMSet env o (c0 :: args) s).2.rheld = s.rheld ∧
      ((handleMSet env o (c0 :: args) s).1 = Reply.ok env.OK_RESPONSE ∨
        ∃ e, (handleMSet env o (c0 :: args) s).1 = Reply.error e) := by
  obtain ⟨hnd, -⟩ := extractEntries_inv env args [] (by simp [GoMap.keys])
    (by intro x; simp [entryAt, GoMap.find])
  obtain ⟨levs, err, p, pend, h1, h2, h3, h4, h5, h6, h7, h8, hrun⟩ :=
    handleMSet_run env o ho c0 args heven s
  have hA : (acquired levs).Nodup :=
    List.Nodup.sublist (List.IsPrefix.sublist h5) ((List.Perm.nodup_iff (ho _).1).mpr hnd)
  have hU : ((o.unlockOrder (GoMap.keys (extractEntries env args []))).filter
        (fun x => decide (x ∈ acquired levs))).Perm (acquired levs) := by
    rw [List.perm_ext_iff_of_nodup
      (List.Nodup.filter _ ((List.Perm.nodup_iff (ho _).2.2).mpr hnd)) hA]
    intro x
    simp only [List.mem_filter, decide_eq_true_eq]
    constructor
    · exact fun h => h.2
    · intro hx
      refine ⟨?_, hx⟩
      exact (List.Perm.mem_iff (ho _).2.2).mpr
        ((List.Perm.mem_iff (ho _).1).mp (List.IsPrefix.subset h5 hx))
  rw [hrun]
  cases err with
  | some e =>
    refine ⟨levs ++ ((o.unlockOrder (GoMap.keys (extractEntries env args []))).filter
        (fun x => decide (x ∈ acquired levs))).map Event.keyUnlock, ?_, ?_, ?_, rfl, rfl, ?_⟩
    · simp
    · rw [released_append, acquired_append, released_map_keyUnlock, acquired_map_keyUnlock, h1]
      simpa using hU
    · rw [acquired_append, acquired_map_keyUnlock]
      simpa using hA
    · exact Or.inr ⟨e, rfl⟩
  | none =>
    refine ⟨levs ++ (o.setOrder (GoMap.keys (extractEntries env args []))).map
          (fun k => Event.setValue k (entryAt (extractEntries env args []) k).value) ++
        ((o.unlockOrder (GoMap.keys (extractEntries env args []))).filter
          (fun x => decide (x ∈ acquired levs))).map Event.keyUnlock, ?_, ?_, ?_, rfl, rfl, ?_⟩
    · simp
    · rw [released_append, released_append, acquired_append, acquired_append,
        released_map_keyUnlock, acquired_map_keyUnlock, h1]
      rw [released_map_setValue _ (fun k => (entryAt (extractEntries env args []) k).value),
        acquired_map_setValue _ (fun k => (entryAt (extractEntries env args []) k).value)]
      simpa using hU
    · rw [acquired_append, acquired_append, acquired_map_keyUnlock,
        acquired_map_setValue _ (fun k => (entryAt (extractEntries env args []) k).value)]
      simpa using hA
    · exact Or.inl rfl

/-- Witness of C1: `MSET a 1 b 2 a 3`, the second acquisition refused. -/
theorem handleMSet_releases_what_it_acquired_witness :
    sampleOrder.Valid ∧ ["a", "1", "b", "2", "a", "3"].length % 2 = 0 ∧
    ∃ evs : List Event,
      (handleMSet sampleEnv sampleOrder ("mset" :: ["a", "1", "b", "2", "a", "3"])
          refusingServer).2.log = refusingServer.log ++ evs ∧
      (released evs).Perm (acquired evs) ∧
      (acquired evs).Nodup ∧
      (handleMSet sampleEnv sampleOrder ("mset" :: ["a", "1", "b", "2", "a", "3"])
          refusingServer).2.held = refusingServer.held ∧
      (handleMSet sampleEnv sampleOrder ("mset" :: ["a", "1", "b", "2", "a", "3"])
          refusingServer).2.rheld = refusingServer.rheld ∧
      ((handleMSet sampleEnv sampleOrder ("mset" :: ["a", "1", "b", "2", "a", "3"])
          refusingServer).1 = Reply.ok sampleEnv.OK_RESPONSE ∨
        ∃ e, (handleMSet sampleEnv sampleOrder ("mset" :: ["a", "1", "b", "2", "a", "3"])
          refusingServer).1 = Reply.error e) :=
  ⟨sampleOrder_valid, by decide,
    handleMSet_releases_what_it_acquired sampleEnv sampleOrder sampleOrder_valid "mset"
      ["a", "1", "b", "2", "a", "3"] (by decide) refusingServer⟩

/-- C2: in a run of `handleMSet` on paired arguments, if an acquisition is refused with
error `e` then the reply is that error, no `SetValue` was called and the value under every
key is what it was; and when the reply is OK, the calls split into a first part without any
`SetValue`, in which the lock of every key of the map is acquired, and a second part
without any acquisition, which holds the writes. -/
theorem handleMSet_writes_after_all_locks (env : Env) (o : MSetOrder) (ho : o.Valid)
    (c0 : String) (args : List String) (heven : args.length % 2 = 0) (s : Server) :
    ∃ evs : List Event,
      (handleMSet env o (c0 :: args) s).2.log = s.log ++ evs ∧
      (∀ e ∈ refusals evs,
        (handleMSet env o (c0 :: args) s).1 = Reply.error e ∧ writes evs = [] ∧
        (handleMSet env o (c0 :: args) s).2.value = s.value) ∧
      ((handleMSet env o (c0 :: args) s).1 = Reply.ok env.OK_RESPONSE →
        ∃ pre post, evs = pre ++ post ∧ writes pre = [] ∧ requested post = [] ∧
          acquired pre = o.lockOrder (GoMap.keys (extractEntries env args [])) ∧
          writes post = (o.setOrder (GoMap.keys (extractEntries env args []))).map
            (fun k => (k, (entryAt (extractEntries env args []) k).value))) := by
  obtain ⟨levs, err, p, pend, h1, h2, h3, h4, h5, h6, h7, h8, hrun⟩ :=
    handleMSet_run env o ho c0 args heven s
  rw [hrun]
  cases err with
  | some e =>
    refine ⟨levs ++ ((o.unlockOrder (GoMap.keys (extractEntries env args []))).filter
        (fun x => decide (x ∈ acquired levs))).map Event.keyUnlock, ?_, ?_, ?_⟩
    · simp
    · intro e' he'
      rw [refusals_append, refusals_map_keyUnlock, h3] at he'
      simp only [Option.toList, List.append_nil, List.mem_singleton] at he'
      subst he'
      refine ⟨rfl, ?_, rfl⟩
      rw [writes_append, writes_map_keyUnlock, h2]
      rfl
    · intro h
      simp at h
  | none =>
    refine ⟨levs ++ (o.setOrder (GoMap.keys (extractEntries env args []))).map
          (fun k => Event.setValue k (entryAt (extractEntries env args []) k).value) ++
        ((o.unlockOrder (GoMap.keys (extractEntries env args []))).filter
          (fun x => decide (x ∈ acquired levs))).map Event.keyUnlock, ?_, ?_, ?_⟩
    · simp
    · intro e' he'
      rw [refusals_append, refusals_append, refusals_map_keyUnlock, h3,
        refusals_map_setValue _ (fun k => (entryAt (extractEntries env args []) k).value)] at he'
      simp at he'
    · intro _
      refine ⟨levs, (o.setOrder (GoMap.keys (extractEntries env args []))).map
          (fun k => Event.setValue k (entryAt (extractEntries env args []) k).value) ++
        ((o.unlockOrder (GoMap.keys (extractEntries env args []))).filter
          (fun x => decide (x ∈ acquired levs))).map Event.keyUnlock, ?_, h2, ?_, (h6 rfl).2, ?_⟩
      · simp
      · rw [requested_append, requested_map_keyUnlock,
          requested_map_setValue _ (fun k => (entryAt (extractEntries env args []) k).value)]
        rfl
      · rw [writes_append, writes_map_keyUnlock,
          writes_map_setValue _ (fun k => (entryAt (extractEntries env args []) k).value)]
        simp

/-- Witness of C2: `MSET a 1 b 2` with the second acquisition refused by a timeout. -/
theorem handleMSet_writes_after_all_locks_witness :
    sampleOrder.Valid ∧ ["a", "1", "b", "2"].length % 2 = 0 ∧
    refusals (handleMSet sampleEnv sampleOrder ("mset" :: ["a", "1", "b", "2"])
      refusingServer).2.log = ["timeout"] ∧
    ∃ evs : List Event,
      (handleMSet sampleEnv sampleOrder ("mset" :: ["a", "1", "b", "2"]) refusingServer).2.log =
        refusingServer.log ++ evs ∧
      (∀ e ∈ refusals evs,
        (handleMSet sampleEnv sampleOrder ("mset" :: ["a", "1", "b", "2"]) refusingServer).1 =
          Reply.error e ∧ writes evs = [] ∧
        (handleMSet sampleEnv sampleOrder ("mset" :: ["a", "1", "b", "2"])
          refusingServer).2.value = refusingServer.value) ∧
      ((handleMSet sampleEnv sampleOrder ("mset" :: ["a", "1", "b", "2"]) refusingServer).1 =
          Reply.ok sampleEnv.OK_RESPONSE →
        ∃ pre post, evs = pre ++ post ∧ writes pre = [] ∧ requested post = [] ∧
          acquired pre =
            sampleOrder.lockOrder
              (GoMap.keys (extractEntries sampleEnv ["a", "1", "b", "2"] [])) ∧
          writes post =
            (sampleOrder.setOrder
              (GoMap.keys (extractEntries sampleEnv ["a", "1", "b", "2"] []))).map
              (fun k => (k, (entryAt (extractEntries sampleEnv ["a", "1", "b", "2"] []) k).value))) :=
  ⟨sampleOrder_valid, by decide, by decide,
    handleMSet_writes_after_all_locks sampleEnv sampleOrder sampleOrder_valid "mset"
      ["a", "1", "b", "2"] (by decide) refusingServer⟩

/-- One `SET` when the environment grants every acquisition. -/
theorem handleSet_granting (env : Env) (c0 k v : String) (s : Server) (hg : Granting s) :
    (handleSet env [c0, k, v] s).1 = Reply.ok env.OK_RESPONSE ∧
    (handleSet env [c0, k, v] s).2.value =
      (fun x => if x = k then env.AdaptType v else s.value x) ∧
    (∀ x, (handleSet env [c0, k, v] s).2.present x = (s.present x || decide (x = k))) ∧
    Granting (handleSet env [c0, k, v] s).2 := by
  have ha := nextAnswer_of_granting s.pending hg
  have ht := granting_tail s.pending hg
  cases hp : s.present k
  · refine ⟨?_, ?_, ?_, ?_⟩
    · simp [handleSet, Server.KeyExists, Server.CreateKeyAndLock, hp, ha]
    · simp [handleSet, Server.KeyExists, Server.CreateKeyAndLock, Server.SetValue,
        Server.KeyUnlock, hp, ha]
    · intro x
      by_cases hx : x = k <;>
        simp [handleSet, Server.KeyExists, Server.CreateKeyAndLock, Server.SetValue,
          Server.KeyUnlock, hp, ha, hx]
    · simpa [Granting, handleSet, Server.KeyExists, Server.CreateKeyAndLock, Server.SetValue,
        Server.KeyUnlock, hp, ha] using ht
  · refine ⟨?_, ?_, ?_, ?_⟩
    · simp [handleSet, Server.KeyExists, Server.KeyLock, hp, ha]
    · simp [handleSet, Server.KeyExists, Server.KeyLock, Server.SetValue,
        Server.KeyUnlock, hp, ha]
    · intro x
      by_cases hx : x = k <;>
        simp [handleSet, Server.KeyExists, Server.KeyLock, Server.SetValue,
          Server.KeyUnlock, hp, ha, hx]
    · simpa [Granting, handleSet, Server.KeyExists, Server.KeyLock, Server.SetValue,
        Server.KeyUnlock, hp, ha] using ht

/-- The `SET` sequence when the environment grants every acquisition. -/
theorem runSets_granting (env : Env) (args : List String) :
    ∀ s : Server, Granting s →
      (∀ r ∈ (runSets env args s).1, r = Reply.ok env.OK_RESPONSE) ∧
      (runSets env args s).1.length = args.length / 2 ∧
      (runSets env args s).2.value = assign env args s.value ∧
      (∀ x, (runSets env args s).2.present x = (s.present x || decide (x ∈ argKeys args))) := by
  induction args using pairs_induction with
  | h0 => intro s _; simp [runSets, assign, argKeys]
  | h1 a => intro s _; simp [runSets, assign, argKeys]
  | h2 a b rest ih =>
    intro s hg
    obtain ⟨g1, g2, g3, g4⟩ := handleSet_granting env "set" a b s hg
    obtain ⟨i1, i2, i3, i4⟩ := ih _ g4
    refine ⟨?_, ?_, ?_, ?_⟩
    · intro r hr
      simp only [runSets, List.mem_cons] at hr
      rcases hr with hr | hr
      · rw [hr, g1]
      · exact i1 r hr
    · simp only [runSets, List.length_cons, i2]
      omega
    · simp only [runSets, assign, i3, g2]
    · intro x
      simp only [runSets, argKeys, i4, g3, List.mem_cons]
      by_cases hx : x = a <;> simp [hx]

/-- C3: when the environment grants every lock acquisition, for every store and every
paired token list `k1 v1 ... kn vn` (keys may repeat) and every iteration order of the map,
`MSET k1 v1 ... kn vn` replies OK, each of `SET k1 v1; ...; SET kn vn` run in that order
replies OK, and both leave the same value under every key and the same set of keys. -/
theorem handleMSet_refines_runSets (env : Env) (o : MSetOrder) (ho : o.Valid) (c0 : String)
    (args : List String) (heven : args.length % 2 = 0) (s : Server) (hg : Granting s) :
    (handleMSet env o (c0 :: args) s).1 = Reply.ok env.OK_RESPONSE ∧
    (∀ r ∈ (runSets env args s).1, r = Reply.ok env.OK_RESPONSE) ∧
    (runSets env args s).1.length = args.length / 2 ∧
    (handleMSet env o (c0 :: args) s).2.value = (runSets env args s).2.value ∧
    (handleMSet env o (c0 :: args) s).2.present = (runSets env args s).2.present := by
  obtain ⟨levs, err, p, pend, h1, h2, h3, h4, h5, h6, h7, h8, hrun⟩ :=
    handleMSet_run env o ho c0 args heven s
  obtain ⟨r1, r2, r3, r4⟩ := runSets_granting env args s hg
  have herr : err = none := h8 hg
  subst herr
  obtain ⟨-, hacq⟩ := h6 rfl
  rw [hrun]
  refine ⟨rfl, r1, r2, ?_, ?_⟩
  · rw [r3]
    have := extractEntries_value env args [] s.value
    simpa [GoMap.keys] using this
  · funext x
    rw [r4 x]
    simp only [h7 x, hacq]
    have hmem : x ∈ o.lockOrder (GoMap.keys (extractEntries env args [])) ↔
        x ∈ argKeys args := by
      rw [List.Perm.mem_iff (ho _).1, mem_keys_extractEntries]
      simp [GoMap.keys]
    by_cases hx : x ∈ argKeys args <;> simp [hx, hmem]

theorem emptyServer_granting : Granting emptyServer := by
  intro a ha
  simp [emptyServer] at ha

/-- Witness of C3: `MSET a 1 b 2` against `SET a 1; SET b 2` on the empty store. -/
theorem handleMSet_refines_runSets_witness :
    sampleOrder.Valid ∧ ["a", "1", "b", "2"].length % 2 = 0 ∧ Granting emptyServer ∧
    ((handleMSet sampleEnv sampleOrder ("mset" :: ["a", "1", "b", "2"]) emptyServer).1 =
        Reply.ok sampleEnv.OK_RESPONSE ∧
      (∀ r ∈ (runSets sampleEnv ["a", "1", "b", "2"] emptyServer).1,
        r = Reply.ok sampleEnv.OK_RESPONSE) ∧
      (runSets sampleEnv ["a", "1", "b", "2"] emptyServer).1.length =
        ["a", "1", "b", "2"].length / 2 ∧
      (handleMSet sampleEnv sampleOrder ("mset" :: ["a", "1", "b", "2"]) emptyServer).2.value =
        (runSets sampleEnv ["a", "1", "b", "2"] emptyServer).2.value ∧
      (handleMSet sampleEnv sampleOrder ("mset" :: ["a", "1", "b", "2"]) emptyServer).2.present =
        (runSets sampleEnv ["a", "1", "b", "2"] emptyServer).2.present) ∧
    (handleMSet sampleEnv sampleOrder ("mset" :: ["a", "1", "b", "2"]) emptyServer).2.value "a" =
      Value.int 1 ∧
    (handleMSet sampleEnv sampleOrder ("mset" :: ["a", "1", "b", "2"]) emptyServer).2.value "b" =
      Value.int 2 :=
  ⟨sampleOrder_valid, by decide, emptyServer_granting,
    handleMSet_refines_runSets sampleEnv sampleOrder sampleOrder_valid "mset"
      ["a", "1", "b", "2"] (by decide) emptyServer emptyServer_granting,
    by decide, by decide⟩

/-- Counterexample to C4: with the map yielding its keys in insertion order, `MSET b 3 a 4`
requests the lock of `b` before that of `a`, which is not sorted by key name, and is not the
sequence in which `MSET a 1 b 2` requests them. -/
theorem handleMSet_lock_sequence_not_sorted :
    sampleOrder.Valid ∧
    requested (handleMSet sampleEnv sampleOrder ["mset", "b", "3", "a", "4"] emptyServer).2.log =
      ["b", "a"] ∧
    ¬ List.Sorted (fun a b : String => a ≤ b)
      (requested
        (handleMSet sampleEnv sampleOrder ["mset", "b", "3", "a", "4"] emptyServer).2.log) ∧
    requested (handleMSet sampleEnv sampleOrder ["mset", "a", "1", "b", "2"] emptyServer).2.log ≠
      requested (handleMSet sampleEnv sampleOrder ["mset", "b", "3", "a", "4"] emptyServer).2.log := by
  have h1 : requested
      (handleMSet sampleEnv sampleOrder ["mset", "b", "3", "a", "4"] emptyServer).2.log =
      ["b", "a"] := by decide
  have h2 : ¬ ("b" : String) ≤ "a" := by
    rw [not_le, String.lt_iff_toList_lt]
    decide
  refine ⟨sampleOrder_valid, h1, ?_, by decide⟩
  rw [h1]
  simpa [List.Sorted] using h2

/-- C4, amended: the keys passed to `KeyLock` / `CreateKeyAndLock` by `handleMSet` are, in
order, an initial segment of the sequence in which the `range` over the map yields its keys
(all of it when the reply is OK); the sequence has no repeated key and only keys listed in
the arguments, and on OK every listed key is in it. -/
theorem handleMSet_lock_sequence (env : Env) (o : MSetOrder) (ho : o.Valid) (c0 : String)
    (args : List String) (heven : args.length % 2 = 0) (s : Server) :
    ∃ evs : List Event,
      (handleMSet env o (c0 :: args) s).2.log = s.log ++ evs ∧
      requested evs <+: o.lockOrder (GoMap.keys (extractEntries env args [])) ∧
      (requested evs).Nodup ∧
      (∀ k ∈ requested evs, k ∈ argKeys args) ∧
      ((handleMSet env o (c0 :: args) s).1 = Reply.ok env.OK_RESPONSE →
        requested evs = o.lockOrder (GoMap.keys (extractEntries env args [])) ∧
        ∀ k ∈ argKeys args, k ∈ requested evs) := by
  obtain ⟨hnd, -⟩ := extractEntries_inv env args [] (by simp [GoMap.keys])
    (by intro x; simp [entryAt, GoMap.find])
  obtain ⟨levs, err, p, pend, h1, h2, h3, h4, h5, h6, h7, h8, hrun⟩ :=
    handleMSet_run env o ho c0 args heven s
  have hmem : ∀ x, x ∈ o.lockOrder (GoMap.keys (extractEntries env args [])) ↔
      x ∈ argKeys args := by
    intro x
    rw [List.Perm.mem_iff (ho _).1, mem_keys_extractEntries]
    simp [GoMap.keys]
  have hN : (requested levs).Nodup :=
    List.Nodup.sublist (List.IsPrefix.sublist h4) ((List.Perm.nodup_iff (ho _).1).mpr hnd)
  have hS : ∀ k ∈ requested levs, k ∈ argKeys args :=
    fun k hk => (hmem k).mp (List.IsPrefix.subset h4 hk)
  rw [hrun]
  cases err with
  | some e =>
    refine ⟨levs ++ ((o.unlockOrder (GoMap.keys (extractEntries env args []))).filter
        (fun x => decide (x ∈ acquired levs))).map Event.keyUnlock, ?_, ?_, ?_, ?_, ?_⟩
    · simp
    · rw [requested_append, requested_map_keyUnlock, List.append_nil]; exact h4
    · rw [requested_append, requested_map_keyUnlock, List.append_nil]; exact hN
    · rw [requested_append, requested_map_keyUnlock, List.append_nil]; exact hS
    · intro h
      simp at h
  | none =>
    have hreq : requested (levs ++ (o.setOrder (GoMap.keys (extractEntries env args []))).map
          (fun k => Event.setValue k (entryAt (extractEntries env args []) k).value) ++
        ((o.unlockOrder (GoMap.keys (extractEntries env args []))).filter
          (fun x => decide (x ∈ acquired levs))).map Event.keyUnlock) = requested levs := by
      rw [requested_append, requested_append, requested_map_keyUnlock,
        requested_map_setValue _ (fun k => (entryAt (extractEntries env args []) k).value)]
      simp
    refine ⟨levs ++ (o.setOrder (GoMap.keys (extractEntries env args []))).map
          (fun k => Event.setValue k (entryAt (extractEntries env args []) k).value) ++
        ((o.unlockOrder (GoMap.keys (extractEntries env args []))).filter
          (fun x => decide (x ∈ acquired levs))).map Event.keyUnlock, ?_, ?_, ?_, ?_, ?_⟩
    · simp
    · rw [hreq]; exact h4
    · rw [hreq]; exact hN
    · rw [hreq]; exact hS
    · intro _
      rw [hreq]
      refine ⟨(h6 rfl).1, ?_⟩
      intro k hk
      rw [(h6 rfl).1]
      exact (hmem k).mpr hk

/-- Witness of C4 as amended: `MSET b 3 a 4` on the empty store. -/
theorem handleMSet_lock_sequence_witness :
    sampleOrder.Valid ∧ ["b", "3", "a", "4"].length % 2 = 0 ∧
    ∃ evs : List Event,
      (handleMSet sampleEnv sampleOrder ("mset" :: ["b", "3", "a", "4"]) emptyServer).2.log =
        emptyServer.log ++ evs ∧
      requested evs <+:
        sampleOrder.lockOrder (GoMap.keys (extractEntries sampleEnv ["b", "3", "a", "4"] [])) ∧
      (requested evs).Nodup ∧
      (∀ k ∈ requested evs, k ∈ argKeys ["b", "3", "a", "4"]) ∧
      ((handleMSet sampleEnv sampleOrder ("mset" :: ["b", "3", "a", "4"]) emptyServer).1 =
          Reply.ok sampleEnv.OK_RESPONSE →
        requested evs =
          sampleOrder.lockOrder (GoMap.keys (extractEntries sampleEnv ["b", "3", "a", "4"] [])) ∧
        ∀ k ∈ argKeys ["b", "3", "a", "4"], k ∈ requested evs) :=
  ⟨sampleOrder_valid, by decide,
    handleMSet_lock_sequence sampleEnv sampleOrder sampleOrder_valid "mset"
      ["b", "3", "a", "4"] (by decide) emptyServer⟩

/-- C6: in every store where key `k` exists, `SETNX k v` replies with the error
`key k already exists` and does nothing but the existence check: values, keys, held locks
and pending answers are as before.  And whenever `SETNX k v1` replies OK, the value under
`k` is the coerced `v1`, a following `SETNX k v2` replies with that error, and the value
under `k` is still the coerced `v1`. -/
theorem handleSetNX_existing_key (env : Env) (c0 k : String) :
    (∀ (s : Server) (v : String), s.present k = true →
      handleSetNX env [c0, k, v] s =
        (Reply.error ("key " ++ k ++ " already exists"),
          { s with log := s.log ++ [Event.keyExists k true] })) ∧
    (∀ (s : Server) (v1 v2 : String),
      (handleSetNX env [c0, k, v1] s).1 = Reply.ok env.OK_RESPONSE →
        (handleSetNX env [c0, k, v1] s).2.value k = env.AdaptType v1 ∧
        (handleSetNX env [c0, k, v2] (handleSetNX env [c0, k, v1] s).2).1 =
          Reply.error ("key " ++ k ++ " already exists") ∧
        (handleSetNX env [c0, k, v2] (handleSetNX env [c0, k, v1] s).2).2.value k =
          env.AdaptType v1) := by
  constructor
  · intro s v h
    simp [handleSetNX, Server.KeyExists, h]
  · intro s v1 v2 h
    cases hp : s.present k <;> cases ha : nextAnswer s.pending <;>
      simp_all [handleSetNX, Server.KeyExists, Server.CreateKeyAndLock, Server.SetValue,
        Server.KeyUnlock]

/-- Witness of C6: `SETNX k 7` on the store where `k` holds the string `v`, and
`SETNX k 1` followed by `SETNX k 2` on the empty store. -/
theorem handleSetNX_existing_key_witness :
    scalarServer.present "k" = true ∧
    handleSetNX sampleEnv ["setnx", "k", "7"] scalarServer =
      (Reply.error ("key " ++ "k" ++ " already exists"),
        { scalarServer with log := scalarServer.log ++ [Event.keyExists "k" true] }) ∧
    (handleSetNX sampleEnv ["setnx", "k", "1"] emptyServer).1 = Reply.ok sampleEnv.OK_RESPONSE ∧
    ((handleSetNX sampleEnv ["setnx", "k", "1"] emptyServer).2.value "k" =
        sampleEnv.AdaptType "1" ∧
      (handleSetNX sampleEnv ["setnx", "k", "2"]
          (handleSetNX sampleEnv ["setnx", "k", "1"] emptyServer).2).1 =
        Reply.error ("key " ++ "k" ++ " already exists") ∧
      (handleSetNX sampleEnv ["setnx", "k", "2"]
          (handleSetNX sampleEnv ["setnx", "k", "1"] emptyServer).2).2.value "k" =
        sampleEnv.AdaptType "1") :=
  ⟨by decide,
    (handleSetNX_existing_key sampleEnv "setnx" "k").1 scalarServer "7" (by decide),
    by decide,
    (handleSetNX_existing_key sampleEnv "setnx" "k").2 emptyServer "1" "2" (by decide)⟩

/-- C7: whenever `SET k v` replies OK, the value under `k` is the coerced `v` and the
value under every other key is what it was, whatever `k` held before; and running the same
`SET k v` again leaves the values, the keys and the held locks as the first run left them. -/
theorem handleSet_stores_value (env : Env) (c0 k v : String) (s : Server)
    (hok : (handleSet env [c0, k, v] s).1 = Reply.ok env.OK_RESPONSE) :
    (handleSet env [c0, k, v] s).2.value k = env.AdaptType v ∧
    (∀ x, x ≠ k → (handleSet env [c0, k, v] s).2.value x = s.value x) ∧
    (handleSet env [c0, k, v] (handleSet env [c0, k, v] s).2).2.value =
      (handleSet env [c0, k, v] s).2.value ∧
    (handleSet env [c0, k, v] (handleSet env [c0, k, v] s).2).2.present =
      (handleSet env [c0, k, v] s).2.present ∧
    (handleSet env [c0, k, v] (handleSet env [c0, k, v] s).2).2.held =
      (handleSet env [c0, k, v] s).2.held ∧
    (handleSet env [c0, k, v] (handleSet env [c0, k, v] s).2).2.rheld =
      (handleSet env [c0, k, v] s).2.rheld := by
  cases hp : s.present k <;> cases ha : nextAnswer s.pending <;>
    cases ha2 : nextAnswer s.pending.tail <;>
    simp_all [handleSet, Server.KeyExists, Server.CreateKeyAndLock, Server.KeyLock,
      Server.SetValue, Server.KeyUnlock]

/-- Witness of C7: `SET k 12` on the store where `k` holds the string `v`. -/
theorem handleSet_stores_value_witness :
    (handleSet sampleEnv ["set", "k", "12"] scalarServer).1 = Reply.ok sampleEnv.OK_RESPONSE ∧
    ((handleSet sampleEnv ["set", "k", "12"] scalarServer).2.value "k" =
        sampleEnv.AdaptType "12" ∧
      (∀ x, x ≠ "k" →
        (handleSet sampleEnv ["set", "k", "12"] scalarServer).2.value x = scalarServer.value x) ∧
      (handleSet sampleEnv ["set", "k", "12"]
          (handleSet sampleEnv ["set", "k", "12"] scalarServer).2).2.value =
        (handleSet sampleEnv ["set", "k", "12"] scalarServer).2.value ∧
      (handleSet sampleEnv ["set", "k", "12"]
          (handleSet sampleEnv ["set", "k", "12"] scalarServer).2).2.present =
        (handleSet sampleEnv ["set", "k", "12"] scalarServer).2.present ∧
      (handleSet sampleEnv ["set", "k", "12"]
          (handleSet sampleEnv ["set", "k", "12"] scalarServer).2).2.held =
        (handleSet sampleEnv ["set", "k", "12"] scalarServer).2.held ∧
      (handleSet sampleEnv ["set", "k", "12"]
          (handleSet sampleEnv ["set", "k", "12"] scalarServer).2).2.rheld =
        (handleSet sampleEnv ["set", "k", "12"] scalarServer).2.rheld) ∧
    (handleSet sampleEnv ["set", "k", "12"] scalarServer).2.value "k" = Value.int 12 :=
  ⟨by decide, handleSet_stores_value sampleEnv "set" "k" "12" scalarServer (by decide),
    by decide⟩

/-- Counterexample to C8: `SET k v` on a store without `k` where `CreateKeyAndLock` fails
with `AlreadyExists` replies with that error, not with OK; it makes no further call, and
the value under `k` is not the coerced `v`. -/
theorem handleSet_returns_creation_error :
    racingServer.present "k" = false ∧
    (handleSet sampleEnv ["set", "k", "v"] racingServer).1 = Reply.error "AlreadyExists" ∧
    (handleSet sampleEnv ["set", "k", "v"] racingServer).1 ≠ Reply.ok sampleEnv.OK_RESPONSE ∧
    (handleSet sampleEnv ["set", "k", "v"] racingServer).2.log =
      [Event.keyExists "k" false, Event.createKeyAndLock "k" (some "AlreadyExists")] ∧
    (handleSet sampleEnv ["set", "k", "v"] racingServer).2.value "k" ≠
      sampleEnv.AdaptType "v" := by
  decide

/-- C8, amended: when `SET k v` finds `k` absent and `CreateKeyAndLock` is refused with
error `e`, `SET` replies with `e`; after the existence check and the refused creation it
makes no call on the server (no `KeyLock`, `SetValue` or `KeyUnlock`), so values, keys and
held locks are as before. -/
theorem handleSet_creation_refused (env : Env) (c0 k v e : String) (s : Server)
    (hk : s.present k = false) (he : nextAnswer s.pending = some e) :
    handleSet env [c0, k, v] s =
      (Reply.error e,
        { s with pending := s.pending.tail,
                 log := s.log ++ [Event.keyExists k false, Event.createKeyAndLock k (some e)] }) := by
  simp [handleSet, Server.KeyExists, Server.CreateKeyAndLock, hk, he]

/-- Witness of C8 as amended: `SET k v` with the creation refused by `AlreadyExists`. -/
theorem handleSet_creation_refused_witness :
    racingServer.present "k" = false ∧
    nextAnswer racingServer.pending = some "AlreadyExists" ∧
    handleSet sampleEnv ["set", "k", "v"] racingServer =
      (Reply.error "AlreadyExists",
        { racingServer with
          pending := racingServer.pending.tail,
          log := racingServer.log ++
            [Event.keyExists "k" false, Event.createKeyAndLock "k" (some "AlreadyExists")] }) :=
  ⟨by decide, by decide,
    handleSet_creation_refused sampleEnv "set" "k" "v" "AlreadyExists" racingServer
      (by decide) (by decide)⟩

/-! ## Lock scoping of the single-key handlers -/

theorem handleSet_scoped (env : Env) (cmd : List String) (s : Server) :
    CallScoped s (handleSet env cmd s) := by
  unfold CallScoped handleSet
  split
  · rename_i c0 key val
    cases hp : s.present key <;> cases ha : nextAnswer s.pending <;>
      cases hv : (s.value key).asHash <;>
      simp [Server.KeyExists, Server.CreateKeyAndLock, Server.KeyLock, Server.KeyRLock,
        Server.GetValue, Server.SetValue, Server.KeyUnlock, Server.KeyRUnlock, hp, ha, hv,
        scopedFrom]
  · exact ⟨[], by simp, rfl⟩

theorem handleSetNX_scoped (env : Env) (cmd : List String) (s : Server) :
    CallScoped s (handleSetNX env cmd s) := by
  unfold CallScoped handleSetNX
  split
  · rename_i c0 key val
    cases hp : s.present key <;> cases ha : nextAnswer s.pending <;>
      cases hv : (s.value key).asHash <;>
      simp [Server.KeyExists, Server.CreateKeyAndLock, Server.KeyLock, Server.KeyRLock,
        Server.GetValue, Server.SetValue, Server.KeyUnlock, Server.KeyRUnlock, hp, ha, hv,
        scopedFrom]
  · exact ⟨[], by simp, rfl⟩

theorem handleHGET_scoped (env : Env) (cmd : List String) (s : Server) :
    CallScoped s (handleHGET env cmd s) := by
  unfold CallScoped handleHGET
  split
  · rename_i c0 key field more
    cases hp : s.present key <;> cases ha : nextAnswer s.pending <;>
      cases hv : (s.value key).asHash <;>
      simp [Server.KeyExists, Server.CreateKeyAndLock, Server.KeyLock, Server.KeyRLock,
        Server.GetValue, Server.SetValue, Server.KeyUnlock, Server.KeyRUnlock, hp, ha, hv,
        scopedFrom]
  · exact ⟨[], by simp, rfl⟩

theorem handleHSTRLEN_scoped (env : Env) (cmd : List String) (s : Server) :
    CallScoped s (handleHSTRLEN env cmd s) := by
  unfold CallScoped handleHSTRLEN
  split
  · rename_i c0 key field more
    cases hp : s.present key <;> cases ha : nextAnswer s.pending <;>
      cases hv : (s.value key).asHash <;>
      simp [Server.KeyExists, Server.CreateKeyAndLock, Server.KeyLock, Server.KeyRLock,
        Server.GetValue, Server.SetValue, Server.KeyUnlock, Server.KeyRUnlock, hp, ha, hv,
        scopedFrom]
  · exact ⟨[], by simp, rfl⟩

theorem handleHVALS_scoped (env : Env) (ord : List String → List String) (cmd : List String) (s : Server) :
    CallScoped s (handleHVALS env ord cmd s) := by
  unfold CallScoped handleHVALS
  split
  · rename_i c0 key
    cases hp : s.present key <;> cases ha : nextAnswer s.pending <;>
      cases hv : (s.value key).asHash <;>
      simp [Server.KeyExists, Server.CreateKeyAndLock, Server.KeyLock, Server.KeyRLock,
        Server.GetValue, Server.SetValue, Server.KeyUnlock, Server.KeyRUnlock, hp, ha, hv,
        scopedFrom]
  · exact ⟨[], by simp, rfl⟩

theorem handleHLEN_scoped (env : Env) (cmd : List String) (s : Server) :
    CallScoped s (handleHLEN env cmd s) := by
  unfold CallScoped handleHLEN
  split
  · rename_i c0 key
    cases hp : s.present key <;> cases ha : nextAnswer s.pending <;>
      cases hv : (s.value key).asHash <;>
      simp [Server.KeyExists, Server.CreateKeyAndLock, Server.KeyLock, Server.KeyRLock,
        Server.GetValue, Server.SetValue, Server.KeyUnlock, Server.KeyRUnlock, hp, ha, hv,
        scopedFrom]
  · exact ⟨[], by simp, rfl⟩

theorem handleHKEYS_scoped (env : Env) (ord : List String → List String) (cmd : List String) (s : Server) :
    CallScoped s (handleHKEYS env ord cmd s) := by
  unfold CallScoped handleHKEYS
  split
  · rename_i c0 key
    cases hp : s.present key <;> cases ha : nextAnswer s.pending <;>
      cases hv : (s.value key).asHash <;>
      simp [Server.KeyExists, Server.CreateKeyAndLock, Server.KeyLock, Server.KeyRLock,
        Server.GetValue, Server.SetValue, Server.KeyUnlock, Server.KeyRUnlock, hp, ha, hv,
        scopedFrom]
  · exact ⟨[], by simp, rfl⟩

theorem handleHGETALL_scoped (env : Env) (ord : List String → List String) (cmd : List String) (s : Server) :
    CallScoped s (handleHGETALL env ord cmd s) := by
  unfold CallScoped handleHGETALL
  split
  · rename_i c0 key
    cases hp : s.present key <;> cases ha : nextAnswer s.pending <;>
      cases hv : (s.value key).asHash <;>
      simp [Server.KeyExists, Server.CreateKeyAndLock, Server.KeyLock, Server.KeyRLock,
        Server.GetValue, Server.SetValue, Server.KeyUnlock, Server.KeyRUnlock, hp, ha, hv,
        scopedFrom]
  · exact ⟨[], by simp, rfl⟩

theorem handleHDEL_scoped (env : Env) (cmd : List String) (s : Server) :
    CallScoped s (handleHDEL env cmd s) := by
  unfold CallScoped handleHDEL
  split
  · rename_i c0 key field more
    cases hp : s.present key <;> cases ha : nextAnswer s.pending <;>
      cases hv : (s.value key).asHash <;>
      simp [Server.KeyExists, Server.CreateKeyAndLock, Server.KeyLock, Server.KeyRLock,
        Server.GetValue, Server.SetValue, Server.KeyUnlock, Server.KeyRUnlock, hp, ha, hv,
        scopedFrom]
  · exact ⟨[], by simp, rfl⟩

theorem handleHEXISTS_scoped (env : Env) (cmd : List String) (s : Server) :
    CallScoped s (handleHEXISTS env cmd s) := by
  unfold CallScoped handleHEXISTS
  split
  · rename_i c0 key field
    cases hp : s.present key <;> cases ha : nextAnswer s.pending <;>
      cases hv : (s.value key).asHash <;>
      simp [Server.KeyExists, Server.KeyRLock, Server.GetValue, Server.KeyRUnlock, hp, ha, hv,
        scopedFrom]
    split <;> simp [scopedFrom]
  · exact ⟨[], by simp, rfl⟩

theorem handleHSET_scoped (env : Env) (ord : List String → List String) (cmd : List String)
    (s : Server) : CallScoped s (handleHSET env ord cmd s) := by
  unfold CallScoped handleHSET
  split
  · rename_i c0 key f v more
    split
    · exact ⟨[], by simp, rfl⟩
    · cases hp : s.present key <;> cases ha : nextAnswer s.pending <;>
        cases hv : (s.value key).asHash <;>
        simp [Server.KeyExists, Server.CreateKeyAndLock, Server.KeyLock, Server.GetValue,
          Server.SetValue, Server.KeyUnlock, hp, ha, hv, scopedFrom]
  · exact ⟨[], by simp, rfl⟩

theorem hrandfieldBody_scoped (env : Env) (ord : List String → List String) (rnd : Nat → Nat)
    (key : String) (count : Int) (withvalues : Bool) (s : Server) :
    CallScoped s (hrandfieldBody env ord rnd key count withvalues s) := by
  unfold CallScoped hrandfieldBody
  cases hp : s.present key <;> cases ha : nextAnswer s.pending <;>
    cases hv : (s.value key).asHash <;>
    simp [Server.KeyExists, Server.KeyRLock, Server.GetValue, Server.KeyRUnlock, hp, ha, hv,
      scopedFrom]
  split
  · simp [scopedFrom]
  · split <;> simp [scopedFrom]

theorem handleHRANDFIELD_scoped (env : Env) (ord : List String → List String)
    (rnd : Nat → Nat) (cmd : List String) (s : Server) :
    CallScoped s (handleHRANDFIELD env ord rnd cmd s) := by
  unfold handleHRANDFIELD
  split
  · exact hrandfieldBody_scoped env ord rnd _ _ _ s
  · split
    · exact ⟨[], by simp, rfl⟩
    · split
      · exact ⟨[], by simp, rfl⟩
      · exact hrandfieldBody_scoped env ord rnd _ _ _ s
  · split
    · exact ⟨[], by simp, rfl⟩
    · split
      · exact ⟨[], by simp, rfl⟩
      · split
        · exact hrandfieldBody_scoped env ord rnd _ _ _ s
        · exact ⟨[], by simp, rfl⟩
  · exact ⟨[], by simp, rfl⟩

theorem incrbyBody_scoped (env : Env) (key field : String) (inc : Increment) (s : Server) :
    CallScoped s (incrbyBody env key field inc s) := by
  unfold CallScoped incrbyBody
  cases hp : s.present key <;> cases ha : nextAnswer s.pending <;>
    cases hv : (s.value key).asHash <;> cases inc <;>
    simp [Server.KeyExists, Server.CreateKeyAndLock, Server.KeyLock, Server.GetValue,
      Server.SetValue, Server.KeyUnlock, hp, ha, hv, scopedFrom]
  all_goals
    split
    · simp [scopedFrom]
    · split <;> simp [scopedFrom]

theorem handleINCRBY_scoped (env : Env) (cmd : List String) (s : Server) :
    CallScoped s (handleINCRBY env cmd s) := by
  unfold handleINCRBY
  split
  · split
    · split
      · exact ⟨[], by simp, rfl⟩
      · exact incrbyBody_scoped env _ _ _ s
    · split
      · exact ⟨[], by simp, rfl⟩
      · exact incrbyBody_scoped env _ _ _ s
  · exact ⟨[], by simp, rfl⟩

/-- C5: for SET, SETNX and every hash handler (`handleHSET` serves HSET and HSETNX,
`handleINCRBY` serves HINCRBY and HINCRBYFLOAT), for every token list, every state, every
iteration order and every random stream, the calls the handler adds to the log are well
scoped: each granted `KeyLock` / `CreateKeyAndLock` is followed by exactly one `KeyUnlock`
of the same key, each granted `KeyRLock` by exactly one `KeyRUnlock` of the same key, and
no release is made without a granted acquisition before it - on the error returns and on
the panic of HRANDFIELD as well. -/
theorem handlers_release_what_they_acquire (env : Env) (ord : List String → List String)
    (rnd : Nat → Nat) (cmd : List String) (s : Server) :
    CallScoped s (handleSet env cmd s) ∧
    CallScoped s (handleSetNX env cmd s) ∧
    CallScoped s (handleHSET env ord cmd s) ∧
    CallScoped s (handleHGET env cmd s) ∧
    CallScoped s (handleHSTRLEN env cmd s) ∧
    CallScoped s (handleHVALS env ord cmd s) ∧
    CallScoped s (handleHKEYS env ord cmd s) ∧
    CallScoped s (handleHGETALL env ord cmd s) ∧
    CallScoped s (handleHLEN env cmd s) ∧
    CallScoped s (handleHEXISTS env cmd s) ∧
    CallScoped s (handleHRANDFIELD env ord rnd cmd s) ∧
    CallScoped s (handleINCRBY env cmd s) ∧
    CallScoped s (handleHDEL env cmd s) :=
  ⟨handleSet_scoped env cmd s, handleSetNX_scoped env cmd s, handleHSET_scoped env ord cmd s,
    handleHGET_scoped env cmd s, handleHSTRLEN_scoped env cmd s,
    handleHVALS_scoped env ord cmd s, handleHKEYS_scoped env ord cmd s,
    handleHGETALL_scoped env ord cmd s, handleHLEN_scoped env cmd s,
    handleHEXISTS_scoped env cmd s, handleHRANDFIELD_scoped env ord rnd cmd s,
    handleINCRBY_scoped env cmd s, handleHDEL_scoped env cmd s⟩

/-! ## Arity errors -/

theorem handleSet_arity (env : Env) (cmd : List String) (s : Server) (h : cmd.length ≠ 3) :
    handleSet env cmd s = (Reply.error env.WRONG_ARGS_RESPONSE, s) := by
  rcases cmd with _ | ⟨a, _ | ⟨b, _ | ⟨c, _ | ⟨d, rest⟩⟩⟩⟩
  all_goals first | rfl | (exfalso; simp only [List.length_cons, List.length_nil] at h; omega)

theorem handleSetNX_arity (env : Env) (cmd : List String) (s : Server) (h : cmd.length ≠ 3) :
    handleSetNX env cmd s = (Reply.error env.WRONG_ARGS_RESPONSE, s) := by
  rcases cmd with _ | ⟨a, _ | ⟨b, _ | ⟨c, _ | ⟨d, rest⟩⟩⟩⟩
  all_goals first | rfl | (exfalso; simp only [List.length_cons, List.length_nil] at h; omega)

theorem handleMSet_arity (env : Env) (o : MSetOrder) (c0 : String) (args : List String)
    (s : Server) (h : args.length % 2 ≠ 0) :
    handleMSet env o (c0 :: args) s =
      (Reply.error "each key must have a matching value", s) := by
  simp [handleMSet, h]

theorem handleHSET_arity (env : Env) (ord : List String → List String) (cmd : List String)
    (s : Server) (h : cmd.length < 4 ∨ (cmd.length - 2) % 2 ≠ 0) :
    ∃ msg, handleHSET env ord cmd s = (Reply.error msg, s) := by
  rcases cmd with _ | ⟨a, _ | ⟨b, _ | ⟨c, _ | ⟨d, rest⟩⟩⟩⟩
  · exact ⟨_, rfl⟩
  · exact ⟨_, rfl⟩
  · exact ⟨_, rfl⟩
  · exact ⟨_, rfl⟩
  · have h2 : (c :: d :: rest).length % 2 ≠ 0 := by
      simp only [List.length_cons] at h ⊢
      omega
    refine ⟨"each field must have a corresponding value", ?_⟩
    simp only [handleHSET, h2, ne_eq, not_false_eq_true, if_true]

theorem handleHGET_arity (env : Env) (cmd : List String) (s : Server) (h : cmd.length < 3) :
    handleHGET env cmd s = (Reply.error env.WRONG_ARGS_RESPONSE, s) := by
  rcases cmd with _ | ⟨a, _ | ⟨b, _ | ⟨c, rest⟩⟩⟩
  all_goals first | rfl | (exfalso; simp only [List.length_cons, List.length_nil] at h; omega)

theorem handleHSTRLEN_arity (env : Env) (cmd : List String) (s : Server) (h : cmd.length < 3) :
    handleHSTRLEN env cmd s = (Reply.error env.WRONG_ARGS_RESPONSE, s) := by
  rcases cmd with _ | ⟨a, _ | ⟨b, _ | ⟨c, rest⟩⟩⟩
  all_goals first | rfl | (exfalso; simp only [List.length_cons, List.length_nil] at h; omega)

theorem handleHDEL_arity (env : Env) (cmd : List String) (s : Server) (h : cmd.length < 3) :
    handleHDEL env cmd s = (Reply.error env.WRONG_ARGS_RESPONSE, s) := by
  rcases cmd with _ | ⟨a, _ | ⟨b, _ | ⟨c, rest⟩⟩⟩
  all_goals first | rfl | (exfalso; simp only [List.length_cons, List.length_nil] at h; omega)

theorem handleHVALS_arity (env : Env) (ord : List String → List String) (cmd : List String)
    (s : Server) (h : cmd.length ≠ 2) :
    handleHVALS env ord cmd s = (Reply.error env.WRONG_ARGS_RESPONSE, s) := by
  rcases cmd with _ | ⟨a, _ | ⟨b, _ | ⟨c, rest⟩⟩⟩
  all_goals first | rfl | (exfalso; simp only [List.length_cons, List.length_nil] at h; omega)

theorem handleHKEYS_arity (env : Env) (ord : List String → List String) (cmd : List String)
    (s : Server) (h : cmd.length ≠ 2) :
    handleHKEYS env ord cmd s = (Reply.error env.WRONG_ARGS_RESPONSE, s) := by
  rcases cmd with _ | ⟨a, _ | ⟨b, _ | ⟨c, rest⟩⟩⟩
  all_goals first | rfl | (exfalso; simp only [List.length_cons, List.length_nil] at h; omega)

theorem handleHGETALL_arity (env : Env) (ord : List String → List String) (cmd : List String)
    (s : Server) (h : cmd.length ≠ 2) :
    handleHGETALL env ord cmd s = (Reply.error env.WRONG_ARGS_RESPONSE, s) := by
  rcases cmd with _ | ⟨a, _ | ⟨b, _ | ⟨c, rest⟩⟩⟩
  all_goals first | rfl | (exfalso; simp only [List.length_cons, List.length_nil] at h; omega)

theorem handleHLEN_arity (env : Env) (cmd : List String) (s : Server) (h : cmd.length ≠ 2) :
    handleHLEN env cmd s = (Reply.error env.WRONG_ARGS_RESPONSE, s) := by
  rcases cmd with _ | ⟨a, _ | ⟨b, _ | ⟨c, rest⟩⟩⟩
  all_goals first | rfl | (exfalso; simp only [List.length_cons, List.length_nil] at h; omega)

theorem handleHRANDFIELD_arity (env : Env) (ord : List String → List String)
    (rnd : Nat → Nat) (cmd : List String) (s : Server)
    (h : cmd.length < 2 ∨ 4 < cmd.length) :
    handleHRANDFIELD env ord rnd cmd s = (Reply.error env.WRONG_ARGS_RESPONSE, s) := by
  rcases cmd with _ | ⟨a, _ | ⟨b, _ | ⟨c, _ | ⟨d, _ | ⟨e, rest⟩⟩⟩⟩⟩
  all_goals first | rfl | (exfalso; simp only [List.length_cons, List.length_nil] at h; omega)

theorem handleINCRBY_arity (env : Env) (cmd : List String) (s : Server) (h : cmd.length ≠ 4) :
    handleINCRBY env cmd s = (Reply.error env.WRONG_ARGS_RESPONSE, s) := by
  rcases cmd with _ | ⟨a, _ | ⟨b, _ | ⟨c, _ | ⟨d, _ | ⟨e, rest⟩⟩⟩⟩⟩
  all_goals first | rfl | (exfalso; simp only [List.length_cons, List.length_nil] at h; omega)

theorem handleHEXISTS_arity (env : Env) (cmd : List String) (s : Server) (h : cmd.length ≠ 3) :
    handleHEXISTS env cmd s = (Reply.error env.WRONG_ARGS_RESPONSE, s) := by
  rcases cmd with _ | ⟨a, _ | ⟨b, _ | ⟨c, _ | ⟨d, rest⟩⟩⟩⟩
  all_goals first | rfl | (exfalso; simp only [List.length_cons, List.length_nil] at h; omega)

/-- C9: a token list that violates the arity of its command gets an error reply and the
state of the server is returned as it was received - its log included, so that no call
at all was made on the server: SET and SETNX with a length other than 3; MSET with an odd
number of arguments after the name; HSET / HSETNX with a length below 4 or an odd number of
tokens after the key; HGET, HSTRLEN and HDEL with a length below 3; HVALS, HKEYS, HGETALL
and HLEN with a length other than 2; HRANDFIELD with a length outside 2..4; HINCRBY /
HINCRBYFLOAT with a length other than 4; HEXISTS with a length other than 3. -/
theorem arity_errors_touch_nothing (env : Env) (o : MSetOrder)
    (ord : List String → List String) (rnd : Nat → Nat) (cmd : List String) (s : Server) :
    (cmd.length ≠ 3 → handleSet env cmd s = (Reply.error env.WRONG_ARGS_RESPONSE, s)) ∧
    (cmd.length ≠ 3 → handleSetNX env cmd s = (Reply.error env.WRONG_ARGS_RESPONSE, s)) ∧
    (∀ c0 args, cmd = c0 :: args → args.length % 2 ≠ 0 →
      handleMSet env o cmd s = (Reply.error "each key must have a matching value", s)) ∧
    (cmd.length < 4 ∨ (cmd.length - 2) % 2 ≠ 0 →
      ∃ msg, handleHSET env ord cmd s = (Reply.error msg, s)) ∧
    (cmd.length < 3 → handleHGET env cmd s = (Reply.error env.WRONG_ARGS_RESPONSE, s)) ∧
    (cmd.length < 3 → handleHSTRLEN env cmd s = (Reply.error env.WRONG_ARGS_RESPONSE, s)) ∧
    (cmd.length < 3 → handleHDEL env cmd s = (Reply.error env.WRONG_ARGS_RESPONSE, s)) ∧
    (cmd.length ≠ 2 → handleHVALS env ord cmd s = (Reply.error env.WRONG_ARGS_RESPONSE, s)) ∧
    (cmd.length ≠ 2 → handleHKEYS env ord cmd s = (Reply.error env.WRONG_ARGS_RESPONSE, s)) ∧
    (cmd.length ≠ 2 →
      handleHGETALL env ord cmd s = (Reply.error env.WRONG_ARGS_RESPONSE, s)) ∧
    (cmd.length ≠ 2 → handleHLEN env cmd s = (Reply.error env.WRONG_ARGS_RESPONSE, s)) ∧
    (cmd.length < 2 ∨ 4 < cmd.length →
      handleHRANDFIELD env ord rnd cmd s = (Reply.error env.WRONG_ARGS_RESPONSE, s)) ∧
    (cmd.length ≠ 4 → handleINCRBY env cmd s = (Reply.error env.WRONG_ARGS_RESPONSE, s)) ∧
    (cmd.length ≠ 3 → handleHEXISTS env cmd s = (Reply.error env.WRONG_ARGS_RESPONSE, s)) :=
  ⟨handleSet_arity env cmd s, handleSetNX_arity env cmd s,
    fun c0 args hc h => hc ▸ handleMSet_arity env o c0 args s h,
    handleHSET_arity env ord cmd s, handleHGET_arity env cmd s, handleHSTRLEN_arity env cmd s,
    handleHDEL_arity env cmd s, handleHVALS_arity env ord cmd s,
    handleHKEYS_arity env ord cmd s, handleHGETALL_arity env ord cmd s,
    handleHLEN_arity env cmd s, handleHRANDFIELD_arity env ord rnd cmd s,
    handleINCRBY_arity env cmd s, handleHEXISTS_arity env cmd s⟩

/-- Witness of C9: the one-token list `x` violates every arity but that of MSET, and
`MSET a` has an unpaired key. -/
theorem arity_errors_touch_nothing_witness :
    handleSet sampleEnv ["x"] scalarServer =
      (Reply.error sampleEnv.WRONG_ARGS_RESPONSE, scalarServer) ∧
    handleMSet sampleEnv sampleOrder ["mset", "a"] scalarServer =
      (Reply.error "each key must have a matching value", scalarServer) ∧
    (∃ msg, handleHSET sampleEnv (fun l => l) ["hset", "k", "f", "1", "g"] scalarServer =
      (Reply.error msg, scalarServer)) ∧
    handleHRANDFIELD sampleEnv (fun l => l) (fun _ => 0) ["x"] scalarServer =
      (Reply.error sampleEnv.WRONG_ARGS_RESPONSE, scalarServer) ∧
    handleINCRBY sampleEnv ["x"] scalarServer =
      (Reply.error sampleEnv.WRONG_ARGS_RESPONSE, scalarServer) :=
  ⟨(arity_errors_touch_nothing sampleEnv sampleOrder (fun l => l) (fun _ => 0) ["x"]
      scalarServer).1 (by decide),
    (arity_errors_touch_nothing sampleEnv sampleOrder (fun l => l) (fun _ => 0) ["mset", "a"]
      scalarServer).2.2.1 "mset" ["a"] rfl (by decide),
    (arity_errors_touch_nothing sampleEnv sampleOrder (fun l => l) (fun _ => 0)
      ["hset", "k", "f", "1", "g"] scalarServer).2.2.2.1 (Or.inr (by decide)),
    (arity_errors_touch_nothing sampleEnv sampleOrder (fun l => l) (fun _ => 0) ["x"]
      scalarServer).2.2.2.2.2.2.2.2.2.2.2.1 (Or.inl (by decide)),
    (arity_errors_touch_nothing sampleEnv sampleOrder (fun l => l) (fun _ => 0) ["x"]
      scalarServer).2.2.2.2.2.2.2.2.2.2.2.2.1 (by decide)⟩

/-! ## A key that does not hold a hash -/

theorem handleHSET_nonhash (env : Env) (ord : List String → List String) (s : Server)
    (c0 key f v : String) (more : List String) (hp : s.present key = true)
    (hv : (s.value key).asHash = none) (hpair : (f :: v :: more).length % 2 = 0) :
    RejectsNonHash s key (handleHSET env ord (c0 :: key :: f :: v :: more) s) := by
  unfold RejectsNonHash
  have hpair2 : ¬ (f :: v :: more).length % 2 ≠ 0 := by simpa using hpair
  simp only [handleHSET, hpair2, if_false]
  cases ha : nextAnswer s.pending <;>
    simp [Server.KeyExists, Server.KeyLock, Server.GetValue, Server.KeyUnlock, hp, hv, ha]

theorem handleHGET_nonhash (env : Env) (s : Server) (c0 key f : String) (more : List String)
    (hp : s.present key = true) (hv : (s.value key).asHash = none) :
    RejectsNonHash s key (handleHGET env (c0 :: key :: f :: more) s) := by
  unfold RejectsNonHash
  cases ha : nextAnswer s.pending <;>
    simp [handleHGET, Server.KeyExists, Server.KeyRLock, Server.GetValue,
      Server.KeyRUnlock, hp, hv, ha]

theorem handleHSTRLEN_nonhash (env : Env) (s : Server) (c0 key f : String)
    (more : List String) (hp : s.present key = true) (hv : (s.value key).asHash = none) :
    RejectsNonHash s key (handleHSTRLEN env (c0 :: key :: f :: more) s) := by
  unfold RejectsNonHash
  cases ha : nextAnswer s.pending <;>
    simp [handleHSTRLEN, Server.KeyExists, Server.KeyRLock, Server.GetValue,
      Server.KeyRUnlock, hp, hv, ha]

theorem handleHDEL_nonhash (env : Env) (s : Server) (c0 key f : String) (more : List String)
    (hp : s.present key = true) (hv : (s.value key).asHash = none) :
    RejectsNonHash s key (handleHDEL env (c0 :: key :: f :: more) s) := by
  unfold RejectsNonHash
  cases ha : nextAnswer s.pending <;>
    simp [handleHDEL, Server.KeyExists, Server.KeyLock, Server.GetValue,
      Server.KeyUnlock, hp, hv, ha]

theorem handleHVALS_nonhash (env : Env) (ord : List String → List String) (s : Server)
    (c0 key : String) (hp : s.present key = true) (hv : (s.value key).asHash = none) :
    RejectsNonHash s key (handleHVALS env ord [c0, key] s) := by
  unfold RejectsNonHash
  cases ha : nextAnswer s.pending <;>
    simp [handleHVALS, Server.KeyExists, Server.KeyRLock, Server.GetValue,
      Server.KeyRUnlock, hp, hv, ha]

theorem handleHKEYS_nonhash (env : Env) (ord : List String → List String) (s : Server)
    (c0 key : String) (hp : s.present key = true) (hv : (s.value key).asHash = none) :
    RejectsNonHash s key (handleHKEYS env ord [c0, key] s) := by
  unfold RejectsNonHash
  cases ha : nextAnswer s.pending <;>
    simp [handleHKEYS, Server.KeyExists, Server.KeyRLock, Server.GetValue,
      Server.KeyRUnlock, hp, hv, ha]

theorem handleHGETALL_nonhash (env : Env) (ord : List String → List String) (s : Server)
    (c0 key : String) (hp : s.present key = true) (hv : (s.value key).asHash = none) :
    RejectsNonHash s key (handleHGETALL env ord [c0, key] s) := by
  unfold RejectsNonHash
  cases ha : nextAnswer s.pending <;>
    simp [handleHGETALL, Server.KeyExists, Server.KeyRLock, Server.GetValue,
      Server.KeyRUnlock, hp, hv, ha]

theorem handleHLEN_nonhash (env : Env) (s : Server) (c0 key : String)
    (hp : s.present key = true) (hv : (s.value key).asHash = none) :
    RejectsNonHash s key (handleHLEN env [c0, key] s) := by
  unfold RejectsNonHash
  cases ha : nextAnswer s.pending <;>
    simp [handleHLEN, Server.KeyExists, Server.KeyRLock, Server.GetValue,
      Server.KeyRUnlock, hp, hv, ha]

theorem handleHEXISTS_nonhash (env : Env) (s : Server) (c0 key f : String)
    (hp : s.present key = true) (hv : (s.value key).asHash = none) :
    RejectsNonHash s key (handleHEXISTS env [c0, key, f] s) := by
  unfold RejectsNonHash
  cases ha : nextAnswer s.pending <;>
    simp [handleHEXISTS, Server.KeyExists, Server.KeyRLock, Server.GetValue,
      Server.KeyRUnlock, hp, hv, ha]

theorem hrandfieldBody_nonhash (env : Env) (ord : List String → List String)
    (rnd : Nat → Nat) (s : Server) (key : String) (count : Int) (withvalues : Bool)
    (hp : s.present key = true) (hv : (s.value key).asHash = none) :
    RejectsNonHash s key (hrandfieldBody env ord rnd key count withvalues s) := by
  unfold RejectsNonHash
  cases ha : nextAnswer s.pending <;>
    simp [hrandfieldBody, Server.KeyExists, Server.KeyRLock, Server.GetValue,
      Server.KeyRUnlock, hp, hv, ha]

theorem incrbyBody_nonhash (env : Env) (s : Server) (key field : String) (inc : Increment)
    (hp : s.present key = true) (hv : (s.value key).asHash = none) :
    RejectsNonHash s key (incrbyBody env key field inc s) := by
  unfold RejectsNonHash
  cases ha : nextAnswer s.pending <;>
    simp [incrbyBody, Server.KeyExists, Server.KeyLock, Server.GetValue,
      Server.KeyUnlock, hp, hv, ha]

/-- Counterexample to C10: on a store where `k` holds a string, `HRANDFIELD k 0` replies
with the empty array, a success response, and makes no call on the server; and `HGET k f`
whose lock acquisition is refused replies with the error of the acquisition, which is not
the not-a-hash error. -/
theorem handleHRANDFIELD_zero_count_on_scalar :
    scalarServer.present "k" = true ∧ (scalarServer.value "k").asHash = none ∧
    handleHRANDFIELD sampleEnv (fun l => l) (fun _ => 0) ["hrandfield", "k", "0"] scalarServer =
      (Reply.ok "*0\r\n\r\n", scalarServer) ∧
    (handleHGET sampleEnv ["hget", "k", "f"]
        { scalarServer with pending := [some "timeout"] }).1 = Reply.error "timeout" ∧
    Reply.error "timeout" ≠ Reply.error (notAHash "k") := by
  refine ⟨by decide, by decide, ?_, by decide, by decide⟩
  rfl

/-- C10, amended: if the key exists and holds a value that is not a hash, then for every
hash command and every well-formed token list other than HRANDFIELD with count 0, the
handler replies with the not-a-hash error when its lock acquisition is granted and with the
error of the acquisition when it is refused - never with a success - and values, keys and
held locks are as before.  Well-formed: paired field/value tail for HSET / HSETNX, a count
that parses and, if given, the modifier `withvalues` for HRANDFIELD, an increment that
parses for HINCRBY / HINCRBYFLOAT. -/
theorem hash_handlers_reject_non_hash (env : Env) (ord : List String → List String)
    (rnd : Nat → Nat) (s : Server) (c0 key : String) (hp : s.present key = true)
    (hv : (s.value key).asHash = none) :
    (∀ f v more, (f :: v :: more).length % 2 = 0 →
      RejectsNonHash s key (handleHSET env ord (c0 :: key :: f :: v :: more) s)) ∧
    (∀ f more, RejectsNonHash s key (handleHGET env (c0 :: key :: f :: more) s)) ∧
    (∀ f more, RejectsNonHash s key (handleHSTRLEN env (c0 :: key :: f :: more) s)) ∧
    RejectsNonHash s key (handleHVALS env ord [c0, key] s) ∧
    RejectsNonHash s key (handleHKEYS env ord [c0, key] s) ∧
    RejectsNonHash s key (handleHGETALL env ord [c0, key] s) ∧
    RejectsNonHash s key (handleHLEN env [c0, key] s) ∧
    (∀ f, RejectsNonHash s key (handleHEXISTS env [c0, key, f] s)) ∧
    RejectsNonHash s key (handleHRANDFIELD env ord rnd [c0, key] s) ∧
    (∀ c n, env.Atoi c = some n → n ≠ 0 →
      RejectsNonHash s key (handleHRANDFIELD env ord rnd [c0, key, c] s)) ∧
    (∀ c w n, env.Atoi c = some n → n ≠ 0 → env.EqualFold w "withvalues" = true →
      RejectsNonHash s key (handleHRANDFIELD env ord rnd [c0, key, c, w] s)) ∧
    (∀ f incr x, env.EqualFold c0 "hincrbyfloat" = true → env.ParseFloat incr = some x →
      RejectsNonHash s key (handleINCRBY env [c0, key, f, incr] s)) ∧
    (∀ f incr n, env.EqualFold c0 "hincrbyfloat" = false → env.Atoi incr = some n →
      RejectsNonHash s key (handleINCRBY env [c0, key, f, incr] s)) ∧
    (∀ f more, RejectsNonHash s key (handleHDEL env (c0 :: key :: f :: more) s)) := by
  refine ⟨?_, ?_, ?_, ?_, ?_, ?_, ?_, ?_, ?_, ?_, ?_, ?_, ?_, ?_⟩
  · exact fun f v more h => handleHSET_nonhash env ord s c0 key f v more hp hv h
  · exact fun f more => handleHGET_nonhash env s c0 key f more hp hv
  · exact fun f more => handleHSTRLEN_nonhash env s c0 key f more hp hv
  · exact handleHVALS_nonhash env ord s c0 key hp hv
  · exact handleHKEYS_nonhash env ord s c0 key hp hv
  · exact handleHGETALL_nonhash env ord s c0 key hp hv
  · exact handleHLEN_nonhash env s c0 key hp hv
  · exact fun f => handleHEXISTS_nonhash env s c0 key f hp hv
  · exact hrandfieldBody_nonhash env ord rnd s key 1 false hp hv
  · intro c n hc hn
    simp only [handleHRANDFIELD, hc, hn, if_false]
    exact hrandfieldBody_nonhash env ord rnd s key n false hp hv
  · intro c w n hc hn hw
    simp only [handleHRANDFIELD, hc, hn, hw, if_false, if_true]
    exact hrandfieldBody_nonhash env ord rnd s key n true hp hv
  · intro f incr x hc hx
    simp only [handleINCRBY, hc, hx, if_true]
    exact incrbyBody_nonhash env s key f _ hp hv
  · intro f incr n hc hn
    simp only [handleINCRBY, hc, hn, Bool.false_eq_true, if_false]
    exact incrbyBody_nonhash env s key f _ hp hv
  · exact fun f more => handleHDEL_nonhash env s c0 key f more hp hv

/-- Witness of C10 as amended: HDEL, HGET with a refused lock, HRANDFIELD with count 2 and
HINCRBY on the store where `k` holds the string `v`. -/
theorem hash_handlers_reject_non_hash_witness :
    scalarServer.present "k" = true ∧ (scalarServer.value "k").asHash = none ∧
    RejectsNonHash scalarServer "k"
      (handleHDEL sampleEnv ("hdel" :: "k" :: "f" :: []) scalarServer) ∧
    RejectsNonHash { scalarServer with pending := [some "timeout"] } "k"
      (handleHGET sampleEnv ("hget" :: "k" :: "f" :: [])
        { scalarServer with pending := [some "timeout"] }) ∧
    RejectsNonHash scalarServer "k"
      (handleHRANDFIELD sampleEnv (fun l => l) (fun _ => 0) ["hrandfield", "k", "2"]
        scalarServer) ∧
    RejectsNonHash scalarServer "k"
      (handleINCRBY sampleEnv ["hincrby", "k", "f", "5"] scalarServer) ∧
    (handleHDEL sampleEnv ["hdel", "k", "f"] scalarServer).1 =
      Reply.error "value at k is not a hash" :=
  ⟨by decide, by decide,
    (hash_handlers_reject_non_hash sampleEnv (fun l => l) (fun _ => 0) scalarServer "hdel" "k"
      (by decide) (by decide)).2.2.2.2.2.2.2.2.2.2.2.2.2 "f" [],
    (hash_handlers_reject_non_hash sampleEnv (fun l => l) (fun _ => 0)
      { scalarServer with pending := [some "timeout"] } "hget" "k"
      (by decide) (by decide)).2.1 "f" [],
    (hash_handlers_reject_non_hash sampleEnv (fun l => l) (fun _ => 0) scalarServer
      "hrandfield" "k" (by decide) (by decide)).2.2.2.2.2.2.2.2.2.1 "2" 2 (by decide)
      (by decide),
    (hash_handlers_reject_non_hash sampleEnv (fun l => l) (fun _ => 0) scalarServer
      "hincrby" "k" (by decide) (by decide)).2.2.2.2.2.2.2.2.2.2.2.2.1 "f" "5" 5 (by decide)
      (by decide),
    by decide⟩

/-! ## The read commands -/

theorem handleHGET_readOnly (env : Env) (cmd : List String) (s : Server) :
    ReadOnly s (handleHGET env cmd s) := by
  unfold ReadOnly handleHGET
  split
  · rename_i c0 key field more
    cases hp : s.present key <;> cases ha : nextAnswer s.pending <;>
      cases hv : (s.value key).asHash <;>
      simp [Server.KeyExists, Server.KeyRLock, Server.GetValue, Server.KeyRUnlock, hp, ha, hv,
        requested, writes, Event.requestedKey, Event.written]
  · exact ⟨rfl, rfl, rfl, rfl, [], by simp, rfl, rfl⟩

theorem handleHSTRLEN_readOnly (env : Env) (cmd : List String) (s : Server) :
    ReadOnly s (handleHSTRLEN env cmd s) := by
  unfold ReadOnly handleHSTRLEN
  split
  · rename_i c0 key field more
    cases hp : s.present key <;> cases ha : nextAnswer s.pending <;>
      cases hv : (s.value key).asHash <;>
      simp [Server.KeyExists, Server.KeyRLock, Server.GetValue, Server.KeyRUnlock, hp, ha, hv,
        requested, writes, Event.requestedKey, Event.written]
  · exact ⟨rfl, rfl, rfl, rfl, [], by simp, rfl, rfl⟩

theorem handleHVALS_readOnly (env : Env) (ord : List String → List String) (cmd : List String) (s : Server) :
    ReadOnly s (handleHVALS env ord cmd s) := by
  unfold ReadOnly handleHVALS
  split
  · rename_i c0 key
    cases hp : s.present key <;> cases ha : nextAnswer s.pending <;>
      cases hv : (s.value key).asHash <;>
      simp [Server.KeyExists, Server.KeyRLock, Server.GetValue, Server.KeyRUnlock, hp, ha, hv,
        requested, writes, Event.requestedKey, Event.written]
  · exact ⟨rfl, rfl, rfl, rfl, [], by simp, rfl, rfl⟩

theorem handleHKEYS_readOnly (env : Env) (ord : List String → List String) (cmd : List String) (s : Server) :
    ReadOnly s (handleHKEYS env ord cmd s) := by
  unfold ReadOnly handleHKEYS
  split
  · rename_i c0 key
    cases hp : s.present key <;> cases ha : nextAnswer s.pending <;>
      cases hv : (s.value key).asHash <;>
      simp [Server.KeyExists, Server.KeyRLock, Server.GetValue, Server.KeyRUnlock, hp, ha, hv,
        requested, writes, Event.requestedKey, Event.written]
  · exact ⟨rfl, rfl, rfl, rfl, [], by simp, rfl, rfl⟩

theorem handleHGETALL_readOnly (env : Env) (ord : List String → List String) (cmd : List String) (s : Server) :
    ReadOnly s (handleHGETALL env ord cmd s) := by
  unfold ReadOnly handleHGETALL
  split
  · rename_i c0 key
    cases hp : s.present key <;> cases ha : nextAnswer s.pending <;>
      cases hv : (s.value key).asHash <;>
      simp [Server.KeyExists, Server.KeyRLock, Server.GetValue, Server.KeyRUnlock, hp, ha, hv,
        requested, writes, Event.requestedKey, Event.written]
  · exact ⟨rfl, rfl, rfl, rfl, [], by simp, rfl, rfl⟩

theorem handleHLEN_readOnly (env : Env) (cmd : List String) (s : Server) :
    ReadOnly s (handleHLEN env cmd s) := by
  unfold ReadOnly handleHLEN
  split
  · rename_i c0 key
    cases hp : s.present key <;> cases ha : nextAnswer s.pending <;>
      cases hv : (s.value key).asHash <;>
      simp [Server.KeyExists, Server.KeyRLock, Server.GetValue, Server.KeyRUnlock, hp, ha, hv,
        requested, writes, Event.requestedKey, Event.written]
  · exact ⟨rfl, rfl, rfl, rfl, [], by simp, rfl, rfl⟩

theorem handleHEXISTS_readOnly (env : Env) (cmd : List String) (s : Server) :
    ReadOnly s (handleHEXISTS env cmd s) := by
  unfold ReadOnly handleHEXISTS
  split
  · rename_i c0 key field
    cases hp : s.present key <;> cases ha : nextAnswer s.pending <;>
      cases hv : (s.value key).asHash <;>
      simp [Server.KeyExists, Server.KeyRLock, Server.GetValue, Server.KeyRUnlock, hp, ha, hv,
        requested, writes, Event.requestedKey, Event.written]
    split <;> simp [requested, writes, Event.requestedKey, Event.written]
  · exact ⟨rfl, rfl, rfl, rfl, [], by simp, rfl, rfl⟩

theorem hrandfieldBody_readOnly (env : Env) (ord : List String → List String)
    (rnd : Nat → Nat) (key : String) (count : Int) (withvalues : Bool) (s : Server) :
    ReadOnly s (hrandfieldBody env ord rnd key count withvalues s) := by
  unfold ReadOnly hrandfieldBody
  cases hp : s.present key <;> cases ha : nextAnswer s.pending <;>
    cases hv : (s.value key).asHash <;>
    simp [Server.KeyExists, Server.KeyRLock, Server.GetValue, Server.KeyRUnlock, hp, ha, hv,
      requested, writes, Event.requestedKey, Event.written]
  split
  · simp [requested, writes, Event.requestedKey, Event.written]
  · split <;> simp [requested, writes, Event.requestedKey, Event.written]

theorem readOnly_refl (s : Server) (r : Reply) : ReadOnly s (r, s) :=
  ⟨rfl, rfl, rfl, rfl, [], by simp, rfl, rfl⟩

theorem handleHRANDFIELD_readOnly (env : Env) (ord : List String → List String)
    (rnd : Nat → Nat) (cmd : List String) (s : Server) :
    ReadOnly s (handleHRANDFIELD env ord rnd cmd s) := by
  unfold handleHRANDFIELD
  split
  · exact hrandfieldBody_readOnly env ord rnd _ _ _ s
  · split
    · exact readOnly_refl s _
    · split
      · exact readOnly_refl s _
      · exact hrandfieldBody_readOnly env ord rnd _ _ _ s
  · split
    · exact readOnly_refl s _
    · split
      · exact readOnly_refl s _
      · split
        · exact hrandfieldBody_readOnly env ord rnd _ _ _ s
        · exact readOnly_refl s _
  · exact readOnly_refl s _

theorem hrandfieldBody_absent (env : Env) (ord : List String → List String)
    (rnd : Nat → Nat) (key : String) (count : Int) (withvalues : Bool) (s : Server)
    (hp : s.present key = false) :
    AbsentReply s key "*0\r\n\r\n" (hrandfieldBody env ord rnd key count withvalues s) := by
  simp [AbsentReply, hrandfieldBody, Server.KeyExists, hp]

/-- C11: HGET, HSTRLEN, HVALS, HKEYS, HGETALL, HLEN, HEXISTS and HRANDFIELD leave the store
alone for every token list and every state: the set of keys, the value under every key and
the held locks after the call are those before it, and the calls made include no
`SetValue`, no `KeyLock` and no `CreateKeyAndLock`, so that the only lock ever requested is
the shared one.  On an absent key, a well-formed command replies with its empty or zero
response after the existence check alone: no key is created and no lock is requested. -/
theorem read_commands_leave_store (env : Env) (ord : List String → List String)
    (rnd : Nat → Nat) (s : Server) :
    (∀ cmd,
      ReadOnly s (handleHGET env cmd s) ∧ ReadOnly s (handleHSTRLEN env cmd s) ∧
      ReadOnly s (handleHVALS env ord cmd s) ∧ ReadOnly s (handleHKEYS env ord cmd s) ∧
      ReadOnly s (handleHGETALL env ord cmd s) ∧ ReadOnly s (handleHLEN env cmd s) ∧
      ReadOnly s (handleHEXISTS env cmd s) ∧
      ReadOnly s (handleHRANDFIELD env ord rnd cmd s)) ∧
    (∀ c0 key, s.present key = false →
      (∀ f more, AbsentReply s key "$-1\r\n\r\n" (handleHGET env (c0 :: key :: f :: more) s)) ∧
      (∀ f more,
        AbsentReply s key "$-1\r\n\r\n" (handleHSTRLEN env (c0 :: key :: f :: more) s)) ∧
      AbsentReply s key "*0\r\n\r\n" (handleHVALS env ord [c0, key] s) ∧
      AbsentReply s key "*0\r\n\r\n" (handleHKEYS env ord [c0, key] s) ∧
      AbsentReply s key "*0\r\n\r\n" (handleHGETALL env ord [c0, key] s) ∧
      AbsentReply s key ":0\r\n\r\n" (handleHLEN env [c0, key] s) ∧
      (∀ f, AbsentReply s key ":0\r\n\r\n" (handleHEXISTS env [c0, key, f] s)) ∧
      AbsentReply s key "*0\r\n\r\n" (handleHRANDFIELD env ord rnd [c0, key] s) ∧
      (∀ c n, env.Atoi c = some n → n ≠ 0 →
        AbsentReply s key "*0\r\n\r\n" (handleHRANDFIELD env ord rnd [c0, key, c] s)) ∧
      (∀ c w n, env.Atoi c = some n → n ≠ 0 → env.EqualFold w "withvalues" = true →
        AbsentReply s key "*0\r\n\r\n" (handleHRANDFIELD env ord rnd [c0, key, c, w] s)) ∧
      (∀ c, env.Atoi c = some 0 →
        handleHRANDFIELD env ord rnd [c0, key, c] s = (Reply.ok "*0\r\n\r\n", s))) := by
  refine ⟨fun cmd => ⟨handleHGET_readOnly env cmd s, handleHSTRLEN_readOnly env cmd s,
    handleHVALS_readOnly env ord cmd s, handleHKEYS_readOnly env ord cmd s,
    handleHGETALL_readOnly env ord cmd s, handleHLEN_readOnly env cmd s,
    handleHEXISTS_readOnly env cmd s, handleHRANDFIELD_readOnly env ord rnd cmd s⟩, ?_⟩
  intro c0 key hp
  refine ⟨?_, ?_, ?_, ?_, ?_, ?_, ?_, ?_, ?_, ?_, ?_⟩
  · intro f more; simp [AbsentReply, handleHGET, Server.KeyExists, hp]
  · intro f more; simp [AbsentReply, handleHSTRLEN, Server.KeyExists, hp]
  · simp [AbsentReply, handleHVALS, Server.KeyExists, hp]
  · simp [AbsentReply, handleHKEYS, Server.KeyExists, hp]
  · simp [AbsentReply, handleHGETALL, Server.KeyExists, hp]
  · simp [AbsentReply, handleHLEN, Server.KeyExists, hp]
  · intro f; simp [AbsentReply, handleHEXISTS, Server.KeyExists, hp]
  · exact hrandfieldBody_absent env ord rnd key 1 false s hp
  · intro c n hc hn
    simp only [handleHRANDFIELD, hc, hn, if_false]
    exact hrandfieldBody_absent env ord rnd key n false s hp
  · intro c w n hc hn hw
    simp only [handleHRANDFIELD, hc, hn, hw, if_false, if_true]
    exact hrandfieldBody_absent env ord rnd key n true s hp
  · intro c hc
    simp [handleHRANDFIELD, hc]

/-- Witness of C11: HGET and HRANDFIELD on the absent key `q` of the store where `h` holds a
hash, and HGETALL on `h` itself. -/
theorem read_commands_leave_store_witness :
    hashServer.present "q" = false ∧
    AbsentReply hashServer "q" "$-1\r\n\r\n"
      (handleHGET sampleEnv ("hget" :: "q" :: "a" :: []) hashServer) ∧
    AbsentReply hashServer "q" "*0\r\n\r\n"
      (handleHRANDFIELD sampleEnv (fun l => l) (fun _ => 0) ["hrandfield", "q", "2"]
        hashServer) ∧
    ReadOnly hashServer (handleHGETALL sampleEnv (fun l => l) ["hgetall", "h"] hashServer) ∧
    (handleHGETALL sampleEnv (fun l => l) ["hgetall", "h"] hashServer).2.log =
      [Event.keyExists "h" true, Event.keyRLock "h" none, Event.getValue "h",
        Event.keyRUnlock "h"] :=
  ⟨by decide,
    ((read_commands_leave_store sampleEnv (fun l => l) (fun _ => 0) hashServer).2 "hget" "q"
      (by decide)).1 "a" [],
    ((read_commands_leave_store sampleEnv (fun l => l) (fun _ => 0) hashServer).2
      "hrandfield" "q" (by decide)).2.2.2.2.2.2.2.2.1 "2" 2 (by decide) (by decide),
    ((read_commands_leave_store sampleEnv (fun l => l) (fun _ => 0) hashServer).1
      ["hgetall", "h"]).2.2.2.2.1,
    by decide⟩

/-! ## HSET and HSETNX -/

theorem hashIndex_nil (x : String) : hashIndex [] x = Value.nil := rfl

theorem extractFields_nodup (env : Env) (args : List String) :
    ∀ m : GoMap Value, (GoMap.keys m).Nodup → (GoMap.keys (extractFields env args m)).Nodup := by
  induction args using pairs_induction with
  | h0 => intro m h; simpa [extractFields] using h
  | h1 a => intro m h; simpa [extractFields] using h
  | h2 a b rest ih =>
    intro m h
    simp only [extractFields]
    exact ih _ (GoMap.nodup_keys_put m a _ h)

theorem mem_keys_extractFields (env : Env) (args : List String) :
    ∀ (m : GoMap Value) (x : String),
      x ∈ GoMap.keys (extractFields env args m) ↔ x ∈ GoMap.keys m ∨ x ∈ argKeys args := by
  induction args using pairs_induction with
  | h0 => intro m x; simp [extractFields, argKeys]
  | h1 a => intro m x; simp [extractFields, argKeys]
  | h2 a b rest ih =>
    intro m x
    simp only [extractFields, argKeys, ih, GoMap.mem_keys_put, List.mem_cons]
    tauto

theorem extractFields_index (env : Env) (args : List String) :
    ∀ m : GoMap Value,
      hashIndex (extractFields env args m) = assign env args (hashIndex m) := by
  induction args using pairs_induction with
  | h0 => intro m; simp [extractFields, assign]
  | h1 a => intro m; simp [extractFields, assign]
  | h2 a b rest ih =>
    intro m
    simp only [extractFields, assign]
    rw [ih]
    have hfun : hashIndex (GoMap.put m a (env.AdaptType b)) =
        (fun x => if x = a then env.AdaptType b else hashIndex m x) := by
      funext x
      exact hashIndex_put m a _ x
    rw [hfun]

/-- A field that is not listed keeps its value under the assignments. -/
theorem assign_of_not_mem (env : Env) (args : List String) :
    ∀ (g : String → Value) (x : String), x ∉ argKeys args → assign env args g x = g x := by
  induction args using pairs_induction with
  | h0 => intro g x _; rfl
  | h1 a => intro g x _; rfl
  | h2 a b rest ih =>
    intro g x hx
    simp only [argKeys, List.mem_cons, not_or] at hx
    simp only [assign]
    rw [ih _ x hx.2]
    simp [hx.1]

/-- A listed field ends with the coerced value of its last listed occurrence. -/
theorem assign_last (env : Env) (pre : List String) :
    ∀ (g : String → Value) (f v : String) (post : List String),
      pre.length % 2 = 0 → f ∉ argKeys post →
      assign env (pre ++ f :: v :: post) g f = env.AdaptType v := by
  induction pre using pairs_induction with
  | h0 =>
    intro g f v post _ hf
    simp only [List.nil_append, assign]
    rw [assign_of_not_mem env post _ f hf]
    simp
  | h1 a => intro g f v post h; simp at h
  | h2 a b rest ih =>
    intro g f v post h hf
    have h' : rest.length % 2 = 0 := by
      simp only [List.length_cons] at h
      omega
    simp only [List.cons_append, assign]
    exact ih _ f v post h' hf

theorem length_eq_dedup_of_nodup (l k : List String) (hl : l.Nodup)
    (h : ∀ x, x ∈ l ↔ x ∈ k) : l.length = k.dedup.length := by
  apply List.Perm.length_eq
  rw [List.perm_ext_iff_of_nodup hl (List.nodup_dedup k)]
  intro x
  rw [h x, List.mem_dedup]

theorem length_keys {α : Type} (m : GoMap α) : (GoMap.keys m).length = m.length := by
  simp [GoMap.keys]

theorem extractFields_length (env : Env) (args : List String) :
    (extractFields env args []).length = (argKeys args).dedup.length := by
  rw [← length_keys]
  apply length_eq_dedup_of_nodup
  · exact extractFields_nodup env args [] (by simp [GoMap.keys])
  · intro x
    rw [mem_keys_extractFields]
    simp [GoMap.keys]

/-- The loop of HSET proper: every visited field is written. -/
theorem hsetLoop_set (ks : List String) (entries : GoMap Value) :
    ∀ (hash : GoMap Value) (count : Nat),
      (hsetLoop false ks entries hash count).2 = count + ks.length ∧
      (∀ x, hashIndex (hsetLoop false ks entries hash count).1 x =
        if x ∈ ks then hashIndex entries x else hashIndex hash x) ∧
      (∀ x, x ∈ GoMap.keys (hsetLoop false ks entries hash count).1 ↔
        x ∈ GoMap.keys hash ∨ x ∈ ks) := by
  induction ks with
  | nil => intro hash count; simp [hsetLoop]
  | cons k ks ih =>
    intro hash count
    obtain ⟨h1, h2, h3⟩ := ih (GoMap.put hash k (hashIndex entries k)) (count + 1)
    simp only [hsetLoop, Bool.false_eq_true, if_false]
    refine ⟨?_, ?_, ?_⟩
    · rw [h1]; simp only [List.length_cons]; omega
    · intro x
      rw [h2 x, hashIndex_put]
      by_cases hx : x ∈ ks
      · simp [hx]
      · by_cases hxk : x = k <;> simp [hx, hxk]
    · intro x
      rw [h3 x, GoMap.mem_keys_put]
      simp only [List.mem_cons]
      tauto

theorem mem_argKeys_of_split (pre : List String) :
    ∀ (f v : String) (post : List String), pre.length % 2 = 0 →
      f ∈ argKeys (pre ++ f :: v :: post) := by
  induction pre using pairs_induction with
  | h0 => intro f v post _; simp [argKeys]
  | h1 a => intro f v post h; simp at h
  | h2 a b rest ih =>
    intro f v post h
    have h' : rest.length % 2 = 0 := by
      simp only [List.length_cons] at h
      omega
    simp only [List.cons_append, argKeys, List.mem_cons]
    exact Or.inr (ih f v post h')

/-- The run of `handleHSET` on a key that holds a hash, the lock being granted. -/
theorem handleHSET_run_existing (env : Env) (ord : List String → List String) (s : Server)
    (c0 key f v : String) (more : List String) (hash : GoMap Value)
    (hpair : (f :: v :: more).length % 2 = 0) (hgrant : nextAnswer s.pending = none)
    (hp : s.present key = true) (hv : s.value key = Value.hash hash) :
    handleHSET env ord (c0 :: key :: f :: v :: more) s =
      (Reply.ok (":" ++ toString (hsetLoop (env.EqualFold c0 "hsetnx")
          (ord (GoMap.keys (extractFields env (f :: v :: more) [])))
          (extractFields env (f :: v :: more) []) hash 0).2 ++ "\r\n\r\n"),
        { s with
          value := fun k =>
            if k = key then
              Value.hash (hsetLoop (env.EqualFold c0 "hsetnx")
                (ord (GoMap.keys (extractFields env (f :: v :: more) [])))
                (extractFields env (f :: v :: more) []) hash 0).1
            else s.value k
          pending := s.pending.tail
          log := s.log ++
            [Event.keyExists key true, Event.keyLock key none, Event.getValue key,
              Event.setValue key
                (Value.hash (hsetLoop (env.EqualFold c0 "hsetnx")
                  (ord (GoMap.keys (extractFields env (f :: v :: more) [])))
                  (extractFields env (f :: v :: more) []) hash 0).1),
              Event.keyUnlock key] }) := by
  have hpair2 : ¬ (f :: v :: more).length % 2 ≠ 0 := by simpa using hpair
  simp only [handleHSET, hpair2, if_false]
  simp [Server.KeyExists, hp, Server.KeyLock, hgrant, Server.GetValue, hv, Value.asHash,
    Server.SetValue, Server.KeyUnlock]

/-- The run of `handleHSET` on an absent key, the creation being granted. -/
theorem handleHSET_run_absent (env : Env) (ord : List String → List String) (s : Server)
    (c0 key f v : String) (more : List String)
    (hpair : (f :: v :: more).length % 2 = 0) (hgrant : nextAnswer s.pending = none)
    (hp : s.present key = false) :
    handleHSET env ord (c0 :: key :: f :: v :: more) s =
      (Reply.ok (":" ++ toString (extractFields env (f :: v :: more) []).length ++ "\r\n\r\n"),
        { s with
          present := fun k => if k = key then true else s.present k
          value := fun k =>
            if k = key then Value.hash (extractFields env (f :: v :: more) []) else s.value k
          pending := s.pending.tail
          log := s.log ++
            [Event.keyExists key false, Event.createKeyAndLock key none,
              Event.setValue key (Value.hash (extractFields env (f :: v :: more) [])),
              Event.keyUnlock key] }) := by
  have hpair2 : ¬ (f :: v :: more).length % 2 ≠ 0 := by simpa using hpair
  simp only [handleHSET, hpair2, if_false]
  simp [Server.KeyExists, hp, Server.CreateKeyAndLock, hgrant, Server.SetValue,
    Server.KeyUnlock]

/-- C12: for a well-formed `HSET k f1 v1 ... fn vn` whose lock acquisition is granted.  If
`k` holds a hash, then afterwards `k` holds a hash in which every listed field maps to the
coerced value of its last listed occurrence and every field not listed keeps its value, no
other key changes, and the reply is the integer number of distinct listed fields.  If `k`
is absent, the key is created holding exactly the listed fields with those values and the
reply is that same number. -/
theorem handleHSET_sets_fields (env : Env) (ord : List String → List String)
    (hord : ∀ l, (ord l).Perm l) (s : Server) (c0 key f v : String) (more : List String)
    (hpair : (f :: v :: more).length % 2 = 0) (hset : env.EqualFold c0 "hsetnx" = false)
    (hgrant : nextAnswer s.pending = none) :
    (∀ hash, s.present key = true → s.value key = Value.hash hash →
      ∃ hash1,
        (handleHSET env ord (c0 :: key :: f :: v :: more) s).1 =
          Reply.ok (":" ++ toString (argKeys (f :: v :: more)).dedup.length ++ "\r\n\r\n") ∧
        (handleHSET env ord (c0 :: key :: f :: v :: more) s).2.value key = Value.hash hash1 ∧
        (∀ x, x ≠ key →
          (handleHSET env ord (c0 :: key :: f :: v :: more) s).2.value x = s.value x) ∧
        (handleHSET env ord (c0 :: key :: f :: v :: more) s).2.present = s.present ∧
        FieldsSet env (f :: v :: more) hash hash1) ∧
    (s.present key = false →
      ∃ hash1,
        (handleHSET env ord (c0 :: key :: f :: v :: more) s).1 =
          Reply.ok (":" ++ toString (argKeys (f :: v :: more)).dedup.length ++ "\r\n\r\n") ∧
        (handleHSET env ord (c0 :: key :: f :: v :: more) s).2.value key = Value.hash hash1 ∧
        (∀ x, x ≠ key →
          (handleHSET env ord (c0 :: key :: f :: v :: more) s).2.value x = s.value x) ∧
        (handleHSET env ord (c0 :: key :: f :: v :: more) s).2.present key = true ∧
        FieldsSet env (f :: v :: more) [] hash1) := by
  have hidx := extractFields_index env (f :: v :: more) []
  have hmem : ∀ x, x ∈ GoMap.keys (extractFields env (f :: v :: more) []) ↔
      x ∈ argKeys (f :: v :: more) := by
    intro x
    rw [mem_keys_extractFields]
    simp [GoMap.keys]
  have hlen := extractFields_length env (f :: v :: more)
  have hlast : ∀ pre fld val post, f :: v :: more = pre ++ fld :: val :: post →
      pre.length % 2 = 0 → fld ∉ argKeys post →
      fld ∈ argKeys (f :: v :: more) ∧
      hashIndex (extractFields env (f :: v :: more) []) fld = env.AdaptType val := by
    intro pre fld val post hfv hpre hfld
    refine ⟨?_, ?_⟩
    · rw [hfv]; exact mem_argKeys_of_split pre fld val post hpre
    · rw [hidx, hfv]; exact assign_last env pre _ fld val post hpre hfld
  constructor
  · intro hash hp hv
    obtain ⟨h1, h2, h3⟩ := hsetLoop_set (ord (GoMap.keys (extractFields env (f :: v :: more) [])))
      (extractFields env (f :: v :: more) []) hash 0
    have hmo : ∀ x, x ∈ ord (GoMap.keys (extractFields env (f :: v :: more) [])) ↔
        x ∈ argKeys (f :: v :: more) := by
      intro x
      rw [List.Perm.mem_iff (hord _), hmem]
    rw [handleHSET_run_existing env ord s c0 key f v more hash hpair hgrant hp hv, hset]
    refine ⟨(hsetLoop false (ord (GoMap.keys (extractFields env (f :: v :: more) [])))
      (extractFields env (f :: v :: more) []) hash 0).1, ?_, ?_, ?_, rfl, ?_, ?_, ?_⟩
    · rw [h1, List.Perm.length_eq (hord _), length_keys, hlen]
      simp
    · simp
    · intro x hx
      simp [hx]
    · intro pre fld val post hfv hpre hfld
      obtain ⟨hin, hval⟩ := hlast pre fld val post hfv hpre hfld
      rw [h2 fld, if_pos ((hmo fld).mpr hin), hval]
    · intro x hx
      rw [h2 x, if_neg (fun h => hx ((hmo x).mp h))]
    · intro x
      rw [h3 x, hmo x]
  · intro hp
    rw [handleHSET_run_absent env ord s c0 key f v more hpair hgrant hp]
    refine ⟨extractFields env (f :: v :: more) [], ?_, ?_, ?_, ?_, ?_, ?_, ?_⟩
    · rw [hlen]
    · simp
    · intro x hx
      simp [hx]
    · simp
    · intro pre fld val post hfv hpre hfld
      exact (hlast pre fld val post hfv hpre hfld).2
    · intro x hx
      rw [hidx, assign_of_not_mem env _ _ x hx]
    · intro x
      rw [hmem x]
      simp [GoMap.keys]

theorem hashIndex_of_not_mem (hash : GoMap Value) (x : String) (h : x ∉ GoMap.keys hash) :
    hashIndex hash x = Value.nil := by
  induction hash with
  | nil => rfl
  | cons p rest ih =>
    obtain ⟨k, v⟩ := p
    simp only [GoMap.keys, List.map_cons, List.mem_cons, not_or] at h
    have hr : hashIndex rest x = Value.nil := ih (by simpa [GoMap.keys] using h.2)
    unfold hashIndex at hr ⊢
    rw [GoMap.find_cons, if_neg h.1]
    exact hr

theorem put_length_of_not_mem {α : Type} (m : GoMap α) (k : String) (v : α)
    (h : k ∉ GoMap.keys m) : (GoMap.put m k v).length = m.length + 1 := by
  rw [← length_keys, GoMap.keys_put_of_not_mem m k v h, ← length_keys]
  simp

/-- The loop of HSETNX: a visited field is written only where the hash holds nothing. -/
theorem hsetLoop_nx (ks : List String) (entries : GoMap Value) :
    ∀ (hash : GoMap Value) (count : Nat), ks.Nodup →
      (∀ k ∈ ks, hashIndex hash k = Value.nil → k ∉ GoMap.keys hash) →
      (∀ x, hashIndex (hsetLoop true ks entries hash count).1 x =
        if x ∈ ks ∧ hashIndex hash x = Value.nil then hashIndex entries x
        else hashIndex hash x) ∧
      (∀ x, x ∈ GoMap.keys (hsetLoop true ks entries hash count).1 ↔
        x ∈ GoMap.keys hash ∨ (x ∈ ks ∧ hashIndex hash x = Value.nil)) ∧
      (hsetLoop true ks entries hash count).2 + hash.length =
        count + (hsetLoop true ks entries hash count).1.length := by
  induction ks with
  | nil => intro hash count _ _; simp [hsetLoop, Nat.add_comm]
  | cons k ks ih =>
    intro hash count hnd habs
    have hk : k ∉ ks := (List.nodup_cons.mp hnd).1
    have hks : ks.Nodup := (List.nodup_cons.mp hnd).2
    by_cases hnil : hashIndex hash k = Value.nil
    · have hkabs : k ∉ GoMap.keys hash := habs k (List.mem_cons_self _ _) hnil
      have habs' : ∀ k' ∈ ks, hashIndex (GoMap.put hash k (hashIndex entries k)) k' = Value.nil →
          k' ∉ GoMap.keys (GoMap.put hash k (hashIndex entries k)) := by
        intro k' hk' hnil'
        have hne : k' ≠ k := fun e => hk (e ▸ hk')
        rw [hashIndex_put, if_neg hne] at hnil'
        rw [GoMap.mem_keys_put]
        intro hor
        rcases hor with hor | hor
        · exact hne hor
        · exact habs k' (List.mem_cons_of_mem _ hk') hnil' hor
      obtain ⟨h1, h2, h3⟩ := ih (GoMap.put hash k (hashIndex entries k)) (count + 1) hks habs'
      simp only [hsetLoop, if_true, hnil]
      refine ⟨?_, ?_, ?_⟩
      · intro x
        rw [h1 x, hashIndex_put]
        by_cases hxk : x = k
        · subst hxk
          simp [hk, hnil]
        · simp [hxk]
      · intro x
        rw [h2 x, GoMap.mem_keys_put, hashIndex_put]
        by_cases hxk : x = k
        · subst hxk
          simp [hk, hnil]
        · simp [hxk]
      · rw [put_length_of_not_mem hash k _ hkabs] at h3
        omega
    · obtain ⟨h1, h2, h3⟩ := ih hash count hks
        (fun k' hk' => habs k' (List.mem_cons_of_mem _ hk'))
      simp only [hsetLoop, if_true, hnil, if_false]
      refine ⟨?_, ?_, h3⟩
      · intro x
        rw [h1 x]
        by_cases hxk : x = k
        · subst hxk
          simp [hk, hnil]
        · simp [hxk]
      · intro x
        rw [h2 x]
        by_cases hxk : x = k
        · subst hxk
          simp [hk, hnil]
        · simp [hxk]

/-- C13: for a well-formed `HSETNX k f1 v1 ... fn vn` on a key that holds a hash whose
fields all hold a value, the lock being granted: afterwards no field that was present has
changed its value, the fields are those that were present and the listed ones, no other key
has changed, and the integer replied is the size of the hash after minus its size before. -/
theorem handleHSET_nx_adds_only_absent (env : Env) (ord : List String → List String)
    (hord : ∀ l, (ord l).Perm l) (s : Server) (c0 key f v : String) (more : List String)
    (hash : GoMap Value) (hpair : (f :: v :: more).length % 2 = 0)
    (hnx : env.EqualFold c0 "hsetnx" = true) (hgrant : nextAnswer s.pending = none)
    (hp : s.present key = true) (hv : s.value key = Value.hash hash) (hnn : NoNilField hash) :
    ∃ hash1,
      (handleHSET env ord (c0 :: key :: f :: v :: more) s).1 =
        Reply.ok (":" ++ toString (hash1.length - hash.length) ++ "\r\n\r\n") ∧
      hash.length ≤ hash1.length ∧
      (handleHSET env ord (c0 :: key :: f :: v :: more) s).2.value key = Value.hash hash1 ∧
      (∀ x, x ≠ key →
        (handleHSET env ord (c0 :: key :: f :: v :: more) s).2.value x = s.value x) ∧
      (∀ x ∈ GoMap.keys hash, hashIndex hash1 x = hashIndex hash x) ∧
      (∀ x, x ∈ GoMap.keys hash1 ↔ x ∈ GoMap.keys hash ∨ x ∈ argKeys (f :: v :: more)) := by
  have hmem : ∀ x, x ∈ ord (GoMap.keys (extractFields env (f :: v :: more) [])) ↔
      x ∈ argKeys (f :: v :: more) := by
    intro x
    rw [List.Perm.mem_iff (hord _), mem_keys_extractFields]
    simp [GoMap.keys]
  have hnd : (ord (GoMap.keys (extractFields env (f :: v :: more) []))).Nodup :=
    (List.Perm.nodup_iff (hord _)).mpr
      (extractFields_nodup env (f :: v :: more) [] (by simp [GoMap.keys]))
  obtain ⟨h1, h2, h3⟩ := hsetLoop_nx (ord (GoMap.keys (extractFields env (f :: v :: more) [])))
    (extractFields env (f :: v :: more) []) hash 0 hnd
    (fun k _ hnil hk => hnn k hk hnil)
  rw [handleHSET_run_existing env ord s c0 key f v more hash hpair hgrant hp hv, hnx]
  refine ⟨(hsetLoop true (ord (GoMap.keys (extractFields env (f :: v :: more) [])))
    (extractFields env (f :: v :: more) []) hash 0).1, ?_, ?_, ?_, ?_, ?_, ?_⟩
  · have : (hsetLoop true (ord (GoMap.keys (extractFields env (f :: v :: more) [])))
        (extractFields env (f :: v :: more) []) hash 0).2 =
        (hsetLoop true (ord (GoMap.keys (extractFields env (f :: v :: more) [])))
          (extractFields env (f :: v :: more) []) hash 0).1.length - hash.length := by
      omega
    rw [← this]
  · omega
  · simp
  · intro x hx
    simp [hx]
  · intro x hx
    rw [h1 x, if_neg (fun h => hnn x hx h.2)]
  · intro x
    rw [h2 x, hmem x]
    constructor
    · rintro (h | h)
      · exact Or.inl h
      · exact Or.inr h.1
    · rintro (h | h)
      · exact Or.inl h
      · by_cases hx : x ∈ GoMap.keys hash
        · exact Or.inl hx
        · exact Or.inr ⟨h, hashIndex_of_not_mem hash x hx⟩

/-! ## HDEL -/

theorem GoMap.keys_del {α : Type} (m : GoMap α) (k : String) :
    GoMap.keys (GoMap.del m k) = (GoMap.keys m).filter (fun x => decide (x ≠ k)) := by
  induction m with
  | nil => rfl
  | cons p rest ih =>
    obtain ⟨k', v'⟩ := p
    simp only [GoMap.keys, GoMap.del] at ih ⊢
    by_cases h : k' = k
    · simpa [List.filter_cons, h] using ih
    · simpa [List.filter_cons, h] using ih

theorem filter_ne_length (l : List String) (k : String) (hnd : l.Nodup) (hk : k ∈ l) :
    (l.filter (fun x => decide (x ≠ k))).length + 1 = l.length := by
  induction l with
  | nil => simp at hk
  | cons a l ih =>
    have ha : a ∉ l := (List.nodup_cons.mp hnd).1
    have hl : l.Nodup := (List.nodup_cons.mp hnd).2
    by_cases h : a = k
    · subst h
      have hne : ∀ x ∈ l, ¬ x = a := by
        intro x hx e
        exact ha (e ▸ hx)
      have hall : l.filter (fun x => decide (x ≠ a)) = l := by
        rw [List.filter_eq_self]
        intro x hx
        simpa using hne x hx
      rw [List.filter_cons]
      simp only [ne_eq, not_true_eq_false, decide_False, Bool.false_eq_true, if_false, hall,
        List.length_cons]
    · have hk' : k ∈ l := by
        rcases List.mem_cons.mp hk with e | e
        · exact absurd e.symm h
        · exact e
      have := ih hl hk'
      simp [List.filter_cons, h]
      simpa using this

theorem GoMap.mem_keys_del {α : Type} (m : GoMap α) (k x : String) :
    x ∈ GoMap.keys (GoMap.del m k) ↔ x ∈ GoMap.keys m ∧ x ≠ k := by
  rw [GoMap.keys_del]
  simp

theorem hashIndex_del (m : GoMap Value) (k x : String) :
    hashIndex (GoMap.del m k) x = if x = k then Value.nil else hashIndex m x := by
  induction m with
  | nil =>
    by_cases h : x = k <;> simp [GoMap.del, hashIndex, GoMap.find, h]
  | cons p rest ih =>
    obtain ⟨k', v'⟩ := p
    by_cases hk : k' = k
    · have hd : GoMap.del ((k', v') :: rest) k = GoMap.del rest k := by
        simp [GoMap.del, List.filter_cons, hk]
      rw [hd, ih]
      by_cases h : x = k
      · simp [h]
      · have hx : ¬ x = k' := fun e => h (e.trans hk)
        simp only [h, if_false]
        unfold hashIndex
        rw [GoMap.find_cons, if_neg hx]
    · have hd : GoMap.del ((k', v') :: rest) k = (k', v') :: GoMap.del rest k := by
        simp [GoMap.del, List.filter_cons, hk]
      rw [hd]
      unfold hashIndex at ih ⊢
      rw [GoMap.find_cons, GoMap.find_cons]
      by_cases hx : x = k'
      · have : ¬ x = k := fun e => hk (hx.symm.trans e)
        simp [hx, this, hk]
      · simp only [hx, if_false]
        exact ih

theorem del_length_of_mem {α : Type} (m : GoMap α) (k : String) (hnd : (GoMap.keys m).Nodup)
    (hk : k ∈ GoMap.keys m) : (GoMap.del m k).length + 1 = m.length := by
  rw [← length_keys, ← length_keys, GoMap.keys_del]
  exact filter_ne_length (GoMap.keys m) k hnd hk

theorem del_nodup {α : Type} (m : GoMap α) (k : String) (hnd : (GoMap.keys m).Nodup) :
    (GoMap.keys (GoMap.del m k)).Nodup := by
  rw [GoMap.keys_del]
  exact List.Nodup.filter _ hnd

theorem del_noNil (m : GoMap Value) (k : String) (h : NoNilField m) :
    NoNilField (GoMap.del m k) := by
  intro f hf
  rw [GoMap.mem_keys_del] at hf
  rw [hashIndex_del, if_neg hf.2]
  exact h f hf.1

/-- The loop of HDEL on a hash whose fields are distinct and all hold a value. -/
theorem hdelLoop_spec (fields : List String) :
    ∀ (hash : GoMap Value) (count : Nat), (GoMap.keys hash).Nodup → NoNilField hash →
      (∀ x ∈ GoMap.keys (hdelLoop fields hash count).1, x ∈ GoMap.keys hash ∧ x ∉ fields) ∧
      (∀ x, x ∉ fields →
        hashIndex (hdelLoop fields hash count).1 x = hashIndex hash x ∧
        (x ∈ GoMap.keys hash → x ∈ GoMap.keys (hdelLoop fields hash count).1)) ∧
      (hdelLoop fields hash count).2 + (hdelLoop fields hash count).1.length =
        count + hash.length := by
  induction fields with
  | nil => intro hash count _ _; simp [hdelLoop, Nat.add_comm]
  | cons f fs ih =>
    intro hash count hnd hnn
    by_cases hnil : hashIndex hash f = Value.nil
    · have hf : f ∉ GoMap.keys hash := fun h => hnn f h hnil
      obtain ⟨h1, h2, h3⟩ := ih hash count hnd hnn
      simp only [hdelLoop, hnil, ne_eq, not_true_eq_false, if_false]
      refine ⟨?_, ?_, h3⟩
      · intro x hx
        obtain ⟨hx1, hx2⟩ := h1 x hx
        refine ⟨hx1, ?_⟩
        simp only [List.mem_cons, not_or]
        exact ⟨fun e => hf (e ▸ hx1), hx2⟩
      · intro x hx
        simp only [List.mem_cons, not_or] at hx
        exact h2 x hx.2
    · have hf : f ∈ GoMap.keys hash := by
        by_contra hcon
        exact hnil (hashIndex_of_not_mem hash f hcon)
      obtain ⟨h1, h2, h3⟩ := ih (GoMap.del hash f) (count + 1) (del_nodup hash f hnd)
        (del_noNil hash f hnn)
      have hlen := del_length_of_mem hash f hnd hf
      simp only [hdelLoop, ne_eq, hnil, not_false_eq_true, if_true]
      refine ⟨?_, ?_, ?_⟩
      · intro x hx
        obtain ⟨hx1, hx2⟩ := h1 x hx
        rw [GoMap.mem_keys_del] at hx1
        refine ⟨hx1.1, ?_⟩
        simp only [List.mem_cons, not_or]
        exact ⟨hx1.2, hx2⟩
      · intro x hx
        simp only [List.mem_cons, not_or] at hx
        obtain ⟨g1, g2⟩ := h2 x hx.2
        refine ⟨?_, ?_⟩
        · rw [g1, hashIndex_del, if_neg hx.1]
        · intro hxm
          exact g2 ((GoMap.mem_keys_del hash f x).mpr ⟨hxm, hx.1⟩)
      · omega

/-- C14: for `HDEL k f1 ... fn` on a key that holds a hash (fields distinct, each holding a
value), the lock being granted: afterwards none of the listed fields is in the hash, every
field not listed is still there with its value, no field was added, no other key has
changed, and the integer replied is the size before minus the size after - whatever fields
are listed twice or were not present.  On an absent key HDEL replies 0 after the existence
check alone and creates nothing. -/
theorem handleHDEL_removes_listed (env : Env) (s : Server) (c0 key f : String)
    (more : List String) :
    (∀ hash, nextAnswer s.pending = none → s.present key = true →
      s.value key = Value.hash hash → (GoMap.keys hash).Nodup → NoNilField hash →
      ∃ hash1,
        (handleHDEL env (c0 :: key :: f :: more) s).1 =
          Reply.ok (":" ++ toString (hash.length - hash1.length) ++ "\r\n\r\n") ∧
        hash1.length ≤ hash.length ∧
        (handleHDEL env (c0 :: key :: f :: more) s).2.value key = Value.hash hash1 ∧
        (∀ x, x ≠ key → (handleHDEL env (c0 :: key :: f :: more) s).2.value x = s.value x) ∧
        (handleHDEL env (c0 :: key :: f :: more) s).2.present = s.present ∧
        (∀ x ∈ f :: more, x ∉ GoMap.keys hash1) ∧
        (∀ x ∈ GoMap.keys hash1, x ∈ GoMap.keys hash) ∧
        (∀ x, x ∉ f :: more →
          hashIndex hash1 x = hashIndex hash x ∧
          (x ∈ GoMap.keys hash → x ∈ GoMap.keys hash1))) ∧
    (s.present key = false →
      handleHDEL env (c0 :: key :: f :: more) s =
        (Reply.ok ":0\r\n\r\n", { s with log := s.log ++ [Event.keyExists key false] })) := by
  constructor
  · intro hash hgrant hp hv hnd hnn
    obtain ⟨h1, h2, h3⟩ := hdelLoop_spec (f :: more) hash 0 hnd hnn
    refine ⟨(hdelLoop (f :: more) hash 0).1, ?_, ?_, ?_, ?_, ?_, ?_, ?_, ?_⟩
    · have : (hdelLoop (f :: more) hash 0).2 =
          hash.length - (hdelLoop (f :: more) hash 0).1.length := by omega
      rw [← this]
      simp [handleHDEL, Server.KeyExists, hp, Server.KeyLock, hgrant, Server.GetValue, hv,
        Value.asHash]
    · omega
    · simp [handleHDEL, Server.KeyExists, hp, Server.KeyLock, hgrant, Server.GetValue, hv,
        Value.asHash, Server.SetValue, Server.KeyUnlock]
    · intro x hx
      simp [handleHDEL, Server.KeyExists, hp, Server.KeyLock, hgrant, Server.GetValue, hv,
        Value.asHash, Server.SetValue, Server.KeyUnlock, hx]
    · simp [handleHDEL, Server.KeyExists, hp, Server.KeyLock, hgrant, Server.GetValue, hv,
        Value.asHash, Server.SetValue, Server.KeyUnlock]
    · intro x hx hx1
      exact (h1 x hx1).2 hx
    · intro x hx
      exact (h1 x hx).1
    · exact h2
  · intro hp
    simp [handleHDEL, Server.KeyExists, hp]

/-! ## HINCRBY and HINCRBYFLOAT -/

theorem fieldUpdated_put (s : Server) (key field : String) (hash : GoMap Value) (new : Value)
    (bytes : String) (p : List (Option String)) (l : List Event) :
    FieldUpdated s key field hash new bytes
      (Reply.ok bytes,
        { s with
          value := fun k => if k = key then Value.hash (GoMap.put hash field new) else s.value k
          pending := p
          log := l }) := by
  refine ⟨rfl, ?_, rfl, GoMap.put hash field new, ?_, ?_, ?_, ?_⟩
  · intro x hx; simp [hx]
  · simp
  · rw [hashIndex_put]; simp
  · intro x hx; rw [hashIndex_put, if_neg hx]
  · intro x
    rw [GoMap.mem_keys_put]
    tauto

/-- The run of the increment on a key that holds a hash whose field is an `int`. -/
theorem incrbyBody_int_int (env : Env) (s : Server) (key field : String) (hash : GoMap Value)
    (i n : Int) (hgrant : nextAnswer s.pending = none) (hp : s.present key = true)
    (hv : s.value key = Value.hash hash) (hf : hashIndex hash field = Value.int i) :
    FieldUpdated s key field hash (Value.int (wrap64 (i + n)))
      (":" ++ toString (wrap64 (i + n)) ++ "\r\n\r\n")
      (incrbyBody env key field (Increment.ofInt n) s) := by
  have : incrbyBody env key field (Increment.ofInt n) s =
      (Reply.ok (":" ++ toString (wrap64 (i + n)) ++ "\r\n\r\n"),
        { s with
          value := fun k =>
            if k = key then Value.hash (GoMap.put hash field (Value.int (wrap64 (i + n))))
            else s.value k
          pending := s.pending.tail
          log := s.log ++ [Event.keyExists key true, Event.keyLock key none, Event.getValue key,
            Event.setValue key (Value.hash (GoMap.put hash field (Value.int (wrap64 (i + n))))),
            Event.keyUnlock key] }) := by
    simp [incrbyBody, Server.KeyExists, hp, Server.KeyLock, hgrant, Server.GetValue, hv,
      Value.asHash, hf, hashIndex_put, Server.SetValue, Server.KeyUnlock]
  rw [this]
  exact fieldUpdated_put s key field hash _ _ _ _

/-- The run of the float increment on a key that holds a hash whose field is an `int`. -/
theorem incrbyBody_int_float (env : Env) (s : Server) (key field : String)
    (hash : GoMap Value) (i : Int) (x : Float64) (hgrant : nextAnswer s.pending = none)
    (hp : s.present key = true) (hv : s.value key = Value.hash hash)
    (hf : hashIndex hash field = Value.int i) :
    FieldUpdated s key field hash (Value.float (env.addFloat (env.intToFloat i) x))
      ("+" ++ env.FormatFloat (env.addFloat (env.intToFloat i) x) ++ "\r\n\r\n")
      (incrbyBody env key field (Increment.ofFloat x) s) := by
  have : incrbyBody env key field (Increment.ofFloat x) s =
      (Reply.ok ("+" ++ env.FormatFloat (env.addFloat (env.intToFloat i) x) ++ "\r\n\r\n"),
        { s with
          value := fun k =>
            if k = key then
              Value.hash (GoMap.put hash field
                (Value.float (env.addFloat (env.intToFloat i) x)))
            else s.value k
          pending := s.pending.tail
          log := s.log ++ [Event.keyExists key true, Event.keyLock key none, Event.getValue key,
            Event.setValue key (Value.hash (GoMap.put hash field
              (Value.float (env.addFloat (env.intToFloat i) x)))),
            Event.keyUnlock key] }) := by
    simp [incrbyBody, Server.KeyExists, hp, Server.KeyLock, hgrant, Server.GetValue, hv,
      Value.asHash, hf, hashIndex_put, Server.SetValue, Server.KeyUnlock]
  rw [this]
  exact fieldUpdated_put s key field hash _ _ _ _

/-- The run of the integer increment on a key that holds a hash whose field is a
`float64`. -/
theorem incrbyBody_float_int (env : Env) (s : Server) (key field : String)
    (hash : GoMap Value) (fl : Float64) (n : Int) (hgrant : nextAnswer s.pending = none)
    (hp : s.present key = true) (hv : s.value key = Value.hash hash)
    (hf : hashIndex hash field = Value.float fl) :
    FieldUpdated s key field hash (Value.float (env.addFloat fl (env.intToFloat n)))
      ("+" ++ env.FormatFloat (env.addFloat fl (env.intToFloat n)) ++ "\r\n\r\n")
      (incrbyBody env key field (Increment.ofInt n) s) := by
  have : incrbyBody env key field (Increment.ofInt n) s =
      (Reply.ok ("+" ++ env.FormatFloat (env.addFloat fl (env.intToFloat n)) ++ "\r\n\r\n"),
        { s with
          value := fun k =>
            if k = key then
              Value.hash (GoMap.put hash field
                (Value.float (env.addFloat fl (env.intToFloat n))))
            else s.value k
          pending := s.pending.tail
          log := s.log ++ [Event.keyExists key true, Event.keyLock key none, Event.getValue key,
            Event.setValue key (Value.hash (GoMap.put hash field
              (Value.float (env.addFloat fl (env.intToFloat n))))),
            Event.keyUnlock key] }) := by
    simp [incrbyBody, Server.KeyExists, hp, Server.KeyLock, hgrant, Server.GetValue, hv,
      Value.asHash, hf, hashIndex_put, Server.SetValue, Server.KeyUnlock]
  rw [this]
  exact fieldUpdated_put s key field hash _ _ _ _

/-- The run of the float increment on a key that holds a hash whose field is a
`float64`. -/
theorem incrbyBody_float_float (env : Env) (s : Server) (key field : String)
    (hash : GoMap Value) (fl x : Float64) (hgrant : nextAnswer s.pending = none)
    (hp : s.present key = true) (hv : s.value key = Value.hash hash)
    (hf : hashIndex hash field = Value.float fl) :
    FieldUpdated s key field hash (Value.float (env.addFloat fl x))
      ("+" ++ env.FormatFloat (env.addFloat fl x) ++ "\r\n\r\n")
      (incrbyBody env key field (Increment.ofFloat x) s) := by
  have : incrbyBody env key field (Increment.ofFloat x) s =
      (Reply.ok ("+" ++ env.FormatFloat (env.addFloat fl x) ++ "\r\n\r\n"),
        { s with
          value := fun k =>
            if k = key then
              Value.hash (GoMap.put hash field (Value.float (env.addFloat fl x)))
            else s.value k
          pending := s.pending.tail
          log := s.log ++ [Event.keyExists key true, Event.keyLock key none, Event.getValue key,
            Event.setValue key (Value.hash (GoMap.put hash field
              (Value.float (env.addFloat fl x)))),
            Event.keyUnlock key] }) := by
    simp [incrbyBody, Server.KeyExists, hp, Server.KeyLock, hgrant, Server.GetValue, hv,
      Value.asHash, hf, hashIndex_put, Server.SetValue, Server.KeyUnlock]
  rw [this]
  exact fieldUpdated_put s key field hash _ _ _ _

/-- The run of either increment on a key that holds a hash whose field is a `string`. -/
theorem incrbyBody_str (env : Env) (s : Server) (key field : String) (hash : GoMap Value)
    (t : String) (inc : Increment) (hgrant : nextAnswer s.pending = none)
    (hp : s.present key = true) (hv : s.value key = Value.hash hash)
    (hf : hashIndex hash field = Value.str t) :
    incrbyBody env key field inc s =
      (Reply.error "hash value is not an integer",
        { s with
          pending := s.pending.tail
          log := s.log ++ [Event.keyExists key true, Event.keyLock key none, Event.getValue key,
            Event.keyUnlock key] }) := by
  cases inc <;>
    simp [incrbyBody, Server.KeyExists, hp, Server.KeyLock, hgrant, Server.GetValue, hv,
      Value.asHash, hf, Server.KeyUnlock]

theorem wrap64_of_range (n : Int) (h1 : -2 ^ 63 ≤ n) (h2 : n < 2 ^ 63) : wrap64 n = n := by
  unfold wrap64
  have h3 : (0 : Int) ≤ n + 2 ^ 63 := by omega
  have h4 : n + 2 ^ 63 < 2 ^ 64 := by omega
  rw [Int.emod_eq_of_lt h3 h4]
  omega

/-- The run of the integer increment on a key that holds a hash without the field. -/
theorem incrbyBody_missing_int (env : Env) (s : Server) (key field : String)
    (hash : GoMap Value) (n : Int) (hgrant : nextAnswer s.pending = none)
    (hp : s.present key = true) (hv : s.value key = Value.hash hash)
    (hf : hashIndex hash field = Value.nil) (h1 : -2 ^ 63 ≤ n) (h2 : n < 2 ^ 63) :
    FieldUpdated s key field hash (Value.int n) (":" ++ toString n ++ "\r\n\r\n")
      (incrbyBody env key field (Increment.ofInt n) s) := by
  have hw : wrap64 n = n := wrap64_of_range n h1 h2
  have : incrbyBody env key field (Increment.ofInt n) s =
      (Reply.ok (":" ++ toString n ++ "\r\n\r\n"),
        { s with
          value := fun k =>
            if k = key then
              Value.hash (GoMap.put (GoMap.put hash field (Value.int 0)) field (Value.int n))
            else s.value k
          pending := s.pending.tail
          log := s.log ++ [Event.keyExists key true, Event.keyLock key none, Event.getValue key,
            Event.setValue key
              (Value.hash (GoMap.put (GoMap.put hash field (Value.int 0)) field (Value.int n))),
            Event.keyUnlock key] }) := by
    simp [incrbyBody, Server.KeyExists, hp, Server.KeyLock, hgrant, Server.GetValue, hv,
      Value.asHash, hf, hashIndex_put, Server.SetValue, Server.KeyUnlock, hw]
  rw [this]
  refine ⟨rfl, ?_, rfl,
    GoMap.put (GoMap.put hash field (Value.int 0)) field (Value.int n), ?_, ?_, ?_, ?_⟩
  · intro x hx; simp [hx]
  · simp
  · rw [hashIndex_put]; simp
  · intro x hx; rw [hashIndex_put, if_neg hx, hashIndex_put, if_neg hx]
  · intro x
    rw [GoMap.mem_keys_put, GoMap.mem_keys_put]
    tauto

/-- The run of the integer increment on an absent key. -/
theorem incrbyBody_absent_int (env : Env) (s : Server) (key field : String) (n : Int)
    (hgrant : nextAnswer s.pending = none) (hp : s.present key = false) :
    incrbyBody env key field (Increment.ofInt n) s =
      (Reply.ok (":" ++ toString n ++ "\r\n\r\n"),
        { s with
          present := fun k => if k = key then true else s.present k
          value := fun k => if k = key then Value.hash [(field, Value.int n)] else s.value k
          pending := s.pending.tail
          log := s.log ++ [Event.keyExists key false, Event.createKeyAndLock key none,
            Event.setValue key (Value.hash [(field, Value.int n)]), Event.keyUnlock key] }) := by
  simp [incrbyBody, Server.KeyExists, hp, Server.CreateKeyAndLock, hgrant, Server.SetValue,
    Server.KeyUnlock]

theorem handleINCRBY_int (env : Env) (c0 key field incr : String) (n : Int) (s : Server)
    (hc : env.EqualFold c0 "hincrbyfloat" = false) (hn : env.Atoi incr = some n) :
    handleINCRBY env [c0, key, field, incr] s =
      incrbyBody env key field (Increment.ofInt n) s := by
  simp only [handleINCRBY, hc, hn, Bool.false_eq_true, if_false]

theorem handleINCRBY_float (env : Env) (c0 key field incr : String) (x : Float64) (s : Server)
    (hc : env.EqualFold c0 "hincrbyfloat" = true) (hx : env.ParseFloat incr = some x) :
    handleINCRBY env [c0, key, field, incr] s =
      incrbyBody env key field (Increment.ofFloat x) s := by
  simp only [handleINCRBY, hc, hx, if_true]

theorem wrap64_spec (x : Int) :
    -2 ^ 63 ≤ wrap64 x ∧ wrap64 x < 2 ^ 63 ∧ (2 ^ 64 : Int) ∣ (x - wrap64 x) := by
  unfold wrap64
  refine ⟨by omega, by omega, by omega⟩

/-- C15: for a key that holds a hash with field `f`, the lock being granted: HINCRBY with
the integer `n` on an `int` field `i` stores the `int` `r` that lies in the 64-bit range
`-2^63 ≤ r < 2^63` and differs from `i + n` by a multiple of `2^64` (so `r = i + n` when
`i + n` is in that range, and the sum wraps around otherwise), and replies with `r`;
HINCRBYFLOAT on an `int` field stores a `float64`; HINCRBY on a `float64` field stores a
`float64` (and so does HINCRBYFLOAT); in every case the reply carries the new value of `f`,
every other field and every other key is as it was. -/
theorem handleINCRBY_updates_field (env : Env) (s : Server) (c0 key field incr : String)
    (hash : GoMap Value) (hgrant : nextAnswer s.pending = none) (hp : s.present key = true)
    (hv : s.value key = Value.hash hash) :
    (∀ i n, hashIndex hash field = Value.int i → env.EqualFold c0 "hincrbyfloat" = false →
      env.Atoi incr = some n →
      ∃ r : Int, -2 ^ 63 ≤ r ∧ r < 2 ^ 63 ∧ (2 ^ 64 : Int) ∣ (i + n - r) ∧
        (-2 ^ 63 ≤ i + n → i + n < 2 ^ 63 → r = i + n) ∧
        FieldUpdated s key field hash (Value.int r) (":" ++ toString r ++ "\r\n\r\n")
          (handleINCRBY env [c0, key, field, incr] s)) ∧
    (∀ i x, hashIndex hash field = Value.int i → env.EqualFold c0 "hincrbyfloat" = true →
      env.ParseFloat incr = some x →
      FieldUpdated s key field hash (Value.float (env.addFloat (env.intToFloat i) x))
        ("+" ++ env.FormatFloat (env.addFloat (env.intToFloat i) x) ++ "\r\n\r\n")
        (handleINCRBY env [c0, key, field, incr] s)) ∧
    (∀ fl n, hashIndex hash field = Value.float fl → env.EqualFold c0 "hincrbyfloat" = false →
      env.Atoi incr = some n →
      FieldUpdated s key field hash (Value.float (env.addFloat fl (env.intToFloat n)))
        ("+" ++ env.FormatFloat (env.addFloat fl (env.intToFloat n)) ++ "\r\n\r\n")
        (handleINCRBY env [c0, key, field, incr] s)) ∧
    (∀ fl x, hashIndex hash field = Value.float fl → env.EqualFold c0 "hincrbyfloat" = true →
      env.ParseFloat incr = some x →
      FieldUpdated s key field hash (Value.float (env.addFloat fl x))
        ("+" ++ env.FormatFloat (env.addFloat fl x) ++ "\r\n\r\n")
        (handleINCRBY env [c0, key, field, incr] s)) := by
  refine ⟨?_, ?_, ?_, ?_⟩
  · intro i n hf hc hn
    rw [handleINCRBY_int env c0 key field incr n s hc hn]
    obtain ⟨h1, h2, h3⟩ := wrap64_spec (i + n)
    exact ⟨wrap64 (i + n), h1, h2, h3, fun a b => wrap64_of_range (i + n) a b,
      incrbyBody_int_int env s key field hash i n hgrant hp hv hf⟩
  · intro i x hf hc hx
    rw [handleINCRBY_float env c0 key field incr x s hc hx]
    exact incrbyBody_int_float env s key field hash i x hgrant hp hv hf
  · intro fl n hf hc hn
    rw [handleINCRBY_int env c0 key field incr n s hc hn]
    exact incrbyBody_float_int env s key field hash fl n hgrant hp hv hf
  · intro fl x hf hc hx
    rw [handleINCRBY_float env c0 key field incr x s hc hx]
    exact incrbyBody_float_float env s key field hash fl x hgrant hp hv hf

/-- C16: if the key holds a hash whose field `f` is a `string`, then HINCRBY and
HINCRBYFLOAT with an increment that parses, the lock being granted, both return the error
`hash value is not an integer` without calling `SetValue`: the value under every key, the
hash with `f` and every other field included, is as it was. -/
theorem handleINCRBY_rejects_string (env : Env) (s : Server) (c0 key field incr t : String)
    (hash : GoMap Value) (hgrant : nextAnswer s.pending = none) (hp : s.present key = true)
    (hv : s.value key = Value.hash hash) (hf : hashIndex hash field = Value.str t)
    (hparse : (env.EqualFold c0 "hincrbyfloat" = false ∧ (env.Atoi incr).isSome = true) ∨
      (env.EqualFold c0 "hincrbyfloat" = true ∧ (env.ParseFloat incr).isSome = true)) :
    handleINCRBY env [c0, key, field, incr] s =
      (Reply.error "hash value is not an integer",
        { s with
          pending := s.pending.tail
          log := s.log ++ [Event.keyExists key true, Event.keyLock key none, Event.getValue key,
            Event.keyUnlock key] }) := by
  rcases hparse with ⟨hc, hn⟩ | ⟨hc, hx⟩
  · obtain ⟨n, hn'⟩ := Option.isSome_iff_exists.mp hn
    rw [handleINCRBY_int env c0 key field incr n s hc hn']
    exact incrbyBody_str env s key field hash t _ hgrant hp hv hf
  · obtain ⟨x, hx'⟩ := Option.isSome_iff_exists.mp hx
    rw [handleINCRBY_float env c0 key field incr x s hc hx']
    exact incrbyBody_str env s key field hash t _ hgrant hp hv hf

/-- C17: for every integer `n` of the 64-bit range given as the increment of HINCRBY, the
acquisition being granted: on an absent key the key is created holding the hash with the
single field `f` = `int` `n`, and on a key that holds a hash without `f` the field `f` is
set to the `int` `n` and the other fields are as they were; in both cases the reply is the
integer `n`. -/
theorem handleINCRBY_missing_counts_as_zero (env : Env) (s : Server)
    (c0 key field incr : String) (n : Int) (hc : env.EqualFold c0 "hincrbyfloat" = false)
    (hn : env.Atoi incr = some n) (h1 : -2 ^ 63 ≤ n) (h2 : n < 2 ^ 63)
    (hgrant : nextAnswer s.pending = none) :
    (s.present key = false →
      (handleINCRBY env [c0, key, field, incr] s).1 =
        Reply.ok (":" ++ toString n ++ "\r\n\r\n") ∧
      (handleINCRBY env [c0, key, field, incr] s).2.value key =
        Value.hash [(field, Value.int n)] ∧
      (handleINCRBY env [c0, key, field, incr] s).2.present key = true ∧
      (∀ x, x ≠ key → (handleINCRBY env [c0, key, field, incr] s).2.value x = s.value x)) ∧
    (∀ hash, s.present key = true → s.value key = Value.hash hash →
      field ∉ GoMap.keys hash →
      FieldUpdated s key field hash (Value.int n) (":" ++ toString n ++ "\r\n\r\n")
        (handleINCRBY env [c0, key, field, incr] s)) := by
  rw [handleINCRBY_int env c0 key field incr n s hc hn]
  constructor
  · intro hp
    rw [incrbyBody_absent_int env s key field n hgrant hp]
    refine ⟨rfl, ?_, ?_, ?_⟩
    · simp
    · simp
    · intro x hx; simp [hx]
  · intro hash hp hv hf
    exact incrbyBody_missing_int env s key field hash n hgrant hp hv
      (hashIndex_of_not_mem hash field hf) h1 h2

/-! ## HRANDFIELD -/

theorem getD_append_cons (pre : List String) (x : String) (rest : List String) :
    (pre ++ x :: rest).getD pre.length "" = x := by
  rw [List.getD_append_right _ _ _ _ (Nat.le_refl _)]
  simp

theorem getD_append_cons_succ (pre : List String) (x v : String) (rest : List String) :
    (pre ++ x :: v :: rest).getD (pre.length + 1) "" = v := by
  rw [List.getD_append_right _ _ _ _ (Nat.le_succ _)]
  simp

theorem set_append_cons (pre : List String) (x v : String) (rest : List String) :
    (pre ++ x :: rest).set pre.length v = pre ++ v :: rest := by
  rw [List.set_append_right _ _ (Nat.le_refl _)]
  simp

/-- The compaction phase with the slots `pre ++ done` already final, the slot of `x` next
to be written and `rest` still to be read: no element of `rest` equals the one found at
position `pre.length`, so all of `rest` is kept. -/
theorem compactFrom_spec (pre : List String) (rest : List String) :
    ∀ (done : List String) (x : String), (done ++ rest).Nodup → (done = [] → x ∉ rest) →
      compactFrom pre.length rest.length (pre.length + done.length + 1)
        (pre.length + done.length) (pre ++ done ++ x :: rest) = pre ++ done ++ rest := by
  induction rest with
  | nil =>
    intro done x _ _
    simp only [List.length_nil, compactFrom, List.append_nil]
    exact List.take_left' (by simp)
  | cons v rest ih =>
    intro done x hnd hx
    have hv : (pre ++ done ++ x :: v :: rest).getD (pre.length + done.length + 1) "" = v := by
      have := getD_append_cons_succ (pre ++ done) x v rest
      simpa using this
    have hc : (pre ++ done ++ x :: v :: rest).getD pre.length "" ≠ v := by
      cases done with
      | nil =>
        have h1 : (pre ++ [] ++ x :: v :: rest).getD pre.length "" = x := by
          rw [List.append_nil]
          exact getD_append_cons pre x (v :: rest)
        rw [h1]
        intro e
        exact hx rfl (e ▸ List.mem_cons_self _ _)
      | cons d ds =>
        have h1 : (pre ++ d :: ds ++ x :: v :: rest).getD pre.length "" = d := by
          have := getD_append_cons pre d (ds ++ x :: v :: rest)
          simpa using this
        rw [h1]
        intro e
        have hmem : d ∈ ds ++ v :: rest := by
          rw [e]; simp
        have hnd' : (d :: (ds ++ v :: rest)).Nodup := by simpa using hnd
        exact (List.nodup_cons.mp hnd').1 hmem
    have hset : (pre ++ done ++ x :: v :: rest).set (pre.length + done.length) v =
        pre ++ (done ++ [v]) ++ v :: rest := by
      have := set_append_cons (pre ++ done) x v (v :: rest)
      simp
    have hnd2 : (done ++ [v] ++ rest).Nodup := by simpa using hnd
    have := ih (done ++ [v]) v hnd2 (by simp)
    simp only [List.length_append, List.length_singleton, List.append_assoc] at this
    simp only [List.length_cons, compactFrom, hv, hset]
    rw [if_neg (fun e => hc e.symm)]
    simp only [List.append_assoc, List.singleton_append, List.cons_append, List.nil_append]
      at this ⊢
    rw [← Nat.add_assoc] at this
    exact this

theorem findIdx?_append_cons (pre : List String) (x : String) (rest : List String)
    (hx : x ∉ pre) :
    (pre ++ x :: rest).findIdx? (fun s => decide (s = x)) = some pre.length := by
  induction pre with
  | nil => simp [List.findIdx?_cons]
  | cons a pre ih =>
    have ha : ¬ a = x := fun e => hx (e ▸ List.mem_cons_self _ _)
    have hx' : x ∉ pre := fun h => hx (List.mem_cons_of_mem _ h)
    simp [List.findIdx?_cons, ha, ih hx']

/-- One round of the pluck loop for a positive count: the call to `slices.DeleteFunc`
removes the element at the chosen position and nothing else. -/
theorem deleteChosen_split (pre : List String) (x : String) (rest : List String)
    (hnd : (pre ++ x :: rest).Nodup) :
    deleteChosen (pre ++ x :: rest) pre.length = pre ++ rest := by
  have hx : x ∉ pre := by
    intro h
    have := List.nodup_append.mp hnd
    exact this.2.2 h (List.mem_cons_self _ _)
  have hr : (x :: rest).Nodup := (List.nodup_append.mp hnd).2.1
  unfold deleteChosen
  rw [getD_append_cons, findIdx?_append_cons pre x rest hx]
  have hlen : (pre ++ x :: rest).length - (pre.length + 1) = rest.length := by
    simp only [List.length_append, List.length_cons]
    omega
  simp only [hlen]
  have := compactFrom_spec pre rest [] x (by simpa using (List.nodup_cons.mp hr).2)
    (fun _ => (List.nodup_cons.mp hr).1)
  simpa using this

theorem deleteChosen_eq_eraseIdx (fields : List String) (n : Nat) (hnd : fields.Nodup)
    (hn : n < fields.length) : deleteChosen fields n = fields.eraseIdx n := by
  have hsplit : fields = fields.take n ++ fields[n] :: fields.drop (n + 1) := by
    rw [← List.drop_eq_getElem_cons hn, List.take_append_drop]
  have hlen : (fields.take n).length = n := by
    rw [List.length_take]; omega
  rw [List.eraseIdx_eq_take_drop_succ]
  have := deleteChosen_split (fields.take n) fields[n] (fields.drop (n + 1))
    (by rw [← hsplit]; exact hnd)
  rw [← hsplit, hlen] at this
  exact this

theorem getD_mem (l : List String) (n : Nat) (hn : n < l.length) : l.getD n "" ∈ l := by
  rw [List.getD_eq_getElem l "" hn]
  exact List.getElem_mem hn

/-- The pluck loop for a negative count: every round draws from the same non-empty list. -/
theorem pluckLoop_with_repeats (rnd : Nat → Nat) (fields : List String) (hne : fields ≠ []) :
    ∀ (m i : Nat) (plucked : List String),
      ∃ res, pluckLoop rnd false m i fields plucked = some (plucked ++ res) ∧
        res.length = m ∧ ∀ x ∈ res, x ∈ fields := by
  have hlen : fields.length ≠ 0 := fun h => hne (List.length_eq_zero.mp h)
  intro m
  induction m with
  | zero => intro i plucked; exact ⟨[], by simp [pluckLoop]⟩
  | succ m ih =>
    intro i plucked
    obtain ⟨res, h1, h2, h3⟩ := ih (i + 1) (plucked ++ [fields.getD (rnd i % fields.length) ""])
    refine ⟨fields.getD (rnd i % fields.length) "" :: res, ?_, ?_, ?_⟩
    · simp only [pluckLoop, hlen, if_false, Bool.false_eq_true]
      rw [h1]
      simp
    · simp [h2]
    · intro x hx
      rcases List.mem_cons.mp hx with e | e
      · rw [e]
        exact getD_mem fields _ (Nat.mod_lt _ (Nat.pos_of_ne_zero hlen))
      · exact h3 x e

/-- The pluck loop for a positive count: every round draws from the fields not drawn so
far. -/
theorem pluckLoop_distinct (rnd : Nat → Nat) :
    ∀ (m i : Nat) (fields plucked : List String), fields.Nodup → m ≤ fields.length →
      ∃ res, pluckLoop rnd true m i fields plucked = some (plucked ++ res) ∧
        res.length = m ∧ res.Nodup ∧ ∀ x ∈ res, x ∈ fields := by
  intro m
  induction m with
  | zero => intro i fields plucked _ _; exact ⟨[], by simp [pluckLoop]⟩
  | succ m ih =>
    intro i fields plucked hnd hm
    have hlen : fields.length ≠ 0 := by omega
    have hn : rnd i % fields.length < fields.length :=
      Nat.mod_lt _ (Nat.pos_of_ne_zero hlen)
    have hdel := deleteChosen_eq_eraseIdx fields (rnd i % fields.length) hnd hn
    have herase : fields.eraseIdx (rnd i % fields.length) =
        fields.erase (fields.getD (rnd i % fields.length) "") := by
      rw [List.getD_eq_getElem fields "" hn]
      exact (List.Nodup.erase_getElem hnd _ hn).symm
    have hnd' : (fields.eraseIdx (rnd i % fields.length)).Nodup :=
      List.Nodup.sublist (List.eraseIdx_sublist _ _) hnd
    have hlen' : m ≤ (fields.eraseIdx (rnd i % fields.length)).length := by
      rw [List.length_eraseIdx_of_lt hn]; omega
    obtain ⟨res, h1, h2, h3, h4⟩ := ih (i + 1) (fields.eraseIdx (rnd i % fields.length))
      (plucked ++ [fields.getD (rnd i % fields.length) ""]) hnd' hlen'
    refine ⟨fields.getD (rnd i % fields.length) "" :: res, ?_, ?_, ?_, ?_⟩
    · simp only [pluckLoop, hlen, if_false, if_true, hdel]
      rw [h1]
      simp
    · simp [h2]
    · rw [List.nodup_cons]
      refine ⟨?_, h3⟩
      intro hmem
      have := h4 _ hmem
      rw [herase] at this
      exact List.Nodup.not_mem_erase hnd this
    · intro x hx
      rcases List.mem_cons.mp hx with e | e
      · rw [e]
        exact getD_mem fields _ hn
      · exact List.mem_of_mem_eraseIdx (h4 x e)

/-- The reply of `hrandfieldBody` on a key that holds a hash with at most `count` fields. -/
theorem hrandfieldBody_whole (env : Env) (ord : List String → List String)
    (hord : ∀ l, (ord l).Perm l) (rnd : Nat → Nat) (s : Server) (key : String)
    (hash : GoMap Value) (count : Int) (withvalues : Bool)
    (hgrant : nextAnswer s.pending = none) (hp : s.present key = true)
    (hv : s.value key = Value.hash hash) (hc : (hash.length : Int) ≤ count) :
    (hrandfieldBody env ord rnd key count withvalues s).1 =
      fieldsReply env withvalues hash (ord (GoMap.keys hash)) := by
  have hl : (ord (GoMap.keys hash)).length = hash.length := by
    rw [List.Perm.length_eq (hord _), length_keys]
  simp [hrandfieldBody, Server.KeyExists, hp, Server.KeyRLock, hgrant, Server.GetValue, hv,
    Value.asHash, hc, fieldsReply, hl]

/-- The reply of `hrandfieldBody` on a key that holds a hash with more than `count` fields,
when the pluck loop ends with `plucked`. -/
theorem hrandfieldBody_plucked (env : Env) (ord : List String → List String)
    (rnd : Nat → Nat) (s : Server) (key : String) (hash : GoMap Value) (count : Int)
    (withvalues : Bool) (plucked : List String)
    (hgrant : nextAnswer s.pending = none) (hp : s.present key = true)
    (hv : s.value key = Value.hash hash) (hc : count < (hash.length : Int))
    (hpl : pluckLoop rnd (decide (count > 0)) (AbsInt count).toNat 0
      (ord (GoMap.keys hash)) [] = some plucked) :
    (hrandfieldBody env ord rnd key count withvalues s).1 =
      fieldsReply env withvalues hash plucked := by
  have hc' : ¬ (hash.length : Int) ≤ count := by omega
  simp [hrandfieldBody, Server.KeyExists, hp, Server.KeyRLock, hgrant, Server.GetValue,
    hv, Value.asHash, hc, fieldsReply, hpl]
  rw [if_neg hc']

theorem handleHRANDFIELD_count (env : Env) (ord : List String → List String)
    (rnd : Nat → Nat) (s : Server) (c0 key c : String) (n : Int)
    (hc : env.Atoi c = some n) (hn : n ≠ 0) :
    handleHRANDFIELD env ord rnd [c0, key, c] s = hrandfieldBody env ord rnd key n false s := by
  simp only [handleHRANDFIELD, hc, hn, if_false]

theorem handleHRANDFIELD_count_values (env : Env) (ord : List String → List String)
    (rnd : Nat → Nat) (s : Server) (c0 key c w : String) (n : Int)
    (hc : env.Atoi c = some n) (hn : n ≠ 0) (hw : env.EqualFold w "withvalues" = true) :
    handleHRANDFIELD env ord rnd [c0, key, c, w] s =
      hrandfieldBody env ord rnd key n true s := by
  simp only [handleHRANDFIELD, hc, hn, hw, if_false, if_true]

theorem join_data (l : List String) :
    ∀ acc : String,
      (l.foldl (fun r s => r ++ s) acc).data = acc.data ++ (l.map String.data).flatten := by
  induction l with
  | nil => intro acc; simp
  | cons e rest ih =>
    intro acc
    simp only [List.foldl_cons, List.map_cons, List.flatten_cons]
    rw [ih, String.data_append, List.append_assoc]

theorem join_cons (e : String) (l : List String) :
    String.join (e :: l) = e ++ String.join l := by
  apply String.ext
  simp [String.join, join_data]

theorem join_pairs (fields : List String) (g h : String → String) :
    String.join (fields.map (fun f => g f ++ h f)) =
      String.join ((fields.map (fun f => [g f, h f])).flatten) := by
  induction fields with
  | nil => rfl
  | cons a l ih =>
    simp only [List.map_cons, List.flatten_cons, List.cons_append, List.nil_append,
      join_cons, ih, String.append_assoc]

theorem length_pairs (fields : List String) (g h : String → String) :
    ((fields.map (fun f => [g f, h f])).flatten).length = fields.length * 2 := by
  induction fields with
  | nil => rfl
  | cons a l ih =>
    simp only [List.map_cons, List.flatten_cons, List.length_append, List.length_cons,
      List.length_nil, ih]
    omega

theorem valueElem_scalar (env : Env) (v : Value) (h : v.isScalar = true) :
    (∃ str : String, valueElem env v =
        "$" ++ toString str.utf8ByteSize ++ "\r\n" ++ str ++ "\r\n") ∨
    (∃ d : Int, valueElem env v = ":" ++ toString d ++ "\r\n") := by
  cases v with
  | nil => simp [Value.isScalar] at h
  | int d => exact Or.inr ⟨d, rfl⟩
  | float f => exact Or.inl ⟨env.FormatFloat f, rfl⟩
  | str s => exact Or.inl ⟨s, rfl⟩
  | hash m => simp [Value.isScalar] at h

theorem fieldsReply_lists (env : Env) (withvalues : Bool) (hash : GoMap Value)
    (fields : List String)
    (hs : withvalues = true → ∀ f ∈ fields, (hashIndex hash f).isScalar = true) :
    ListsFields env withvalues hash fields (fieldsReply env withvalues hash fields) := by
  cases withvalues with
  | false =>
    refine ⟨fields.map bulk, ?_, by simp, ?_⟩
    · have hfun : fieldElem env false hash = bulk := by
        funext f
        simp [fieldElem]
      simp [fieldsReply, hfun, arrayHeader]
    · intro e he
      simp only [List.mem_map] at he
      obtain ⟨f, _, rfl⟩ := he
      exact Or.inl ⟨f, rfl⟩
  | true =>
    refine ⟨(fields.map (fun f => [bulk f, valueElem env (hashIndex hash f)])).flatten,
      ?_, by simp, ?_⟩
    · have hfun : fieldElem env true hash =
          fun f => bulk f ++ valueElem env (hashIndex hash f) := by
        funext f
        simp [fieldElem]
      simp only [fieldsReply, hfun, if_true, arrayHeader, join_pairs, length_pairs]
    · intro e he
      simp only [List.mem_flatten, List.mem_map] at he
      obtain ⟨l, ⟨f, hf, rfl⟩, hel⟩ := he
      simp only [List.mem_cons, List.mem_singleton, List.not_mem_nil, or_false] at hel
      rcases hel with rfl | rfl
      · exact Or.inl ⟨f, rfl⟩
      · exact valueElem_scalar env _ (hs rfl f hf)

/-- Counterexample to C18: on the hash with the two fields `a` and `b`, `HRANDFIELD h -3`
(absolute value 3, at least the number of fields) with the random stream constantly 0
replies with the field `a` three times and never with `b`: not the entire hash. -/
theorem handleHRANDFIELD_negative_count_not_whole :
    hashServer.value "h" = Value.hash [("a", Value.int 1), ("b", Value.str "x")] ∧
    (handleHRANDFIELD sampleEnv (fun l => l) (fun _ => 0) ["hrandfield", "h", "-3"]
      hashServer).1 = Reply.ok "*3\r\n$1\r\na\r\n$1\r\na\r\n$1\r\na\r\n\r\n" ∧
    (handleHRANDFIELD sampleEnv (fun l => l) (fun _ => 0) ["hrandfield", "h", "-3"]
      hashServer).1 = fieldsReply sampleEnv false
        [("a", Value.int 1), ("b", Value.str "x")] ["a", "a", "a"] ∧
    ¬ (["a", "a", "a"] : List String).Perm
      (GoMap.keys [("a", Value.int 1), ("b", Value.str "x")]) := by
  refine ⟨by decide, by decide, ?_, by decide⟩
  rfl

/-- C18, amended: for a key that holds a hash, the lock being granted, and every count that
is at least the number of fields (hence positive, a count of 0 being answered before) -
the count 1 when none is given - HRANDFIELD returns the entire hash: the reply lists every
field exactly once, each followed by its value when WITHVALUES is given.  The bytes of the
reply are the array header with the number of elements that follow, these elements and the
closing line, every element being a bulk string or an integer line; with WITHVALUES this
holds when the fields hold an `int`, a `float64` or a `string`. -/
theorem handleHRANDFIELD_whole_hash (env : Env) (ord : List String → List String)
    (hord : ∀ l, (ord l).Perm l) (rnd : Nat → Nat) (s : Server) (c0 key : String)
    (hash : GoMap Value) (hgrant : nextAnswer s.pending = none) (hp : s.present key = true)
    (hv : s.value key = Value.hash hash) :
    (hash.length ≤ 1 →
      ∃ fields, fields.Perm (GoMap.keys hash) ∧
        (handleHRANDFIELD env ord rnd [c0, key] s).1 = fieldsReply env false hash fields ∧
        ListsFields env false hash fields (handleHRANDFIELD env ord rnd [c0, key] s).1) ∧
    (∀ c n, env.Atoi c = some n → n ≠ 0 → (hash.length : Int) ≤ n →
      ∃ fields, fields.Perm (GoMap.keys hash) ∧
        (handleHRANDFIELD env ord rnd [c0, key, c] s).1 = fieldsReply env false hash fields ∧
        ListsFields env false hash fields (handleHRANDFIELD env ord rnd [c0, key, c] s).1) ∧
    (∀ c w n, env.Atoi c = some n → n ≠ 0 → env.EqualFold w "withvalues" = true →
      (hash.length : Int) ≤ n →
      ∃ fields, fields.Perm (GoMap.keys hash) ∧
        (handleHRANDFIELD env ord rnd [c0, key, c, w] s).1 =
          fieldsReply env true hash fields ∧
        ((∀ f ∈ GoMap.keys hash, (hashIndex hash f).isScalar = true) →
          ListsFields env true hash fields
            (handleHRANDFIELD env ord rnd [c0, key, c, w] s).1)) := by
  refine ⟨?_, ?_, ?_⟩
  · intro h1
    have : handleHRANDFIELD env ord rnd [c0, key] s =
        hrandfieldBody env ord rnd key 1 false s := rfl
    have hr := hrandfieldBody_whole env ord hord rnd s key hash 1 false hgrant hp hv
      (by omega)
    refine ⟨ord (GoMap.keys hash), hord _, ?_, ?_⟩
    · rw [this]; exact hr
    · rw [this, hr]
      exact fieldsReply_lists env false hash _ (fun h => by cases h)
  · intro c n hc hn hle
    have hr := hrandfieldBody_whole env ord hord rnd s key hash n false hgrant hp hv hle
    rw [handleHRANDFIELD_count env ord rnd s c0 key c n hc hn]
    refine ⟨ord (GoMap.keys hash), hord _, hr, ?_⟩
    rw [hr]
    exact fieldsReply_lists env false hash _ (fun h => by cases h)
  · intro c w n hc hn hw hle
    have hr := hrandfieldBody_whole env ord hord rnd s key hash n true hgrant hp hv hle
    rw [handleHRANDFIELD_count_values env ord rnd s c0 key c w n hc hn hw]
    refine ⟨ord (GoMap.keys hash), hord _, hr, ?_⟩
    intro hsc
    rw [hr]
    exact fieldsReply_lists env true hash _
      (fun _ f hf => hsc f ((List.Perm.mem_iff (hord _)).mp hf))

theorem absInt_neg (n : Int) (h1 : -2 ^ 63 < n) (h2 : n < 0) :
    (AbsInt n).toNat = n.natAbs := by
  unfold AbsInt
  rw [if_pos h2, wrap64_of_range (-n) (by omega) (by omega)]
  omega

theorem absInt_pos (n : Int) (h : 0 < n) : (AbsInt n).toNat = n.toNat := by
  unfold AbsInt
  rw [if_neg (by omega)]

theorem absInt_least : (AbsInt (-2 ^ 63)).toNat = 0 := by decide

/-- Counterexample to C19: on the hash with the two fields `a` and `b`, `HRANDFIELD h
-9223372036854775808` replies with the empty array, whatever the random numbers: no name at
all, where the absolute value of the count is 9223372036854775808.  The loop bound
`AbsInt(count)` is a 64-bit `int`, and for this count it is the count itself. -/
theorem handleHRANDFIELD_least_count_returns_nothing :
    hashServer.present "h" = true ∧
    hashServer.value "h" = Value.hash [("a", Value.int 1), ("b", Value.str "x")] ∧
    sampleEnv.Atoi "-9223372036854775808" = some (-9223372036854775808) ∧
    (-9223372036854775808 : Int) < 0 ∧
    (-9223372036854775808 : Int).natAbs = 9223372036854775808 ∧
    AbsInt (-9223372036854775808) = -9223372036854775808 ∧
    (∀ rnd : Nat → Nat,
      (handleHRANDFIELD sampleEnv (fun l => l) rnd
        ["hrandfield", "h", "-9223372036854775808"] hashServer).1 = Reply.ok "*0\r\n\r\n") := by
  refine ⟨by decide, by decide, by decide, by decide, by decide, by decide, fun rnd => ?_⟩
  rfl

/-- C19, amended: for a key that holds a non-empty hash, the lock being granted, and every
negative count above the least 64-bit integer, whatever the random numbers and whether or
not the absolute value exceeds the number of fields, HRANDFIELD replies with exactly
`|count|` field names, each of them a field of the hash; for the count `-2^63`, which has
no absolute value in a 64-bit `int`, it replies with the empty array. -/
theorem handleHRANDFIELD_negative_count (env : Env) (ord : List String → List String)
    (hord : ∀ l, (ord l).Perm l) (rnd : Nat → Nat) (s : Server) (c0 key : String)
    (hash : GoMap Value) (hgrant : nextAnswer s.pending = none) (hp : s.present key = true)
    (hv : s.value key = Value.hash hash) (hne : hash ≠ []) :
    (∀ c n, env.Atoi c = some n → n < 0 → -2 ^ 63 < n →
      ∃ plucked, plucked.length = n.natAbs ∧ (∀ f ∈ plucked, f ∈ GoMap.keys hash) ∧
        (handleHRANDFIELD env ord rnd [c0, key, c] s).1 =
          fieldsReply env false hash plucked) ∧
    (∀ c w n, env.Atoi c = some n → n < 0 → -2 ^ 63 < n →
      env.EqualFold w "withvalues" = true →
      ∃ plucked, plucked.length = n.natAbs ∧ (∀ f ∈ plucked, f ∈ GoMap.keys hash) ∧
        (handleHRANDFIELD env ord rnd [c0, key, c, w] s).1 =
          fieldsReply env true hash plucked) ∧
    (∀ c, env.Atoi c = some (-2 ^ 63) →
      (handleHRANDFIELD env ord rnd [c0, key, c] s).1 = Reply.ok "*0\r\n\r\n") ∧
    (∀ c w, env.Atoi c = some (-2 ^ 63) → env.EqualFold w "withvalues" = true →
      (handleHRANDFIELD env ord rnd [c0, key, c, w] s).1 = Reply.ok "*0\r\n\r\n") := by
  have hone : ord (GoMap.keys hash) ≠ [] := by
    intro h
    have := List.Perm.length_eq (hord (GoMap.keys hash))
    rw [h, length_keys] at this
    exact hne (List.length_eq_zero.mp this.symm)
  have key_fact : ∀ (n : Int) (withvalues : Bool), n < 0 → -2 ^ 63 < n →
      ∃ plucked, plucked.length = n.natAbs ∧ (∀ f ∈ plucked, f ∈ GoMap.keys hash) ∧
        (hrandfieldBody env ord rnd key n withvalues s).1 =
          fieldsReply env withvalues hash plucked := by
    intro n withvalues hneg hmin
    obtain ⟨res, h1, h2, h3⟩ :=
      pluckLoop_with_repeats rnd (ord (GoMap.keys hash)) hone (AbsInt n).toNat 0 []
    have hdec : decide (n > 0) = false := by
      rw [decide_eq_false_iff_not]; omega
    refine ⟨res, ?_, ?_, ?_⟩
    · rw [h2, absInt_neg n hmin hneg]
    · intro f hf
      exact (List.Perm.mem_iff (hord _)).mp (h3 f hf)
    · apply hrandfieldBody_plucked env ord rnd s key hash n withvalues res hgrant hp hv
        (by omega)
      rw [hdec, h1]
      simp
  have least_fact : ∀ withvalues : Bool,
      (hrandfieldBody env ord rnd key (-2 ^ 63) withvalues s).1 = Reply.ok "*0\r\n\r\n" := by
    intro withvalues
    have hlen : (-2 ^ 63 : Int) < (hash.length : Int) := by
      have : (0 : Int) ≤ (hash.length : Int) := Int.natCast_nonneg _
      omega
    rw [hrandfieldBody_plucked env ord rnd s key hash (-2 ^ 63) withvalues [] hgrant hp hv
      hlen (by rw [absInt_least]; rfl)]
    cases withvalues <;> rfl
  refine ⟨?_, ?_, ?_, ?_⟩
  · intro c n hc hneg hmin
    rw [handleHRANDFIELD_count env ord rnd s c0 key c n hc (by omega)]
    exact key_fact n false hneg hmin
  · intro c w n hc hneg hmin hw
    rw [handleHRANDFIELD_count_values env ord rnd s c0 key c w n hc (by omega) hw]
    exact key_fact n true hneg hmin
  · intro c hc
    rw [handleHRANDFIELD_count env ord rnd s c0 key c (-2 ^ 63) hc (by decide)]
    exact least_fact false
  · intro c w hc hw
    rw [handleHRANDFIELD_count_values env ord rnd s c0 key c w (-2 ^ 63) hc (by decide) hw]
    exact least_fact true

/-- C20: for a key that holds a hash (fields distinct), the lock being granted, and every
count with 0 < count < number of fields - the count 1 when none is given - whatever the
random numbers, HRANDFIELD replies with exactly `count` field names that are pairwise
distinct and are all fields of the hash.  Each round of the pluck loop removes from the
remaining candidates the element at the chosen position and no other, although the
predicate handed to `slices.DeleteFunc` reads `fields[n]` from the slice being compacted. -/
theorem handleHRANDFIELD_positive_count (env : Env) (ord : List String → List String)
    (hord : ∀ l, (ord l).Perm l) (rnd : Nat → Nat) (s : Server) (c0 key : String)
    (hash : GoMap Value) (hgrant : nextAnswer s.pending = none) (hp : s.present key = true)
    (hv : s.value key = Value.hash hash) (hnd : (GoMap.keys hash).Nodup) :
    (∀ (fields : List String) (n : Nat), fields.Nodup → n < fields.length →
      deleteChosen fields n = fields.eraseIdx n) ∧
    (1 < hash.length →
      ∃ plucked, plucked.length = 1 ∧ plucked.Nodup ∧ (∀ f ∈ plucked, f ∈ GoMap.keys hash) ∧
        (handleHRANDFIELD env ord rnd [c0, key] s).1 = fieldsReply env false hash plucked) ∧
    (∀ c n, env.Atoi c = some n → 0 < n → n < (hash.length : Int) →
      ∃ plucked, plucked.length = n.toNat ∧ plucked.Nodup ∧
        (∀ f ∈ plucked, f ∈ GoMap.keys hash) ∧
        (handleHRANDFIELD env ord rnd [c0, key, c] s).1 =
          fieldsReply env false hash plucked) ∧
    (∀ c w n, env.Atoi c = some n → 0 < n → n < (hash.length : Int) →
      env.EqualFold w "withvalues" = true →
      ∃ plucked, plucked.length = n.toNat ∧ plucked.Nodup ∧
        (∀ f ∈ plucked, f ∈ GoMap.keys hash) ∧
        (handleHRANDFIELD env ord rnd [c0, key, c, w] s).1 =
          fieldsReply env true hash plucked) := by
  have hndo : (ord (GoMap.keys hash)).Nodup := (List.Perm.nodup_iff (hord _)).mpr hnd
  have hlo : (ord (GoMap.keys hash)).length = hash.length := by
    rw [List.Perm.length_eq (hord _), length_keys]
  have key_fact : ∀ (n : Int) (withvalues : Bool), 0 < n → n < (hash.length : Int) →
      ∃ plucked, plucked.length = n.toNat ∧ plucked.Nodup ∧
        (∀ f ∈ plucked, f ∈ GoMap.keys hash) ∧
        (hrandfieldBody env ord rnd key n withvalues s).1 =
          fieldsReply env withvalues hash plucked := by
    intro n withvalues hpos hlt
    obtain ⟨res, h1, h2, h3, h4⟩ :=
      pluckLoop_distinct rnd (AbsInt n).toNat 0 (ord (GoMap.keys hash)) [] hndo
        (by rw [absInt_pos n hpos, hlo]; omega)
    have hdec : decide (n > 0) = true := by
      rw [decide_eq_true_iff]; exact hpos
    refine ⟨res, ?_, h3, ?_, ?_⟩
    · rw [h2, absInt_pos n hpos]
    · intro f hf
      exact (List.Perm.mem_iff (hord _)).mp (h4 f hf)
    · apply hrandfieldBody_plucked env ord rnd s key hash n withvalues res hgrant hp hv hlt
      rw [hdec, h1]
      simp
  refine ⟨fun fields n h1 h2 => deleteChosen_eq_eraseIdx fields n h1 h2, ?_, ?_, ?_⟩
  · intro h1
    have : handleHRANDFIELD env ord rnd [c0, key] s =
        hrandfieldBody env ord rnd key 1 false s := rfl
    rw [this]
    obtain ⟨plucked, g1, g2, g3, g4⟩ := key_fact 1 false (by omega) (by omega)
    exact ⟨plucked, by simpa using g1, g2, g3, g4⟩
  · intro c n hc hpos hlt
    rw [handleHRANDFIELD_count env ord rnd s c0 key c n hc (by omega)]
    exact key_fact n false hpos hlt
  · intro c w n hc hpos hlt hw
    rw [handleHRANDFIELD_count_values env ord rnd s c0 key c w n hc (by omega) hw]
    exact key_fact n true hpos hlt

/-! ## Worked instances -/

theorem sameOrder_perm : ∀ l : List String, ((fun l : List String => l) l).Perm l :=
  fun l => List.Perm.refl l

theorem hashServer_noNil : NoNilField [("a", Value.int 1), ("b", Value.str "x")] := by
  unfold NoNilField
  decide

/-- Witness of C12: `HSET h a 5 c 7 a 9` on the store where `h` holds the hash with `a` and
`b`, and `HSET q a 5 c 7 a 9` on the absent key `q`. -/
theorem handleHSET_sets_fields_witness :
    (["a", "5", "c", "7", "a", "9"].length % 2 = 0 ∧
      sampleEnv.EqualFold "hset" "hsetnx" = false ∧ nextAnswer hashServer.pending = none ∧
      hashServer.present "h" = true ∧
      hashServer.value "h" = Value.hash [("a", Value.int 1), ("b", Value.str "x")]) ∧
    (∃ hash1,
      (handleHSET sampleEnv (fun l => l) ("hset" :: "h" :: "a" :: "5" :: ["c", "7", "a", "9"])
          hashServer).1 =
        Reply.ok (":" ++ toString (argKeys ("a" :: "5" :: ["c", "7", "a", "9"])).dedup.length
          ++ "\r\n\r\n") ∧
      (handleHSET sampleEnv (fun l => l) ("hset" :: "h" :: "a" :: "5" :: ["c", "7", "a", "9"])
          hashServer).2.value "h" = Value.hash hash1 ∧
      (∀ x, x ≠ "h" →
        (handleHSET sampleEnv (fun l => l)
          ("hset" :: "h" :: "a" :: "5" :: ["c", "7", "a", "9"]) hashServer).2.value x =
          hashServer.value x) ∧
      (handleHSET sampleEnv (fun l => l) ("hset" :: "h" :: "a" :: "5" :: ["c", "7", "a", "9"])
          hashServer).2.present = hashServer.present ∧
      FieldsSet sampleEnv ("a" :: "5" :: ["c", "7", "a", "9"])
        [("a", Value.int 1), ("b", Value.str "x")] hash1) ∧
    (handleHSET sampleEnv (fun l => l) ["hset", "h", "a", "5", "c", "7", "a", "9"]
        hashServer).1 = Reply.ok ":2\r\n\r\n" ∧
    (handleHSET sampleEnv (fun l => l) ["hset", "h", "a", "5", "c", "7", "a", "9"]
        hashServer).2.value "h" =
      Value.hash [("a", Value.int 9), ("b", Value.str "x"), ("c", Value.int 7)] ∧
    (handleHSET sampleEnv (fun l => l) ["hset", "q", "a", "5", "c", "7", "a", "9"]
        hashServer).2.value "q" = Value.hash [("a", Value.int 9), ("c", Value.int 7)] :=
  ⟨⟨by decide, by decide, by decide, by decide, by decide⟩,
    (handleHSET_sets_fields sampleEnv (fun l => l) sameOrder_perm hashServer "hset" "h" "a" "5"
      ["c", "7", "a", "9"] (by decide) (by decide) (by decide)).1
      [("a", Value.int 1), ("b", Value.str "x")] (by decide) (by decide),
    by decide, by decide, by decide⟩

/-- Witness of C13: `HSETNX h a 5 c 7` on the store where `h` holds the hash with `a` = 1
and `b`: `a` keeps 1, `c` is added, the reply is 1. -/
theorem handleHSET_nx_adds_only_absent_witness :
    (["a", "5", "c", "7"].length % 2 = 0 ∧ sampleEnv.EqualFold "hsetnx" "hsetnx" = true ∧
      nextAnswer hashServer.pending = none ∧ hashServer.present "h" = true ∧
      hashServer.value "h" = Value.hash [("a", Value.int 1), ("b", Value.str "x")] ∧
      NoNilField [("a", Value.int 1), ("b", Value.str "x")]) ∧
    (∃ hash1,
      (handleHSET sampleEnv (fun l => l) ("hsetnx" :: "h" :: "a" :: "5" :: ["c", "7"])
          hashServer).1 =
        Reply.ok (":" ++ toString
          (hash1.length - [("a", Value.int 1), ("b", Value.str "x")].length) ++ "\r\n\r\n") ∧
      [("a", Value.int 1), ("b", Value.str "x")].length ≤ hash1.length ∧
      (handleHSET sampleEnv (fun l => l) ("hsetnx" :: "h" :: "a" :: "5" :: ["c", "7"])
          hashServer).2.value "h" = Value.hash hash1 ∧
      (∀ x, x ≠ "h" →
        (handleHSET sampleEnv (fun l => l) ("hsetnx" :: "h" :: "a" :: "5" :: ["c", "7"])
          hashServer).2.value x = hashServer.value x) ∧
      (∀ x ∈ GoMap.keys [("a", Value.int 1), ("b", Value.str "x")],
        hashIndex hash1 x = hashIndex [("a", Value.int 1), ("b", Value.str "x")] x) ∧
      (∀ x, x ∈ GoMap.keys hash1 ↔
        x ∈ GoMap.keys [("a", Value.int 1), ("b", Value.str "x")] ∨
          x ∈ argKeys ("a" :: "5" :: ["c", "7"]))) ∧
    (handleHSET sampleEnv (fun l => l) ["hsetnx", "h", "a", "5", "c", "7"] hashServer).1 =
      Reply.ok ":1\r\n\r\n" ∧
    (handleHSET sampleEnv (fun l => l) ["hsetnx", "h", "a", "5", "c", "7"]
        hashServer).2.value "h" =
      Value.hash [("a", Value.int 1), ("b", Value.str "x"), ("c", Value.int 7)] :=
  ⟨⟨by decide, by decide, by decide, by decide, by decide, hashServer_noNil⟩,
    handleHSET_nx_adds_only_absent sampleEnv (fun l => l) sameOrder_perm hashServer "hsetnx" "h"
      "a" "5" ["c", "7"] [("a", Value.int 1), ("b", Value.str "x")] (by decide) (by decide)
      (by decide) (by decide) (by decide) hashServer_noNil,
    by decide, by decide⟩

/-- Witness of C14: `HDEL h a z a` on the store where `h` holds the hash with `a` and `b`
(`a` listed twice, `z` not present), and `HDEL q a` on the absent key `q`. -/
theorem handleHDEL_removes_listed_witness :
    (nextAnswer hashServer.pending = none ∧ hashServer.present "h" = true ∧
      hashServer.value "h" = Value.hash [("a", Value.int 1), ("b", Value.str "x")] ∧
      (GoMap.keys [("a", Value.int 1), ("b", Value.str "x")]).Nodup ∧
      NoNilField [("a", Value.int 1), ("b", Value.str "x")]) ∧
    (∃ hash1,
      (handleHDEL sampleEnv ("hdel" :: "h" :: "a" :: ["z", "a"]) hashServer).1 =
        Reply.ok (":" ++ toString
          ([("a", Value.int 1), ("b", Value.str "x")].length - hash1.length) ++ "\r\n\r\n") ∧
      hash1.length ≤ [("a", Value.int 1), ("b", Value.str "x")].length ∧
      (handleHDEL sampleEnv ("hdel" :: "h" :: "a" :: ["z", "a"]) hashServer).2.value "h" =
        Value.hash hash1 ∧
      (∀ x, x ≠ "h" →
        (handleHDEL sampleEnv ("hdel" :: "h" :: "a" :: ["z", "a"]) hashServer).2.value x =
          hashServer.value x) ∧
      (handleHDEL sampleEnv ("hdel" :: "h" :: "a" :: ["z", "a"]) hashServer).2.present =
        hashServer.present ∧
      (∀ x ∈ "a" :: ["z", "a"], x ∉ GoMap.keys hash1) ∧
      (∀ x ∈ GoMap.keys hash1, x ∈ GoMap.keys [("a", Value.int 1), ("b", Value.str "x")]) ∧
      (∀ x, x ∉ "a" :: ["z", "a"] →
        hashIndex hash1 x = hashIndex [("a", Value.int 1), ("b", Value.str "x")] x ∧
        (x ∈ GoMap.keys [("a", Value.int 1), ("b", Value.str "x")] →
          x ∈ GoMap.keys hash1))) ∧
    (hashServer.present "q" = false ∧
      handleHDEL sampleEnv ("hdel" :: "q" :: "a" :: []) hashServer =
        (Reply.ok ":0\r\n\r\n",
          { hashServer with log := hashServer.log ++ [Event.keyExists "q" false] })) ∧
    (handleHDEL sampleEnv ["hdel", "h", "a", "z", "a"] hashServer).1 = Reply.ok ":1\r\n\r\n" ∧
    (handleHDEL sampleEnv ["hdel", "h", "a", "z", "a"] hashServer).2.value "h" =
      Value.hash [("b", Value.str "x")] :=
  ⟨⟨by decide, by decide, by decide, by decide, hashServer_noNil⟩,
    (handleHDEL_removes_listed sampleEnv hashServer "hdel" "h" "a" ["z", "a"]).1
      [("a", Value.int 1), ("b", Value.str "x")] (by decide) (by decide) (by decide)
      (by decide) hashServer_noNil,
    ⟨by decide, (handleHDEL_removes_listed sampleEnv hashServer "hdel" "q" "a" []).2
      (by decide)⟩,
    by decide, by decide⟩

/-- Witness of C15: `HINCRBY h a 1` on the store where `h` holds the hash with `a` equal to
the greatest 64-bit integer, which wraps around to the least one, and `HINCRBYFLOAT h a 4`
and `HINCRBY h a 4` on the store where `h` holds the hash with `a` = 1. -/
theorem handleINCRBY_updates_field_witness :
    (nextAnswer limitServer.pending = none ∧ limitServer.present "h" = true ∧
      limitServer.value "h" = Value.hash [("a", Value.int 9223372036854775807)] ∧
      hashIndex [("a", Value.int 9223372036854775807)] "a" = Value.int 9223372036854775807 ∧
      sampleEnv.EqualFold "hincrby" "hincrbyfloat" = false ∧ sampleEnv.Atoi "1" = some 1 ∧
      nextAnswer hashServer.pending = none ∧ hashServer.present "h" = true ∧
      hashServer.value "h" = Value.hash [("a", Value.int 1), ("b", Value.str "x")] ∧
      hashIndex [("a", Value.int 1), ("b", Value.str "x")] "a" = Value.int 1 ∧
      floatEnv.EqualFold "hincrbyfloat" "hincrbyfloat" = true ∧
      floatEnv.ParseFloat "4" = some { bits := 4 }) ∧
    (∃ r : Int, -2 ^ 63 ≤ r ∧ r < 2 ^ 63 ∧ (2 ^ 64 : Int) ∣ (9223372036854775807 + 1 - r) ∧
      (-2 ^ 63 ≤ (9223372036854775807 : Int) + 1 → (9223372036854775807 : Int) + 1 < 2 ^ 63 →
        r = 9223372036854775807 + 1) ∧
      FieldUpdated limitServer "h" "a" [("a", Value.int 9223372036854775807)] (Value.int r)
        (":" ++ toString r ++ "\r\n\r\n")
        (handleINCRBY sampleEnv ["hincrby", "h", "a", "1"] limitServer)) ∧
    FieldUpdated hashServer "h" "a" [("a", Value.int 1), ("b", Value.str "x")]
      (Value.float (floatEnv.addFloat (floatEnv.intToFloat 1) { bits := 4 }))
      ("+" ++ floatEnv.FormatFloat (floatEnv.addFloat (floatEnv.intToFloat 1) { bits := 4 })
        ++ "\r\n\r\n")
      (handleINCRBY floatEnv ["hincrbyfloat", "h", "a", "4"] hashServer) ∧
    (handleINCRBY sampleEnv ["hincrby", "h", "a", "1"] limitServer).1 =
      Reply.ok ":-9223372036854775808\r\n\r\n" ∧
    (handleINCRBY sampleEnv ["hincrby", "h", "a", "1"] limitServer).2.value "h" =
      Value.hash [("a", Value.int (-9223372036854775808))] ∧
    (handleINCRBY sampleEnv ["hincrby", "h", "a", "4"] hashServer).1 = Reply.ok ":5\r\n\r\n" ∧
    (handleINCRBY sampleEnv ["hincrby", "h", "a", "4"] hashServer).2.value "h" =
      Value.hash [("a", Value.int 5), ("b", Value.str "x")] :=
  ⟨⟨by decide, by decide, by decide, by decide, by decide, by decide, by decide, by decide,
      by decide, by decide, by decide, by decide⟩,
    (handleINCRBY_updates_field sampleEnv limitServer "hincrby" "h" "a" "1"
      [("a", Value.int 9223372036854775807)] (by decide) (by decide) (by decide)).1
      9223372036854775807 1 (by decide) (by decide) (by decide),
    (handleINCRBY_updates_field floatEnv hashServer "hincrbyfloat" "h" "a" "4"
      [("a", Value.int 1), ("b", Value.str "x")] (by decide) (by decide) (by decide)).2.1 1
      { bits := 4 } (by decide) (by decide) (by decide),
    by decide, by decide, by decide, by decide⟩

/-- Witness of C16: `HINCRBY h b 4` on the store where `h` holds the hash whose field `b`
is the string `x`. -/
theorem handleINCRBY_rejects_string_witness :
    (nextAnswer hashServer.pending = none ∧ hashServer.present "h" = true ∧
      hashServer.value "h" = Value.hash [("a", Value.int 1), ("b", Value.str "x")] ∧
      hashIndex [("a", Value.int 1), ("b", Value.str "x")] "b" = Value.str "x" ∧
      sampleEnv.EqualFold "hincrby" "hincrbyfloat" = false ∧
      (sampleEnv.Atoi "4").isSome = true) ∧
    handleINCRBY sampleEnv ["hincrby", "h", "b", "4"] hashServer =
      (Reply.error "hash value is not an integer",
        { hashServer with
          pending := hashServer.pending.tail
          log := hashServer.log ++ [Event.keyExists "h" true, Event.keyLock "h" none,
            Event.getValue "h", Event.keyUnlock "h"] }) :=
  ⟨⟨by decide, by decide, by decide, by decide, by decide, by decide⟩,
    handleINCRBY_rejects_string sampleEnv hashServer "hincrby" "h" "b" "4" "x"
      [("a", Value.int 1), ("b", Value.str "x")] (by decide) (by decide) (by decide)
      (by decide) (Or.inl ⟨by decide, by decide⟩)⟩

/-- Witness of C17: `HINCRBY h f 5` on the empty store yields 5, and `HINCRBY h f 5` on the
store where `h` holds a hash without `f` yields 5 as well. -/
theorem handleINCRBY_missing_counts_as_zero_witness :
    (sampleEnv.EqualFold "hincrby" "hincrbyfloat" = false ∧ sampleEnv.Atoi "5" = some 5 ∧
      (-2 ^ 63 : Int) ≤ 5 ∧ (5 : Int) < 2 ^ 63 ∧ nextAnswer emptyServer.pending = none ∧
      emptyServer.present "h" = false ∧ hashServer.present "h" = true ∧
      "f" ∉ GoMap.keys [("a", Value.int 1), ("b", Value.str "x")]) ∧
    ((handleINCRBY sampleEnv ["hincrby", "h", "f", "5"] emptyServer).1 =
        Reply.ok (":" ++ toString (5 : Int) ++ "\r\n\r\n") ∧
      (handleINCRBY sampleEnv ["hincrby", "h", "f", "5"] emptyServer).2.value "h" =
        Value.hash [("f", Value.int 5)] ∧
      (handleINCRBY sampleEnv ["hincrby", "h", "f", "5"] emptyServer).2.present "h" = true ∧
      (∀ x, x ≠ "h" →
        (handleINCRBY sampleEnv ["hincrby", "h", "f", "5"] emptyServer).2.value x =
          emptyServer.value x)) ∧
    FieldUpdated hashServer "h" "f" [("a", Value.int 1), ("b", Value.str "x")] (Value.int 5)
      (":" ++ toString (5 : Int) ++ "\r\n\r\n")
      (handleINCRBY sampleEnv ["hincrby", "h", "f", "5"] hashServer) ∧
    (handleINCRBY sampleEnv ["hincrby", "h", "f", "5"] emptyServer).1 = Reply.ok ":5\r\n\r\n" :=
  ⟨⟨by decide, by decide, by decide, by decide, by decide, by decide, by decide, by decide⟩,
    (handleINCRBY_missing_counts_as_zero sampleEnv emptyServer "hincrby" "h" "f" "5" 5
      (by decide) (by decide) (by decide) (by decide) (by decide)).1 (by decide),
    (handleINCRBY_missing_counts_as_zero sampleEnv hashServer "hincrby" "h" "f" "5" 5
      (by decide) (by decide) (by decide) (by decide) (by decide)).2
      [("a", Value.int 1), ("b", Value.str "x")] (by decide) (by decide) (by decide),
    by decide⟩

theorem hashServer_fields_scalar :
    ∀ f ∈ GoMap.keys [("a", Value.int 1), ("b", Value.str "x")],
      (hashIndex [("a", Value.int 1), ("b", Value.str "x")] f).isScalar = true := by
  intro f hf
  simp only [GoMap.keys, List.map_cons, List.map_nil, List.mem_cons, List.mem_singleton,
    List.not_mem_nil, or_false] at hf
  rcases hf with rfl | rfl <;> decide

/-- Witness of C18 as amended: `HRANDFIELD h 3` and `HRANDFIELD h 3 WITHVALUES` on the hash
with the two fields `a` and `b`. -/
theorem handleHRANDFIELD_whole_hash_witness :
    (nextAnswer hashServer.pending = none ∧ hashServer.present "h" = true ∧
      hashServer.value "h" = Value.hash [("a", Value.int 1), ("b", Value.str "x")] ∧
      sampleEnv.Atoi "3" = some 3 ∧
      (([("a", Value.int 1), ("b", Value.str "x")] : GoMap Value).length : Int) ≤ 3 ∧
      sampleEnv.EqualFold "WITHVALUES" "withvalues" = true) ∧
    (∃ fields, fields.Perm (GoMap.keys [("a", Value.int 1), ("b", Value.str "x")]) ∧
      (handleHRANDFIELD sampleEnv (fun l => l) (fun _ => 0) ["hrandfield", "h", "3"]
        hashServer).1 =
        fieldsReply sampleEnv false [("a", Value.int 1), ("b", Value.str "x")] fields ∧
      ListsFields sampleEnv false [("a", Value.int 1), ("b", Value.str "x")] fields
        (handleHRANDFIELD sampleEnv (fun l => l) (fun _ => 0) ["hrandfield", "h", "3"]
          hashServer).1) ∧
    (∃ fields, fields.Perm (GoMap.keys [("a", Value.int 1), ("b", Value.str "x")]) ∧
      (handleHRANDFIELD sampleEnv (fun l => l) (fun _ => 0)
        ["hrandfield", "h", "3", "WITHVALUES"] hashServer).1 =
        fieldsReply sampleEnv true [("a", Value.int 1), ("b", Value.str "x")] fields ∧
      ((∀ f ∈ GoMap.keys [("a", Value.int 1), ("b", Value.str "x")],
          (hashIndex [("a", Value.int 1), ("b", Value.str "x")] f).isScalar = true) →
        ListsFields sampleEnv true [("a", Value.int 1), ("b", Value.str "x")] fields
          (handleHRANDFIELD sampleEnv (fun l => l) (fun _ => 0)
            ["hrandfield", "h", "3", "WITHVALUES"] hashServer).1)) ∧
    (∀ f ∈ GoMap.keys [("a", Value.int 1), ("b", Value.str "x")],
      (hashIndex [("a", Value.int 1), ("b", Value.str "x")] f).isScalar = true) ∧
    (handleHRANDFIELD sampleEnv (fun l => l) (fun _ => 0) ["hrandfield", "h", "3"]
      hashServer).1 = Reply.ok "*2\r\n$1\r\na\r\n$1\r\nb\r\n\r\n" ∧
    (handleHRANDFIELD sampleEnv (fun l => l) (fun _ => 0)
      ["hrandfield", "h", "3", "WITHVALUES"] hashServer).1 =
      Reply.ok "*4\r\n$1\r\na\r\n:1\r\n$1\r\nb\r\n$1\r\nx\r\n\r\n" :=
  ⟨⟨by decide, by decide, by decide, by decide, by decide, by decide⟩,
    (handleHRANDFIELD_whole_hash sampleEnv (fun l => l) sameOrder_perm (fun _ => 0)
      hashServer "hrandfield" "h" [("a", Value.int 1), ("b", Value.str "x")] (by decide)
      (by decide) (by decide)).2.1 "3" 3 (by decide) (by decide) (by decide),
    (handleHRANDFIELD_whole_hash sampleEnv (fun l => l) sameOrder_perm (fun _ => 0)
      hashServer "hrandfield" "h" [("a", Value.int 1), ("b", Value.str "x")] (by decide)
      (by decide) (by decide)).2.2 "3" "WITHVALUES" 3 (by decide) (by decide) (by decide)
      (by decide),
    hashServer_fields_scalar, by decide, by decide⟩

/-- Witness of C19 as amended: `HRANDFIELD h -3` on the hash with the two fields `a` and `b`
returns three names drawn from the two, and `HRANDFIELD h -9223372036854775808` returns the
empty array. -/
theorem handleHRANDFIELD_negative_count_witness :
    (nextAnswer hashServer.pending = none ∧ hashServer.present "h" = true ∧
      hashServer.value "h" = Value.hash [("a", Value.int 1), ("b", Value.str "x")] ∧
      ([("a", Value.int 1), ("b", Value.str "x")] : GoMap Value) ≠ [] ∧
      sampleEnv.Atoi "-3" = some (-3) ∧ (-3 : Int) < 0 ∧ (-2 ^ 63 : Int) < -3 ∧
      sampleEnv.Atoi "-9223372036854775808" = some (-2 ^ 63)) ∧
    (∃ plucked, plucked.length = (-3 : Int).natAbs ∧
      (∀ f ∈ plucked, f ∈ GoMap.keys [("a", Value.int 1), ("b", Value.str "x")]) ∧
      (handleHRANDFIELD sampleEnv (fun l => l) (fun i => i) ["hrandfield", "h", "-3"]
        hashServer).1 =
        fieldsReply sampleEnv false [("a", Value.int 1), ("b", Value.str "x")] plucked) ∧
    (handleHRANDFIELD sampleEnv (fun l => l) (fun i => i)
      ["hrandfield", "h", "-9223372036854775808"] hashServer).1 = Reply.ok "*0\r\n\r\n" ∧
    (handleHRANDFIELD sampleEnv (fun l => l) (fun i => i) ["hrandfield", "h", "-3"]
      hashServer).1 = Reply.ok "*3\r\n$1\r\na\r\n$1\r\nb\r\n$1\r\na\r\n\r\n" :=
  ⟨⟨by decide, by decide, by decide, by decide, by decide, by decide, by decide, by decide⟩,
    (handleHRANDFIELD_negative_count sampleEnv (fun l => l) sameOrder_perm (fun i => i)
      hashServer "hrandfield" "h" [("a", Value.int 1), ("b", Value.str "x")] (by decide)
      (by decide) (by decide) (by decide)).1 "-3" (-3) (by decide) (by decide) (by decide),
    (handleHRANDFIELD_negative_count sampleEnv (fun l => l) sameOrder_perm (fun i => i)
      hashServer "hrandfield" "h" [("a", Value.int 1), ("b", Value.str "x")] (by decide)
      (by decide) (by decide) (by decide)).2.2.1 "-9223372036854775808" (by decide),
    by decide⟩

/-- Witness of C20: `HRANDFIELD h 1` on the hash with the two fields `a` and `b`, and one
round of the removal on the candidates `a`, `b`, `c` at position 1. -/
theorem handleHRANDFIELD_positive_count_witness :
    (nextAnswer hashServer.pending = none ∧ hashServer.present "h" = true ∧
      hashServer.value "h" = Value.hash [("a", Value.int 1), ("b", Value.str "x")] ∧
      (GoMap.keys [("a", Value.int 1), ("b", Value.str "x")]).Nodup ∧
      sampleEnv.Atoi "1" = some 1 ∧ (0 : Int) < 1 ∧
      (1 : Int) < (([("a", Value.int 1), ("b", Value.str "x")] : GoMap Value).length : Int) ∧
      (["a", "b", "c"] : List String).Nodup ∧ 1 < (["a", "b", "c"] : List String).length) ∧
    deleteChosen ["a", "b", "c"] 1 = (["a", "b", "c"] : List String).eraseIdx 1 ∧
    (∃ plucked, plucked.length = (1 : Int).toNat ∧ plucked.Nodup ∧
      (∀ f ∈ plucked, f ∈ GoMap.keys [("a", Value.int 1), ("b", Value.str "x")]) ∧
      (handleHRANDFIELD sampleEnv (fun l => l) (fun _ => 1) ["hrandfield", "h", "1"]
        hashServer).1 =
        fieldsReply sampleEnv false [("a", Value.int 1), ("b", Value.str "x")] plucked) ∧
    (handleHRANDFIELD sampleEnv (fun l => l) (fun _ => 1) ["hrandfield", "h", "1"]
      hashServer).1 = Reply.ok "*1\r\n$1\r\nb\r\n\r\n" ∧
    deleteChosen ["a", "b", "c"] 1 = ["a", "c"] :=
  ⟨⟨by decide, by decide, by decide, by decide, by decide, by decide, by decide, by decide,
      by decide⟩,
    (handleHRANDFIELD_positive_count sampleEnv (fun l => l) sameOrder_perm (fun _ => 1)
      hashServer "hrandfield" "h" [("a", Value.int 1), ("b", Value.str "x")] (by decide)
      (by decide) (by decide) (by decide)).1 ["a", "b", "c"] 1 (by decide) (by decide),
    (handleHRANDFIELD_positive_count sampleEnv (fun l => l) sameOrder_perm (fun _ => 1)
      hashServer "hrandfield" "h" [("a", Value.int 1), ("b", Value.str "x")] (by decide)
      (by decide) (by decide) (by decide)).2.2.1 "1" 1 (by decide) (by decide) (by decide),
    by decide, by decide⟩

/-! ## HSTRLEN and HGET: the reply -/

/-- C21: for an `int` field HSTRLEN prints the number itself where the length of its decimal
form is expected: on the hash with `n` = 42 and `s` = `abc`, `HSTRLEN h n s z` replies 42, 3
and 0, although 42 is written with 2 characters. -/
theorem handleHSTRLEN_int_field_not_length :
    (∀ (env : Env) (d : Int), hstrlenElem env (Value.int d) = ":" ++ toString d ++ "\r\n") ∧
    (handleHSTRLEN sampleEnv ("hstrlen" :: "h" :: "n" :: "s" :: "z" :: []) numberServer).1 =
      Reply.ok "*3\r\n:42\r\n:3\r\n:0\r\n\r\n" ∧
    (toString (42 : Int)).length = 2 := by
  refine ⟨fun _ _ => rfl, by decide, by decide⟩

/-- C22: on an existing hash, with the shared lock granted, HGET replies with the array
header of the number of requested fields, one element per requested field in request order,
and the closing line; the element is the null bulk for a missing field, the bulk string of
the bytes for a string, the integer line for an int and the bulk string of the decimal form
for a float. -/
theorem handleHGET_reply_format (env : Env) (s : Server) (c0 key field : String)
    (more : List String) (hash : GoMap Value)
    (hgrant : nextAnswer s.pending = none) (hp : s.present key = true)
    (hv : s.value key = Value.hash hash) :
    (∃ elems : List String,
      (handleHGET env (c0 :: key :: field :: more) s).1 =
        Reply.ok ("*" ++ toString (field :: more).length ++ "\r\n" ++ String.join elems
          ++ "\r\n") ∧
      elems.length = (field :: more).length ∧
      ∀ (i : Nat) (f : String), (field :: more)[i]? = some f →
        ∃ e, elems[i]? = some e ∧
          (f ∉ GoMap.keys hash → e = "$-1\r\n") ∧
          (∀ str, hashIndex hash f = Value.str str →
            e = "$" ++ toString str.utf8ByteSize ++ "\r\n" ++ str ++ "\r\n") ∧
          (∀ n, hashIndex hash f = Value.int n → e = ":" ++ toString n ++ "\r\n") ∧
          (∀ x, hashIndex hash f = Value.float x →
            e = "$" ++ toString (env.FormatFloat x).utf8ByteSize ++ "\r\n"
              ++ env.FormatFloat x ++ "\r\n")) := by
  refine ⟨(field :: more).map (fun fld => hgetElem env (hashIndex hash fld)), ?_, ?_, ?_⟩
  · simp [handleHGET, Server.KeyExists, Server.KeyRLock, Server.GetValue, Server.KeyRUnlock,
      hgrant, hp, hv, Value.asHash, arrayHeader]
  · simp
  · intro i f hf
    refine ⟨hgetElem env (hashIndex hash f), ?_, ?_, ?_, ?_, ?_⟩
    · rw [List.getElem?_map, hf]; rfl
    · intro hmem
      rw [hashIndex_of_not_mem hash f hmem]; rfl
    · intro str h; rw [h]; rfl
    · intro n h; rw [h]; rfl
    · intro x h; rw [h]; rfl

theorem handleHGET_reply_format_witness :
    (∃ elems : List String,
      (handleHGET sampleEnv ("hget" :: "h" :: "a" :: "z" :: "b" :: []) hashServer).1 =
        Reply.ok ("*" ++ toString ("a" :: "z" :: "b" :: []).length ++ "\r\n"
          ++ String.join elems ++ "\r\n") ∧
      elems.length = ("a" :: "z" :: "b" :: []).length ∧
      ∀ (i : Nat) (f : String), ("a" :: "z" :: "b" :: [])[i]? = some f →
        ∃ e, elems[i]? = some e ∧
          (f ∉ GoMap.keys [("a", Value.int 1), ("b", Value.str "x")] → e = "$-1\r\n") ∧
          (∀ str, hashIndex [("a", Value.int 1), ("b", Value.str "x")] f = Value.str str →
            e = "$" ++ toString str.utf8ByteSize ++ "\r\n" ++ str ++ "\r\n") ∧
          (∀ n, hashIndex [("a", Value.int 1), ("b", Value.str "x")] f = Value.int n →
            e = ":" ++ toString n ++ "\r\n") ∧
          (∀ x, hashIndex [("a", Value.int 1), ("b", Value.str "x")] f = Value.float x →
            e = "$" ++ toString (sampleEnv.FormatFloat x).utf8ByteSize ++ "\r\n"
              ++ sampleEnv.FormatFloat x ++ "\r\n")) ∧
    (handleHGET sampleEnv ("hget" :: "h" :: "a" :: "z" :: "b" :: []) hashServer).1 =
      Reply.ok "*3\r\n:1\r\n$-1\r\n$1\r\nx\r\n\r\n" :=
  ⟨handleHGET_reply_format sampleEnv hashServer "hget" "h" "a" ("z" :: "b" :: [])
    [("a", Value.int 1), ("b", Value.str "x")] (by decide) (by decide) (by decide),
   by decide⟩

/-! ## The closing blank line of the replies -/

theorem subscribe_reply_not_blank : ¬ EndsBlankLine "+SUBSCRIBE_OK\r\n\n" := by
  unfold EndsBlankLine
  decide

theorem ok_blank : EndsBlankLine "+OK\r\n\r\n" := by
  unfold EndsBlankLine
  decide

theorem endsBlankLine_append (x : String) : EndsBlankLine (x ++ "\r\n\r\n") := by
  unfold EndsBlankLine
  rw [String.data_append]
  exact List.suffix_append _ _

theorem endsLine_append (x : String) : EndsLine (x ++ "\r\n") := by
  unfold EndsLine
  rw [String.data_append]
  exact List.suffix_append _ _

theorem endsLine_append_of (x y : String) (hy : EndsLine y) : EndsLine (x ++ y) := by
  unfold EndsLine at *
  rw [String.data_append]
  exact hy.trans (List.suffix_append _ _)

theorem endsBlankLine_of_endsLine (x : String) (h : EndsLine x) :
    EndsBlankLine (x ++ "\r\n") := by
  unfold EndsLine at h
  unfold EndsBlankLine
  obtain ⟨t, ht⟩ := h
  rw [String.data_append, ← ht]
  exact ⟨t, by simp⟩

theorem endsLine_join (x : String) (l : List String) (hx : EndsLine x)
    (hl : ∀ e ∈ l, e = "" ∨ EndsLine e) : EndsLine (x ++ String.join l) := by
  induction l using List.reverseRecOn with
  | nil =>
    have : String.join [] = "" := rfl
    rw [this, String.append_empty]; exact hx
  | append_singleton rest e ih =>
    have hj : String.join (rest ++ [e]) = String.join rest ++ e := by
      simp [String.join, List.foldl_append]
    rw [hj, ← String.append_assoc]
    rcases hl e (by simp) with he | he
    · rw [he, String.append_empty]
      exact ih (fun a ha => hl a (by simp [ha]))
    · exact endsLine_append_of _ _ he

theorem blank_error (msg : String) : BlankTerminated (Reply.error msg) := by
  intro bytes h; cases h

theorem blank_panic : BlankTerminated Reply.panic := by
  intro bytes h; cases h

theorem blank_ok (bytes : String) (h : EndsBlankLine bytes) :
    BlankTerminated (Reply.ok bytes) := by
  intro b hb
  cases hb
  exact h

theorem blank_list (n : Nat) (elems : List String)
    (hl : ∀ e ∈ elems, e = "" ∨ EndsLine e) :
    BlankTerminated (Reply.ok (arrayHeader n ++ String.join elems ++ "\r\n")) :=
  blank_ok _ (endsBlankLine_of_endsLine _ (endsLine_join _ _ (endsLine_append _) hl))

theorem endsLine_bulk (s : String) : EndsLine (bulk s) := endsLine_append _

theorem endsLine_integer (d : Int) : EndsLine (integer d) := endsLine_append _

theorem endsLine_hgetElem (env : Env) (v : Value) : EndsLine (hgetElem env v) := by
  cases v
  · exact endsLine_append "$-1"
  · exact endsLine_integer _
  · exact endsLine_bulk _
  · exact endsLine_bulk _
  · exact endsLine_append "$-1"

theorem endsLine_hstrlenElem (env : Env) (v : Value) : EndsLine (hstrlenElem env v) := by
  cases v
  · exact endsLine_append ":0"
  · exact endsLine_integer _
  · exact endsLine_integer _
  · exact endsLine_integer _
  · exact endsLine_append ":0"

theorem endsLine_valueElem (env : Env) (v : Value) :
    valueElem env v = "" ∨ EndsLine (valueElem env v) := by
  cases v
  · exact Or.inl rfl
  · exact Or.inr (endsLine_integer _)
  · exact Or.inr (endsLine_bulk _)
  · exact Or.inr (endsLine_bulk _)
  · exact Or.inl rfl

theorem endsLine_fieldElem (env : Env) (withvalues : Bool) (hash : GoMap Value)
    (field : String) : EndsLine (fieldElem env withvalues hash field) := by
  unfold fieldElem
  cases withvalues
  · simp only [Bool.false_eq_true, if_false, String.append_empty]
    exact endsLine_bulk _
  · simp only [if_true]
    rcases endsLine_valueElem env (hashIndex hash field) with h | h
    · rw [h, String.append_empty]; exact endsLine_bulk _
    · exact endsLine_append_of _ _ h

theorem handleHGET_blank (env : Env) (cmd : List String) (s : Server) :
    BlankTerminated (handleHGET env cmd s).1 := by
  unfold handleHGET
  split
  · rename_i c0 key field more
    cases hp : s.present key <;> cases ha : nextAnswer s.pending <;>
      cases hv : (s.value key).asHash
    all_goals
      simp only [Server.KeyExists, Server.KeyRLock, Server.GetValue, Server.KeyRUnlock,
        hp, ha, hv, if_true]
    all_goals first
      | exact blank_error _
      | exact blank_ok _ (endsBlankLine_append "$-1")
      | exact blank_list _ _ (by
          intro e he
          simp only [List.mem_map] at he
          obtain ⟨f, _, rfl⟩ := he
          exact Or.inr (endsLine_hgetElem env _))
  · exact blank_error _

theorem handleHSTRLEN_blank (env : Env) (cmd : List String) (s : Server) :
    BlankTerminated (handleHSTRLEN env cmd s).1 := by
  unfold handleHSTRLEN
  split
  · rename_i c0 key field more
    cases hp : s.present key <;> cases ha : nextAnswer s.pending <;>
      cases hv : (s.value key).asHash
    all_goals
      simp only [Server.KeyExists, Server.KeyRLock, Server.GetValue, Server.KeyRUnlock,
        hp, ha, hv, if_true]
    all_goals first
      | exact blank_error _
      | exact blank_ok _ (endsBlankLine_append "$-1")
      | exact blank_list _ _ (by
          intro e he
          simp only [List.mem_map] at he
          obtain ⟨f, _, rfl⟩ := he
          exact Or.inr (endsLine_hstrlenElem env _))
  · exact blank_error _

theorem handleHVALS_blank (env : Env) (ord : List String → List String)
    (cmd : List String) (s : Server) : BlankTerminated (handleHVALS env ord cmd s).1 := by
  unfold handleHVALS
  split
  · rename_i c0 key
    cases hp : s.present key <;> cases ha : nextAnswer s.pending <;>
      cases hv : (s.value key).asHash
    all_goals
      simp only [Server.KeyExists, Server.KeyRLock, Server.GetValue, Server.KeyRUnlock,
        hp, ha, hv, if_true]
    all_goals first
      | exact blank_error _
      | exact blank_ok _ (endsBlankLine_append "*0")
      | exact blank_list _ _ (by
          intro e he
          simp only [List.mem_map] at he
          obtain ⟨f, _, rfl⟩ := he
          exact endsLine_valueElem env _)
  · exact blank_error _

theorem handleHKEYS_blank (env : Env) (ord : List String → List String)
    (cmd : List String) (s : Server) : BlankTerminated (handleHKEYS env ord cmd s).1 := by
  unfold handleHKEYS
  split
  · rename_i c0 key
    cases hp : s.present key <;> cases ha : nextAnswer s.pending <;>
      cases hv : (s.value key).asHash
    all_goals
      simp only [Server.KeyExists, Server.KeyRLock, Server.GetValue, Server.KeyRUnlock,
        hp, ha, hv, if_true]
    all_goals first
      | exact blank_error _
      | exact blank_ok _ (endsBlankLine_append "*0")
      | exact blank_list _ _ (by
          intro e he
          simp only [List.mem_map] at he
          obtain ⟨f, _, rfl⟩ := he
          exact Or.inr (endsLine_bulk _))
  · exact blank_error _

theorem handleHGETALL_blank (env : Env) (ord : List String → List String)
    (cmd : List String) (s : Server) : BlankTerminated (handleHGETALL env ord cmd s).1 := by
  unfold handleHGETALL
  split
  · rename_i c0 key
    cases hp : s.present key <;> cases ha : nextAnswer s.pending <;>
      cases hv : (s.value key).asHash
    all_goals
      simp only [Server.KeyExists, Server.KeyRLock, Server.GetValue, Server.KeyRUnlock,
        hp, ha, hv, if_true]
    all_goals first
      | exact blank_error _
      | exact blank_ok _ (endsBlankLine_append "*0")
      | exact blank_list _ _ (by
          intro e he
          simp only [List.mem_map] at he
          obtain ⟨f, _, rfl⟩ := he
          exact Or.inr (endsLine_fieldElem env _ _ _))
  · exact blank_error _

theorem handleHLEN_blank (env : Env) (cmd : List String) (s : Server) :
    BlankTerminated (handleHLEN env cmd s).1 := by
  unfold handleHLEN
  split
  · rename_i c0 key
    cases hp : s.present key <;> cases ha : nextAnswer s.pending <;>
      cases hv : (s.value key).asHash
    all_goals
      simp only [Server.KeyExists, Server.KeyRLock, Server.GetValue, Server.KeyRUnlock,
        hp, ha, hv, if_true]
    all_goals first
      | exact blank_error _
      | exact blank_ok _ (endsBlankLine_append ":0")
      | exact blank_ok _ (endsBlankLine_append _)
  · exact blank_error _

theorem handleHEXISTS_blank (env : Env) (cmd : List String) (s : Server) :
    BlankTerminated (handleHEXISTS env cmd s).1 := by
  unfold handleHEXISTS
  split
  · rename_i c0 key field
    cases hp : s.present key <;> cases ha : nextAnswer s.pending <;>
      cases hv : (s.value key).asHash
    all_goals
      simp only [Server.KeyExists, Server.KeyRLock, Server.GetValue, Server.KeyRUnlock,
        hp, ha, hv, if_true]
    all_goals first
      | exact blank_error _
      | exact blank_ok _ (endsBlankLine_append ":0")
      | (split
         · exact blank_ok _ (endsBlankLine_append ":1")
         · exact blank_ok _ (endsBlankLine_append ":0"))
  · exact blank_error _

theorem hrandfieldBody_blank (env : Env) (ord : List String → List String)
    (rnd : Nat → Nat) (key : String) (count : Int) (withvalues : Bool) (s : Server) :
    BlankTerminated (hrandfieldBody env ord rnd key count withvalues s).1 := by
  unfold hrandfieldBody
  cases hp : s.present key <;> cases ha : nextAnswer s.pending <;>
    cases hv : (s.value key).asHash
  all_goals
    simp only [Server.KeyExists, Server.KeyRLock, Server.GetValue, Server.KeyRUnlock,
      hp, ha, hv, if_true]
  all_goals first
    | exact blank_error _
    | exact blank_ok _ (endsBlankLine_append "*0")
    | (split
       · exact blank_list _ _ (by
          intro e he
          simp only [List.mem_map] at he
          obtain ⟨f, _, rfl⟩ := he
          exact Or.inr (endsLine_fieldElem env _ _ _))
       · split
         · exact blank_panic
         · exact blank_list _ _ (by
            intro e he
            simp only [List.mem_map] at he
            obtain ⟨f, _, rfl⟩ := he
            exact Or.inr (endsLine_fieldElem env _ _ _)))

theorem handleHRANDFIELD_blank (env : Env) (ord : List String → List String)
    (rnd : Nat → Nat) (cmd : List String) (s : Server) :
    BlankTerminated (handleHRANDFIELD env ord rnd cmd s).1 := by
  unfold handleHRANDFIELD
  split
  · exact hrandfieldBody_blank env ord rnd _ _ _ s
  · split
    · exact blank_error _
    · split
      · exact blank_ok _ (endsBlankLine_append "*0")
      · exact hrandfieldBody_blank env ord rnd _ _ _ s
  · split
    · exact blank_error _
    · split
      · exact blank_ok _ (endsBlankLine_append "*0")
      · split
        · exact hrandfieldBody_blank env ord rnd _ _ _ s
        · exact blank_error _
  · exact blank_error _

theorem handleHSET_blank (env : Env) (ord : List String → List String)
    (cmd : List String) (s : Server) : BlankTerminated (handleHSET env ord cmd s).1 := by
  unfold handleHSET
  split
  · rename_i c0 key f v more
    split
    · exact blank_error _
    · cases hp : s.present key <;> cases ha : nextAnswer s.pending <;>
        cases hv : (s.value key).asHash
      all_goals
        simp only [Server.KeyExists, Server.CreateKeyAndLock, Server.KeyLock,
          Server.GetValue, Server.SetValue, Server.KeyUnlock, hp, ha, hv, if_true,
          Bool.false_eq_true, if_false]
      all_goals first
        | exact blank_error _
        | exact blank_ok _ (endsBlankLine_append _)
  · exact blank_error _

theorem handleHDEL_blank (env : Env) (cmd : List String) (s : Server) :
    BlankTerminated (handleHDEL env cmd s).1 := by
  unfold handleHDEL
  split
  · rename_i c0 key field more
    cases hp : s.present key <;> cases ha : nextAnswer s.pending <;>
      cases hv : (s.value key).asHash
    all_goals
      simp only [Server.KeyExists, Server.KeyLock, Server.GetValue, Server.SetValue,
        Server.KeyUnlock, hp, ha, hv, if_true]
    all_goals first
      | exact blank_error _
      | exact blank_ok _ (endsBlankLine_append ":0")
      | exact blank_ok _ (endsBlankLine_append _)
  · exact blank_error _

theorem incrbyBody_blank (env : Env) (key field : String) (inc : Increment) (s : Server) :
    BlankTerminated (incrbyBody env key field inc s).1 := by
  unfold incrbyBody
  cases hp : s.present key <;> cases ha : nextAnswer s.pending <;>
    cases hv : (s.value key).asHash <;> cases inc
  all_goals
    simp only [Server.KeyExists, Server.CreateKeyAndLock, Server.KeyLock, Server.GetValue,
      Server.SetValue, Server.KeyUnlock, hp, ha, hv, if_true, Bool.false_eq_true, if_false]
  all_goals first
    | exact blank_error _
    | exact blank_ok _ (endsBlankLine_append _)
    | (split
       · exact blank_error _
       · split <;> exact blank_ok _ (endsBlankLine_append _))

theorem handleINCRBY_blank (env : Env) (cmd : List String) (s : Server) :
    BlankTerminated (handleINCRBY env cmd s).1 := by
  unfold handleINCRBY
  split
  · split
    · split
      · exact blank_error _
      · exact incrbyBody_blank env _ _ _ s
    · split
      · exact blank_error _
      · exact incrbyBody_blank env _ _ _ s
  · exact blank_error _

/-- C23: every success reply of every hash handler ends with the line terminator followed
by the blank line, but the reply of SUBSCRIBE does not: `handleSubscribe` answers
`+SUBSCRIBE_OK\r\n\n`, whose last four bytes are `K`, CR, LF, LF. -/
theorem handleSubscribe_reply_lacks_blank_line :
    (∀ (env : Env) (ord : List String → List String) (rnd : Nat → Nat) (cmd : List String)
        (s : Server),
      BlankTerminated (handleHSET env ord cmd s).1 ∧
      BlankTerminated (handleHGET env cmd s).1 ∧
      BlankTerminated (handleHSTRLEN env cmd s).1 ∧
      BlankTerminated (handleHVALS env ord cmd s).1 ∧
      BlankTerminated (handleHRANDFIELD env ord rnd cmd s).1 ∧
      BlankTerminated (handleHLEN env cmd s).1 ∧
      BlankTerminated (handleHKEYS env ord cmd s).1 ∧
      BlankTerminated (handleINCRBY env cmd s).1 ∧
      BlankTerminated (handleHGETALL env ord cmd s).1 ∧
      BlankTerminated (handleHEXISTS env cmd s).1 ∧
      BlankTerminated (handleHDEL env cmd s).1) ∧
    (handleSubscribe sampleEnv true ("subscribe" :: "news" :: [])).1 =
      Reply.ok "+SUBSCRIBE_OK\r\n\n" ∧
    ¬ EndsBlankLine "+SUBSCRIBE_OK\r\n\n" ∧
    ¬ BlankTerminated (handleSubscribe sampleEnv true ("subscribe" :: "news" :: [])).1 ∧
    "+SUBSCRIBE_OK\r\n\n".data.drop ("+SUBSCRIBE_OK\r\n\n".data.length - 4) =
      Char.ofNat 75 :: Char.ofNat 13 :: Char.ofNat 10 :: Char.ofNat 10 :: [] := by
  refine ⟨fun env ord rnd cmd s =>
    ⟨handleHSET_blank env ord cmd s, handleHGET_blank env cmd s,
      handleHSTRLEN_blank env cmd s, handleHVALS_blank env ord cmd s,
      handleHRANDFIELD_blank env ord rnd cmd s, handleHLEN_blank env cmd s,
      handleHKEYS_blank env ord cmd s, handleINCRBY_blank env cmd s,
      handleHGETALL_blank env ord cmd s, handleHEXISTS_blank env cmd s,
      handleHDEL_blank env cmd s⟩, rfl, subscribe_reply_not_blank, ?_, by decide⟩
  intro h
  exact subscribe_reply_not_blank (h _ rfl)

/-! ## The commands of `pubsub` -/

theorem handlePublish_accepts (env : Env) (cmd : List String) :
    Accepted env (handlePublish env true cmd) ↔ cmd.length = 2 ∨ cmd.length = 3 := by
  rcases cmd with _ | ⟨a, _ | ⟨b, _ | ⟨c, _ | ⟨d, l⟩⟩⟩⟩ <;>
    simp [Accepted, handlePublish]

theorem handleSubscribe_accepts (env : Env) (cmd : List String) :
    Accepted env (handleSubscribe env true cmd) ↔
      cmd.length = 1 ∨ cmd.length = 2 ∨ cmd.length = 3 := by
  rcases cmd with _ | ⟨a, _ | ⟨b, _ | ⟨c, _ | ⟨d, l⟩⟩⟩⟩ <;>
    simp [Accepted, handleSubscribe]

theorem handleUnsubscribe_accepts (env : Env) (cmd : List String) :
    Accepted env (handleUnsubscribe env true cmd) ↔ cmd.length = 1 ∨ cmd.length = 2 := by
  rcases cmd with _ | ⟨a, _ | ⟨b, _ | ⟨c, l⟩⟩⟩ <;>
    simp [Accepted, handleUnsubscribe]

theorem publishKeyExtraction_accepts (env : Env) (cmd : List String) :
    Extracted (publishKeyExtraction env cmd) ↔ cmd.length = 3 := by
  unfold Extracted publishKeyExtraction
  by_cases h : cmd.length = 3 <;> simp [h]

theorem subscribeKeyExtraction_accepts (env : Env) (cmd : List String) :
    Extracted (subscribeKeyExtraction env cmd) ↔ 2 ≤ cmd.length := by
  unfold Extracted subscribeKeyExtraction
  by_cases h : cmd.length < 2
  · simp [h]
  · simp [h]; omega

theorem unsubscribeKeyExtraction_accepts (env : Env) (cmd : List String) :
    Extracted (unsubscribeKeyExtraction env cmd) ↔ cmd.length = 2 := by
  unfold Extracted unsubscribeKeyExtraction
  by_cases h : cmd.length = 2 <;> simp [h]

/-- C24: the handlers take PUBLISH with 2 or 3 tokens, SUBSCRIBE with 1 to 3 and
UNSUBSCRIBE with 1 or 2, but the key extractors of the same commands do not: that of
PUBLISH takes 3 tokens only, that of SUBSCRIBE any count from 2 up, that of UNSUBSCRIBE 2
only.  Key extraction fails for `PUBLISH hello`, for a bare SUBSCRIBE and for a bare
UNSUBSCRIBE, which the handlers take, and succeeds for SUBSCRIBE with 4 tokens, which the
handler refuses. -/
theorem pubsub_key_extraction_differs_from_handlers :
    (∀ (env : Env) (cmd : List String),
      (Accepted env (handlePublish env true cmd) ↔ cmd.length = 2 ∨ cmd.length = 3) ∧
      (Accepted env (handleSubscribe env true cmd) ↔
        cmd.length = 1 ∨ cmd.length = 2 ∨ cmd.length = 3) ∧
      (Accepted env (handleUnsubscribe env true cmd) ↔ cmd.length = 1 ∨ cmd.length = 2) ∧
      (Extracted (publishKeyExtraction env cmd) ↔ cmd.length = 3) ∧
      (Extracted (subscribeKeyExtraction env cmd) ↔ 2 ≤ cmd.length) ∧
      (Extracted (unsubscribeKeyExtraction env cmd) ↔ cmd.length = 2)) ∧
    publishKeyExtraction sampleEnv ("publish" :: "hello" :: []) =
      Except.error "wrong number of arguments" ∧
    handlePublish sampleEnv true ("publish" :: "hello" :: []) =
      (Reply.ok "+OK\r\n\r\n", [PubSubCall.publish "hello" none]) ∧
    subscribeKeyExtraction sampleEnv ("subscribe" :: []) =
      Except.error "wrong number of arguments" ∧
    handleSubscribe sampleEnv true ("subscribe" :: []) =
      (Reply.ok "+SUBSCRIBE_OK\r\n\n", [PubSubCall.subscribe none none]) ∧
    unsubscribeKeyExtraction sampleEnv ("unsubscribe" :: []) =
      Except.error "wrong number of arguments" ∧
    handleUnsubscribe sampleEnv true ("unsubscribe" :: []) =
      (Reply.ok "+OK\r\n\r\n", [PubSubCall.unsubscribe none]) ∧
    subscribeKeyExtraction sampleEnv ("subscribe" :: "c" :: "g" :: "x" :: []) =
      Except.ok ("c" :: []) ∧
    handleSubscribe sampleEnv true ("subscribe" :: "c" :: "g" :: "x" :: []) =
      (Reply.error "wrong number of arguments", []) := by
  refine ⟨fun env cmd => ⟨handlePublish_accepts env cmd, handleSubscribe_accepts env cmd,
    handleUnsubscribe_accepts env cmd, publishKeyExtraction_accepts env cmd,
    subscribeKeyExtraction_accepts env cmd, unsubscribeKeyExtraction_accepts env cmd⟩,
    rfl, rfl, rfl, rfl, rfl, rfl, rfl, rfl⟩

/-! ## The fields of a hash hold an int, a float or a string -/

theorem asHash_eq_some (v : Value) (hash : GoMap Value) (h : v.asHash = some hash) :
    v = Value.hash hash := by
  cases v <;> simp [Value.asHash] at h
  rw [h]

theorem scalarFields_put (m : GoMap Value) (k : String) (v : Value) (hm : ScalarFields m)
    (hv : v.isScalar = true) : ScalarFields (GoMap.put m k v) := by
  induction m with
  | nil =>
    intro p hp
    simp [GoMap.put] at hp
    rw [hp]; exact hv
  | cons q rest ih =>
    obtain ⟨k1, v1⟩ := q
    have hrest : ScalarFields rest := fun p hp => hm p (List.mem_cons_of_mem _ hp)
    intro p hp
    by_cases hk : k1 = k
    · simp only [GoMap.put, hk, if_true, List.mem_cons] at hp
      rcases hp with hp | hp
      · rw [hp]; exact hv
      · exact hrest p hp
    · simp only [GoMap.put, hk, if_false, List.mem_cons] at hp
      rcases hp with hp | hp
      · rw [hp]; exact hm (k1, v1) (List.mem_cons_self _ _)
      · exact ih hrest p hp

theorem scalarFields_del (m : GoMap Value) (k : String) (hm : ScalarFields m) :
    ScalarFields (GoMap.del m k) := by
  intro p hp
  exact hm p (List.mem_of_mem_filter hp)

theorem scalar_hashIndex (m : GoMap Value) (k : String) (hm : ScalarFields m)
    (hk : k ∈ GoMap.keys m) : (hashIndex m k).isScalar = true := by
  induction m with
  | nil => simp [GoMap.keys] at hk
  | cons q rest ih =>
    obtain ⟨k1, v1⟩ := q
    unfold hashIndex
    rw [GoMap.find_cons]
    by_cases h : k = k1
    · simp only [h, if_true, Option.getD_some]
      exact hm (k1, v1) (List.mem_cons_self _ _)
    · simp only [h, if_false]
      have hk2 : k ∈ GoMap.keys rest := by
        simp only [GoMap.keys, List.map_cons, List.mem_cons] at hk
        rcases hk with hk | hk
        · exact absurd hk h
        · exact hk
      exact ih (fun p hp => hm p (List.mem_cons_of_mem _ hp)) hk2

theorem scalarFields_extractFields (env : Env)
    (hA : ∀ tok, (env.AdaptType tok).isScalar = true) (args : List String) :
    ∀ m : GoMap Value, ScalarFields m → ScalarFields (extractFields env args m) := by
  induction args using pairs_induction with
  | h0 => intro m h; simpa [extractFields] using h
  | h1 a => intro m h; simpa [extractFields] using h
  | h2 a b rest ih =>
    intro m h
    simp only [extractFields]
    exact ih _ (scalarFields_put m a _ h (hA b))

theorem scalarFields_hsetLoop (nx : Bool) (entries : GoMap Value)
    (he : ScalarFields entries) (ks : List String) :
    ∀ (hash : GoMap Value) (count : Nat), (∀ k ∈ ks, k ∈ GoMap.keys entries) →
      ScalarFields hash → ScalarFields (hsetLoop nx ks entries hash count).1 := by
  induction ks with
  | nil => intro hash count _ h; simpa [hsetLoop] using h
  | cons k rest ih =>
    intro hash count hks h
    have hk : (hashIndex entries k).isScalar = true :=
      scalar_hashIndex entries k he (hks k (List.mem_cons_self _ _))
    have hrest : ∀ x ∈ rest, x ∈ GoMap.keys entries :=
      fun x hx => hks x (List.mem_cons_of_mem _ hx)
    cases nx
    · simp only [hsetLoop, Bool.false_eq_true, if_false]
      exact ih _ _ hrest (scalarFields_put hash k _ h hk)
    · simp only [hsetLoop, if_true]
      split
      · exact ih _ _ hrest (scalarFields_put hash k _ h hk)
      · exact ih _ _ hrest h

theorem scalarFields_hdelLoop (fields : List String) :
    ∀ (hash : GoMap Value) (count : Nat),
      ScalarFields hash → ScalarFields (hdelLoop fields hash count).1 := by
  induction fields with
  | nil => intro hash count h; simpa [hdelLoop] using h
  | cons f rest ih =>
    intro hash count h
    simp only [hdelLoop]
    split
    · exact ih _ _ (scalarFields_del hash f h)
    · exact ih _ _ h

theorem keepsScalar_of_write (s : Server) (r : Reply × Server) (key : String)
    (hash : GoMap Value) (evs : List Event) (hs : HashesScalar s) (hh : ScalarFields hash)
    (hval : r.2.value = fun k => if k = key then Value.hash hash else s.value k)
    (hlog : r.2.log = s.log ++ evs) (hw : writes evs = [(key, Value.hash hash)]) :
    KeepsScalar s r := by
  refine ⟨?_, evs, hlog, ?_⟩
  · intro k h1 hk
    rw [hval] at hk
    by_cases hkk : k = key
    · simp only [hkk, if_true, Value.hash.injEq] at hk
      rw [← hk]; exact hh
    · simp only [hkk, if_false] at hk
      exact hs k h1 hk
  · intro kv hkv
    rw [hw] at hkv
    simp only [List.mem_singleton] at hkv
    exact ⟨hash, by rw [hkv], hh⟩

theorem keepsScalar_of_no_write (s : Server) (r : Reply × Server) (evs : List Event)
    (hs : HashesScalar s) (hval : r.2.value = s.value)
    (hlog : r.2.log = s.log ++ evs) (hw : writes evs = []) :
    KeepsScalar s r := by
  refine ⟨?_, evs, hlog, ?_⟩
  · intro k h1 hk
    rw [hval] at hk
    exact hs k h1 hk
  · intro kv hkv
    rw [hw] at hkv
    simp at hkv

theorem keepsScalar_of_readOnly (s : Server) (r : Reply × Server) (hs : HashesScalar s)
    (h : ReadOnly s r) : KeepsScalar s r := by
  obtain ⟨hval, _, _, _, evs, hlog, _, hw⟩ := h
  exact keepsScalar_of_no_write s r evs hs hval hlog hw

theorem handleHDEL_keepsScalar (env : Env) (cmd : List String) (s : Server)
    (hs : HashesScalar s) : KeepsScalar s (handleHDEL env cmd s) := by
  unfold handleHDEL
  split
  · rename_i c0 key field more
    cases hp : s.present key <;> cases ha : nextAnswer s.pending <;>
      cases hv : (s.value key).asHash
    all_goals
      simp only [Server.KeyExists, Server.KeyLock, Server.GetValue, Server.SetValue,
        Server.KeyUnlock, hp, ha, hv, if_true]
    all_goals try simp only [List.append_assoc]
    all_goals first
      | exact keepsScalar_of_no_write s _ _ hs rfl rfl rfl
      | exact keepsScalar_of_write s _ key _ _ hs
          (scalarFields_hdelLoop _ _ _ (hs key _ (asHash_eq_some _ _ hv))) rfl rfl rfl
  · exact keepsScalar_of_no_write s _ [] hs rfl (by simp) rfl

theorem incrbyBody_keepsScalar (env : Env) (key field : String) (inc : Increment)
    (s : Server) (hs : HashesScalar s) : KeepsScalar s (incrbyBody env key field inc s) := by
  unfold incrbyBody
  cases hp : s.present key <;> cases ha : nextAnswer s.pending <;>
    cases hv : (s.value key).asHash <;> cases inc
  all_goals
    simp only [Server.KeyExists, Server.CreateKeyAndLock, Server.KeyLock, Server.GetValue,
      Server.SetValue, Server.KeyUnlock, hp, ha, hv, if_true, Bool.false_eq_true, if_false]
  all_goals try simp only [List.append_assoc]
  all_goals try (first
    | exact keepsScalar_of_no_write s _ _ hs rfl rfl rfl
    | exact keepsScalar_of_write s _ key _ _ hs
        (by intro p hp; simp only [List.mem_singleton] at hp; rw [hp]; rfl) rfl rfl rfl)
  all_goals
    rename_i hash0 incr
    have h0 : ScalarFields hash0 := hs key _ (asHash_eq_some _ _ hv)
    generalize hh : (if hashIndex hash0 field = Value.nil then
      GoMap.put hash0 field (Value.int 0) else hash0) = hash
    have hsc : ScalarFields hash := by
      rw [← hh]
      split
      · exact scalarFields_put _ _ _ h0 rfl
      · exact h0
    cases hx : hashIndex hash field <;> simp only []
    all_goals first
      | exact keepsScalar_of_no_write s _ _ hs rfl rfl rfl
      | (split <;>
          (refine keepsScalar_of_write s _ key _ _ hs (scalarFields_put _ _ _ hsc ?_)
            rfl rfl rfl
           rfl))

theorem handleINCRBY_keepsScalar (env : Env) (cmd : List String) (s : Server)
    (hs : HashesScalar s) : KeepsScalar s (handleINCRBY env cmd s) := by
  unfold handleINCRBY
  split
  · split
    · split
      · exact keepsScalar_of_no_write s _ [] hs rfl (by simp) rfl
      · exact incrbyBody_keepsScalar env _ _ _ s hs
    · split
      · exact keepsScalar_of_no_write s _ [] hs rfl (by simp) rfl
      · exact incrbyBody_keepsScalar env _ _ _ s hs
  · exact keepsScalar_of_no_write s _ [] hs rfl (by simp) rfl

theorem handleHSET_keepsScalar (env : Env) (ord : List String → List String)
    (cmd : List String) (s : Server) (hA : ∀ tok, (env.AdaptType tok).isScalar = true)
    (hord : ∀ l, (ord l).Perm l) (hs : HashesScalar s) :
    KeepsScalar s (handleHSET env ord cmd s) := by
  unfold handleHSET
  split
  · rename_i c0 key f v more
    have he : ScalarFields (extractFields env (f :: v :: more) []) :=
      scalarFields_extractFields env hA _ [] (by intro p hp; simp at hp)
    split
    · exact keepsScalar_of_no_write s _ [] hs rfl (by simp) rfl
    · cases hp : s.present key <;> cases ha : nextAnswer s.pending <;>
        cases hv : (s.value key).asHash
      all_goals
        simp only [Server.KeyExists, Server.CreateKeyAndLock, Server.KeyLock,
          Server.GetValue, Server.SetValue, Server.KeyUnlock, hp, ha, hv, if_true,
          Bool.false_eq_true, if_false]
      all_goals try simp only [List.append_assoc]
      all_goals first
        | exact keepsScalar_of_no_write s _ _ hs rfl rfl rfl
        | exact keepsScalar_of_write s _ key _ _ hs he rfl rfl rfl
        | exact keepsScalar_of_write s _ key _ _ hs
            (scalarFields_hsetLoop _ _ he _ _ _ (fun k hk => (hord _).subset hk)
              (hs key _ (asHash_eq_some _ _ hv))) rfl rfl rfl
  · exact keepsScalar_of_no_write s _ [] hs rfl (by simp) rfl

theorem sampleAdapt_scalar (tok : String) : (sampleEnv.AdaptType tok).isScalar = true := by
  show (sampleAdapt tok).isScalar = true
  unfold sampleAdapt
  split <;> rfl

theorem hashServer_scalar : HashesScalar hashServer := by
  intro k hash h
  by_cases hk : k = "h"
  · subst hk
    have h2 : hash = [("a", Value.int 1), ("b", Value.str "x")] := by
      simp [hashServer] at h
      exact h.symm
    rw [h2]
    intro p hp
    simp only [List.mem_cons, List.mem_singleton, List.not_mem_nil, or_false] at hp
    rcases hp with hp | hp <;> rw [hp] <;> rfl
  · simp [hashServer, hk] at h

/-- C25: when the coercion helper returns only an int, a float or a string and every field
of every hash of the store holds an int, a float or a string, the same is true of the store
that any hash handler leaves - HSET and HSETNX, HINCRBY and HINCRBYFLOAT, HDEL and the
read commands, for every token list, on the success and on the error returns - and every
value that the handler handed to `SetValue` is a hash whose fields all hold an int, a float
or a string: never a nested hash, never the nil value. -/
theorem hash_commands_keep_fields_scalar (env : Env) (ord : List String → List String)
    (rnd : Nat → Nat) (cmd : List String) (s : Server)
    (hA : ∀ tok, (env.AdaptType tok).isScalar = true) (hord : ∀ l, (ord l).Perm l)
    (hs : HashesScalar s) :
    KeepsScalar s (handleHSET env ord cmd s) ∧
    KeepsScalar s (handleINCRBY env cmd s) ∧
    KeepsScalar s (handleHDEL env cmd s) ∧
    KeepsScalar s (handleHGET env cmd s) ∧
    KeepsScalar s (handleHSTRLEN env cmd s) ∧
    KeepsScalar s (handleHVALS env ord cmd s) ∧
    KeepsScalar s (handleHKEYS env ord cmd s) ∧
    KeepsScalar s (handleHGETALL env ord cmd s) ∧
    KeepsScalar s (handleHLEN env cmd s) ∧
    KeepsScalar s (handleHEXISTS env cmd s) ∧
    KeepsScalar s (handleHRANDFIELD env ord rnd cmd s) :=
  ⟨handleHSET_keepsScalar env ord cmd s hA hord hs,
    handleINCRBY_keepsScalar env cmd s hs,
    handleHDEL_keepsScalar env cmd s hs,
    keepsScalar_of_readOnly s _ hs (handleHGET_readOnly env cmd s),
    keepsScalar_of_readOnly s _ hs (handleHSTRLEN_readOnly env cmd s),
    keepsScalar_of_readOnly s _ hs (handleHVALS_readOnly env ord cmd s),
    keepsScalar_of_readOnly s _ hs (handleHKEYS_readOnly env ord cmd s),
    keepsScalar_of_readOnly s _ hs (handleHGETALL_readOnly env ord cmd s),
    keepsScalar_of_readOnly s _ hs (handleHLEN_readOnly env cmd s),
    keepsScalar_of_readOnly s _ hs (handleHEXISTS_readOnly env cmd s),
    keepsScalar_of_readOnly s _ hs (handleHRANDFIELD_readOnly env ord rnd cmd s)⟩

theorem hash_commands_keep_fields_scalar_witness :
    HashesScalar hashServer ∧
    (KeepsScalar hashServer
        (handleHSET sampleEnv (fun l => l) ("hset" :: "h" :: "c" :: "7" :: "a" :: "y" :: [])
          hashServer) ∧
      KeepsScalar hashServer
        (handleINCRBY sampleEnv ("hset" :: "h" :: "c" :: "7" :: "a" :: "y" :: [])
          hashServer) ∧
      KeepsScalar hashServer
        (handleHDEL sampleEnv ("hset" :: "h" :: "c" :: "7" :: "a" :: "y" :: []) hashServer) ∧
      KeepsScalar hashServer
        (handleHGET sampleEnv ("hset" :: "h" :: "c" :: "7" :: "a" :: "y" :: []) hashServer) ∧
      KeepsScalar hashServer
        (handleHSTRLEN sampleEnv ("hset" :: "h" :: "c" :: "7" :: "a" :: "y" :: [])
          hashServer) ∧
      KeepsScalar hashServer
        (handleHVALS sampleEnv (fun l => l) ("hset" :: "h" :: "c" :: "7" :: "a" :: "y" :: [])
          hashServer) ∧
      KeepsScalar hashServer
        (handleHKEYS sampleEnv (fun l => l) ("hset" :: "h" :: "c" :: "7" :: "a" :: "y" :: [])
          hashServer) ∧
      KeepsScalar hashServer
        (handleHGETALL sampleEnv (fun l => l)
          ("hset" :: "h" :: "c" :: "7" :: "a" :: "y" :: []) hashServer) ∧
      KeepsScalar hashServer
        (handleHLEN sampleEnv ("hset" :: "h" :: "c" :: "7" :: "a" :: "y" :: []) hashServer) ∧
      KeepsScalar hashServer
        (handleHEXISTS sampleEnv ("hset" :: "h" :: "c" :: "7" :: "a" :: "y" :: [])
          hashServer) ∧
      KeepsScalar hashServer
        (handleHRANDFIELD sampleEnv (fun l => l) (fun _ => 0)
          ("hset" :: "h" :: "c" :: "7" :: "a" :: "y" :: []) hashServer)) ∧
    (handleHSET sampleEnv (fun l => l) ("hset" :: "h" :: "c" :: "7" :: "a" :: "y" :: [])
      hashServer).2.value "h" =
      Value.hash [("a", Value.str "y"), ("b", Value.str "x"), ("c", Value.int 7)] :=
  ⟨hashServer_scalar,
    hash_commands_keep_fields_scalar sampleEnv (fun l => l) (fun _ => 0)
      ("hset" :: "h" :: "c" :: "7" :: "a" :: "y" :: []) hashServer sampleAdapt_scalar
      (fun l => List.Perm.refl l) hashServer_scalar,
    by decide⟩

/-! ## HRANDFIELD on an empty hash -/

/-- C26: HRANDFIELD with a negative count on an empty hash calls `rand.Intn(0)`, which
panics.  `HDEL h a b` on the hash with the fields `a` and `b` replies 2 and leaves the empty
hash under `h`; on that store `HRANDFIELD h -1` ends in the panic, whatever the random
stream. -/
theorem handleHRANDFIELD_panics_on_empty_hash :
    (handleHDEL sampleEnv ("hdel" :: "h" :: "a" :: "b" :: []) hashServer).1 =
      Reply.ok ":2\r\n\r\n" ∧
    (handleHDEL sampleEnv ("hdel" :: "h" :: "a" :: "b" :: []) hashServer).2.present "h"
      = true ∧
    (handleHDEL sampleEnv ("hdel" :: "h" :: "a" :: "b" :: []) hashServer).2.value "h"
      = Value.hash [] ∧
    (∀ rnd : Nat → Nat,
      (handleHRANDFIELD sampleEnv (fun l => l) rnd ("hrandfield" :: "h" :: "-1" :: [])
        (handleHDEL sampleEnv ("hdel" :: "h" :: "a" :: "b" :: []) hashServer).2).1
      = Reply.panic) ∧
    pluckLoop (fun _ => 0) false 1 0 [] [] = none := by
  refine ⟨by decide, by decide, by decide, fun rnd => ?_, rfl⟩
  rfl

/-! ## The configuration -/

/-- C27: when the file named by `-config` has the extension `.json` and does not decode,
`GetConfig` returns the empty `Config` together with the nil error, whereas for a `.yaml`
file that does not decode it returns the empty `Config` together with the error of the
decoder. -/
theorem GetConfig_json_decode_error_is_dropped :
    (∀ (i : ConfigInput) (name err : String),
      GetConfig { i with config := "conf.json", opened := some name,
                         Ext := fun _ => ".json", jsonDecode := fun _ => Except.error err }
        = ConfigResult.returned Config.zero none) ∧
    GetConfig brokenJson = ConfigResult.returned Config.zero none ∧
    GetConfig brokenYaml =
      ConfigResult.returned Config.zero (some "yaml: did not find expected node content") := by
  refine ⟨fun i name err => ?_, by decide, by decide⟩
  have h : ¬ ("conf.json".utf8ByteSize = 0) := by decide
  simp [GetConfig, h]

end Memstore
